import Mathlib

/-
  Shallow embedding of the grmpy two-phase workflow
  (src/c++/lib/grmpy/Workflow.cpp) and of the grmpy option
  post-processing (src/c++/main/grmpy.cpp) of the paragraph repository.

  Modelling conventions:
  * The shared mutex `mutex_` serializes every access to the shared
    cursors, the termination flag, the aligned-samples table bookkeeping
    and the combined output stream.  Each transition of the system
    (`schedStep`) is one maximal lock-held section of one worker thread;
    the external collaborator calls (alignSingleSample, countAndGenotype)
    run with the mutex released and are delimited by invoke/finish
    events, so arbitrary interleavings of the unlocked compute sections
    are captured by the nondeterministic scheduler choice.
  * Repository code that is not under src/ is modelled from the spec
    where it decides a claim (common/Threads.hh: CPU_THREADS joins all
    workers before returning, ASYNC_BLOCK_WITH_CLEANUP ORs the failure
    of the guarded block into `terminate_` at block exit while a failure
    ends the worker's loop, unlock_guard releases the mutex for the
    duration of the external call; common/Error.hh: `error(...)` is
    fatal; grmpy/AlignSamples.hh: the aligner writes into its uniquely
    owned table slot).  Definitions for such code carry a doc comment
    saying so.
  * Logging, BAM readers, gzip filters and file-system mechanics do not
    touch the shared state and are omitted.
-/

namespace Grmpy

/-- One manifest entry (genotyping::SampleInfo of the external genotyping
library): sample name, input file locators, and the optional pre-computed
alignment payload; `none` models a null `get_alignment_data()` value. -/
structure SampleInfo where
  sampleName : String
  filename : String
  indexFilename : String
  alignmentData : Option String
deriving DecidableEq, Inhabited

/-- Construction-time inputs of grmpy::Workflow (Workflow.cpp:50-63) that
the modelled behaviour depends on.  The thread count of the pools is kept
as a separate parameter `N`. -/
structure Config where
  graphSpecPaths : List String
  manifest : List SampleInfo
  outputFilePath : String
  outputFolderPath : String
deriving DecidableEq, Inhabited

/-- Number of graph specs; a GraphIndex is a position below `nGr cfg`. -/
def nGr (cfg : Config) : Nat := cfg.graphSpecPaths.length

/-- Number of rows of the aligned-samples table
(Workflow.cpp:64, `max(1, graphSpecPaths_.size())`). -/
def numRows (cfg : Config) : Nat := max 1 (nGr cfg)

/-- One entry of `unalignedSamples_`: a sample together with the shared
cursor `unprocessedGraphs_` over the graph indices it still needs.  The
C++ iterator into `graphSpecPaths_` is modelled by its offset, with
`nGr cfg` playing the role of the end iterator. -/
structure UnalignedSample where
  sample : SampleInfo
  unprocessedGraphs : Nat
deriving DecidableEq, Inhabited

/-- The `unalignedSamples_` sequence built by the Workflow constructor
(Workflow.cpp:65-68): every manifest sample is pushed, its cursor at
`begin` (0) when its alignment payload is null and already at `end`
(`nGr cfg`) otherwise. -/
def initUnaligned (cfg : Config) : List UnalignedSample :=
  cfg.manifest.map fun s =>
    { sample := s
      unprocessedGraphs := if s.alignmentData.isNone then 0 else nGr cfg }

/-- The `alignedSamples_` table built by the Workflow constructor
(Workflow.cpp:64-82): `numRows cfg` rows, each holding every manifest
sample in manifest order (when no graphs are given there is a single row;
the constructor asserts in that case that every sample is pre-aligned). -/
def initAligned (cfg : Config) : List (List SampleInfo) :=
  List.replicate (numRows cfg) cfg.manifest

/-- Tokens of the combined output stream (`fos` of Workflow::run): the
framing brackets, the separator comma, and one genotyping result record
per graph index. -/
inductive Tok
  | lbrack
  | rbrack
  | comma
  | record (g : Nat)
deriving DecidableEq

/-- Opening framing written before the two phases (Workflow.cpp:220-223).
-/
def openTok (cfg : Config) : List Tok :=
  if cfg.outputFilePath ≠ ("") ∧ 1 < nGr cfg then [Tok.lbrack] else []

/-- Closing framing written after the two phases (Workflow.cpp:234-237).
-/
def closeTok (cfg : Config) : List Tok :=
  if cfg.outputFilePath ≠ ("") ∧ 1 < nGr cfg then [Tok.rbrack] else []

/-- Graph spec path handed to the genotyper (Workflow.cpp:168): the empty
string when no graphs were supplied, `graphSpecPaths_.at(g)` otherwise. -/
def specPathFor (cfg : Config) (g : Nat) : String :=
  if cfg.graphSpecPaths.isEmpty then ("") else cfg.graphSpecPaths.getD g ("")

/-- Modelled from the spec: the external single-sample aligner
(grmpy/AlignSamples.hh, not under src/) "writes into
AlignedTable[graphIndex][sampleSlot]" — it fills the alignment payload of
its uniquely owned table slot. -/
def alignSingleSample (s : SampleInfo) : SampleInfo :=
  { s with alignmentData := some ("aligned") }

/-- Control state of one alignment-phase worker executing
Workflow::alignSamples: `atS i` is the top of the sample loop at sample
index `i` (mutex held), `runA i g` is an aligner call in flight for
sample `i` and graph `g` (mutex released), `doneA` means the function
returned. -/
inductive AW
  | atS (i : Nat)
  | runA (i g : Nat)
  | doneA
deriving DecidableEq

/-- Control state of one genotyping-phase worker executing
Workflow::genotypeGraphs. -/
inductive GW
  | entry
  | runG (g : Nat)
  | doneG
deriving DecidableEq

/-- Phase of Workflow::run, separated by the two pool joins. -/
inductive Phase
  | aligning
  | genotyping
  | finished
deriving DecidableEq

/-- Shared mutable run state guarded by `mutex_` (the Workflow members
and the combined output stream of Workflow::run). -/
structure Shared where
  unaligned : List UnalignedSample
  aligned : List (List SampleInfo)
  terminate : Bool
  firstPrinted : Bool
  stream : List Tok
deriving DecidableEq

/-- Whole-system state: the shared state, the phase of Workflow::run,
the worker pools of both phases, and the shared genotyping iterator
`ungenotypedSamples` over `alignedSamples_`, modelled by its offset. -/
structure Sys where
  shared : Shared
  phase : Phase
  aworkers : List AW
  gcursor : Nat
  gworkers : List GW
deriving DecidableEq

/-- Observable events: invocation and return of the external aligner and
genotyper calls.  `gInvoke` records the graph spec path and the table row
the genotyper is invoked with (Workflow.cpp:168-169). -/
inductive Ev
  | aInvoke (w i g : Nat)
  | aFinish (w i g : Nat) (ok : Bool)
  | gInvoke (w g : Nat) (path : String) (row : List SampleInfo)
  | gFinish (w g : Nat) (ok : Bool)
deriving DecidableEq

/-- Cursor advance `input.unprocessedGraphs_++` (Workflow.cpp:123). -/
def bumpCursor (u : UnalignedSample) : UnalignedSample :=
  { u with unprocessedGraphs := u.unprocessedGraphs + 1 }

/-- One maximal lock-held walk of Workflow::alignSamples over the suffix
of `unalignedSamples_` from the worker's current sample
(Workflow.cpp:111-130): samples with exhausted cursors are passed over by
the for loop; at the first sample with work left, its next graph index is
claimed (the cursor advances first, Workflow.cpp:123), and then the
termination flag is checked (Workflow.cpp:126): if clear, the aligner is
about to be invoked (`some` result: relative index of the sample and the
claimed graph index); if set, the worker breaks out of the graph loop
without invoking — leaving the claimed index unprocessed — and moves on
to the next sample. -/
def claimSegAux (nG : Nat) (term : Bool) :
    List UnalignedSample → List UnalignedSample × Option (Nat × Nat)
  | [] => ([], none)
  | u :: rest =>
    if u.unprocessedGraphs < nG then
      if term then
        let r := claimSegAux nG term rest
        (bumpCursor u :: r.1, none)
      else (bumpCursor u :: rest, some (0, u.unprocessedGraphs))
    else
      let r := claimSegAux nG term rest
      (u :: r.1, r.2.map fun p => (p.1 + 1, p.2))

/-- Lift of `claimSegAux` to the absolute sample index `i` at which the
worker resumes the sample loop. -/
def claimSeg (nG : Nat) (term : Bool) (us : List UnalignedSample) (i : Nat) :
    List UnalignedSample × Option (Nat × Nat) :=
  let r := claimSegAux nG term (us.drop i)
  (us.take i ++ r.1, r.2.map fun p => (i + p.1, p.2))

/-- One lock-held claim attempt of Workflow::genotypeGraphs
(Workflow.cpp:152-164): while rows remain, the shared iterator advances
first (Workflow.cpp:154), and only then is the termination flag checked
(Workflow.cpp:160) — when it is set the worker breaks out without
invoking the genotyper, the claimed row left unprocessed. -/
def genoClaim (rows : Nat) (term : Bool) (gcursor : Nat) : Nat × Option Nat :=
  if gcursor < rows then
    if term then (gcursor + 1, none) else (gcursor + 1, some gcursor)
  else (gcursor, none)

/-- In-place update of the i-th element of a list; out-of-range indices
leave the list unchanged (the C++ uses bounds-checked `at`). -/
def modifyNth (f : α → α) : Nat → List α → List α
  | _, [] => []
  | 0, a :: as => f a :: as
  | n + 1, a :: as => a :: modifyNth f n as

/-- Combined-stream append performed under the mutex after a genotyper
call returns (Workflow.cpp:180-188): only when an output file path is
configured; a comma is prefixed unless this is the first record written
overall. -/
def writeRecord (cfg : Config) (sh : Shared) (g : Nat) : Shared :=
  if cfg.outputFilePath = ("") then sh
  else
    { sh with
      stream := sh.stream ++ (if sh.firstPrinted then [Tok.comma] else []) ++ [Tok.record g]
      firstPrinted := true }

def AW.isDone : AW → Bool
  | .doneA => true
  | _ => false

def GW.isDone : GW → Bool
  | .doneG => true
  | _ => false

/-- Scheduler choices: which worker performs its next atomic section —
with the outcome of the external call chosen nondeterministically at the
matching finish step — plus the two pool joins of Workflow::run. -/
inductive Choice
  | aSeg (w : Nat)
  | aFin (w : Nat) (ok : Bool)
  | barrier
  | gClaim (w : Nat)
  | gFin (w : Nat) (ok : Bool)
  | finalize

/-- Entry section of one alignment worker (Workflow.cpp:108-130): from
the top of the sample loop it claims its first piece of work, or walks
off the end of the sample list and returns. -/
def aSegStep (cfg : Config) (w : Nat) (s : Sys) : Option (Sys × List Ev) :=
  match s.phase, s.aworkers[w]? with
  | Phase.aligning, some (AW.atS i) =>
    let r := claimSeg (nGr cfg) s.shared.terminate s.shared.unaligned i
    match r.2 with
    | some p =>
      some ({ s with
                shared := { s.shared with unaligned := r.1 }
                aworkers := s.aworkers.set w (AW.runA p.1 p.2) },
            [Ev.aInvoke w p.1 p.2])
    | none =>
      some ({ s with
                shared := { s.shared with unaligned := r.1 }
                aworkers := s.aworkers.set w AW.doneA }, [])
  | _, _ => none

/-- Return of an aligner call (Workflow.cpp:124-144): on success the
aligner has filled the claimed table slot and the worker, holding the
mutex again, continues the graph loop of its sample; on failure the
cleanup of ASYNC_BLOCK_WITH_CLEANUP ORs the failure into the termination
flag and the worker's loop ends (modelled from the spec for the macro,
which is not under src/). -/
def aFinStep (cfg : Config) (w : Nat) (ok : Bool) (s : Sys) : Option (Sys × List Ev) :=
  match s.phase, s.aworkers[w]? with
  | Phase.aligning, some (AW.runA i g) =>
    if ok then
      let tbl := modifyNth (modifyNth alignSingleSample i) g s.shared.aligned
      let r := claimSeg (nGr cfg) s.shared.terminate s.shared.unaligned i
      match r.2 with
      | some p =>
        some ({ s with
                  shared := { s.shared with unaligned := r.1, aligned := tbl }
                  aworkers := s.aworkers.set w (AW.runA p.1 p.2) },
              [Ev.aFinish w i g true, Ev.aInvoke w p.1 p.2])
      | none =>
        some ({ s with
                  shared := { s.shared with unaligned := r.1, aligned := tbl }
                  aworkers := s.aworkers.set w AW.doneA },
              [Ev.aFinish w i g true])
    else
      some ({ s with
                shared := { s.shared with terminate := true }
                aworkers := s.aworkers.set w AW.doneA },
            [Ev.aFinish w i g false])
  | _, _ => none

/-- The join of the alignment pool followed by the start of the
genotyping pool with the shared iterator at the first row
(Workflow.cpp:226-230).  Modelled from the spec for CPU_THREADS
(common/Threads.hh, not under src/): `execute` spawns `N` workers and
"blocks the caller until all workers have returned". -/
def barrierStep (N : Nat) (s : Sys) : Option (Sys × List Ev) :=
  match s.phase with
  | Phase.aligning =>
    if s.aworkers.all AW.isDone then
      some ({ s with
                phase := Phase.genotyping
                gcursor := 0
                gworkers := List.replicate N GW.entry }, [])
    else none
  | _ => none

/-- Entry section of one genotyping worker (Workflow.cpp:148-169). -/
def gClaimStep (cfg : Config) (w : Nat) (s : Sys) : Option (Sys × List Ev) :=
  match s.phase, s.gworkers[w]? with
  | Phase.genotyping, some GW.entry =>
    let r := genoClaim s.shared.aligned.length s.shared.terminate s.gcursor
    match r.2 with
    | some g =>
      some ({ s with gcursor := r.1, gworkers := s.gworkers.set w (GW.runG g) },
            [Ev.gInvoke w g (specPathFor cfg g) (s.shared.aligned.getD g [])])
    | none =>
      some ({ s with gcursor := r.1, gworkers := s.gworkers.set w GW.doneG }, [])
  | _, _ => none

/-- Return of a genotyper call (Workflow.cpp:158-189): on success the
worker, holding the mutex again, appends the result record to the
combined stream and loops back to claim the next row; on failure the
termination flag is set and the worker's loop ends without writing. -/
def gFinStep (cfg : Config) (w : Nat) (ok : Bool) (s : Sys) : Option (Sys × List Ev) :=
  match s.phase, s.gworkers[w]? with
  | Phase.genotyping, some (GW.runG g) =>
    if ok then
      let sh := writeRecord cfg s.shared g
      let r := genoClaim sh.aligned.length sh.terminate s.gcursor
      match r.2 with
      | some g2 =>
        some ({ s with
                  shared := sh
                  gcursor := r.1
                  gworkers := s.gworkers.set w (GW.runG g2) },
              [Ev.gFinish w g true,
               Ev.gInvoke w g2 (specPathFor cfg g2) (sh.aligned.getD g2 [])])
      | none =>
        some ({ s with shared := sh, gcursor := r.1, gworkers := s.gworkers.set w GW.doneG },
              [Ev.gFinish w g true])
    else
      some ({ s with
                shared := { s.shared with terminate := true }
                gworkers := s.gworkers.set w GW.doneG },
            [Ev.gFinish w g false])
  | _, _ => none

/-- The join of the genotyping pool followed by the closing framing of
the combined stream (Workflow.cpp:230-237). -/
def finalizeStep (cfg : Config) (s : Sys) : Option (Sys × List Ev) :=
  match s.phase with
  | Phase.genotyping =>
    if s.gworkers.all GW.isDone then
      some ({ s with
                phase := Phase.finished
                shared := { s.shared with stream := s.shared.stream ++ closeTok cfg } }, [])
    else none
  | _ => none

/-- One atomic transition of the whole system. -/
def schedStep (cfg : Config) (N : Nat) : Choice → Sys → Option (Sys × List Ev)
  | Choice.aSeg w, s => aSegStep cfg w s
  | Choice.aFin w ok, s => aFinStep cfg w ok s
  | Choice.barrier, s => barrierStep N s
  | Choice.gClaim w, s => gClaimStep cfg w s
  | Choice.gFin w ok, s => gFinStep cfg w ok s
  | Choice.finalize, s => finalizeStep cfg s

/-- Initial system state at the top of Workflow::run: the opening framing
already written (Workflow.cpp:220-223) and the alignment pool about to
start at the top of Workflow::alignSamples. -/
def initSys (cfg : Config) (N : Nat) : Sys :=
  { shared :=
      { unaligned := initUnaligned cfg
        aligned := initAligned cfg
        terminate := false
        firstPrinted := false
        stream := openTok cfg }
    phase := Phase.aligning
    aworkers := List.replicate N (AW.atS 0)
    gcursor := 0
    gworkers := [] }

/-- Some scheduler choice takes `s` to `s2`, emitting `evs`. -/
def StepTo (cfg : Config) (N : Nat) (s s2 : Sys) (evs : List Ev) : Prop :=
  ∃ c, schedStep cfg N c s = some (s2, evs)

/-- Finite executions — arbitrary interleavings of the worker pools under
the mutex discipline — accumulating the emitted events. -/
inductive Run (cfg : Config) (N : Nat) : Sys → List Ev → Sys → Prop
  | refl (s : Sys) : Run cfg N s [] s
  | tail {s s2 s3 : Sys} {evs evs2 : List Ev} :
      Run cfg N s evs s2 → StepTo cfg N s2 s3 evs2 → Run cfg N s (evs ++ evs2) s3

/-- A state reachable from the initial state. -/
def Reach (cfg : Config) (N : Nat) (s : Sys) : Prop :=
  ∃ evs, Run cfg N (initSys cfg N) evs s

/-- Failure of an external call. -/
def isFailEv : Ev → Bool
  | Ev.aFinish _ _ _ ok => !ok
  | Ev.gFinish _ _ ok => !ok
  | _ => false

/-- Invocation of an external call. -/
def isInvokeEv : Ev → Bool
  | Ev.aInvoke _ _ _ => true
  | Ev.gInvoke _ _ _ _ => true
  | _ => false

/-- Alignment-phase event. -/
def isAEv : Ev → Bool
  | Ev.aInvoke _ _ _ => true
  | Ev.aFinish _ _ _ _ => true
  | _ => false

def aEvents (evs : List Ev) : List Ev := evs.filter fun e => isAEv e

def gEvents (evs : List Ev) : List Ev := evs.filter fun e => !isAEv e

def aInvPairs (evs : List Ev) : List (Nat × Nat) :=
  evs.filterMap fun e => match e with
    | Ev.aInvoke _ i g => some (i, g)
    | _ => none

def aFinPairs (evs : List Ev) : List (Nat × Nat) :=
  evs.filterMap fun e => match e with
    | Ev.aFinish _ i g _ => some (i, g)
    | _ => none

def gInvGs (evs : List Ev) : List Nat :=
  evs.filterMap fun e => match e with
    | Ev.gInvoke _ g _ _ => some g
    | _ => none

def gInvFull (evs : List Ev) : List (Nat × Nat × String × List SampleInfo) :=
  evs.filterMap fun e => match e with
    | Ev.gInvoke w g p row => some (w, g, p, row)
    | _ => none

def gFinGs (evs : List Ev) : List Nat :=
  evs.filterMap fun e => match e with
    | Ev.gFinish _ g _ => some g
    | _ => none

/-- The (sample, graph) pair an alignment worker is processing, if any. -/
def awPair : AW → Option (Nat × Nat)
  | AW.runA i g => some (i, g)
  | _ => none

/-- The graph index a genotyping worker is processing, if any. -/
def gwG : GW → Option Nat
  | GW.runG g => some g
  | _ => none

/-- The (sample, graph) pairs of the aligner calls currently in flight. -/
def inflightPairsA (s : Sys) : List (Nat × Nat) :=
  s.aworkers.filterMap awPair

/-- Graph indices of the genotyper calls currently in flight. -/
def inflightGs (s : Sys) : List Nat :=
  s.gworkers.filterMap gwG

/-- No external call failed among the events. -/
def NoFail (evs : List Ev) : Prop := ∀ e ∈ evs, isFailEv e = false

/-- Cursor of sample `j` in state `s`. -/
def cursorD (s : Sys) (j : Nat) : Nat :=
  (s.shared.unaligned.getD j default).unprocessedGraphs

/-- The (sample, graph) pairs of sample `i` for graph indices below `c`,
empty for a pre-aligned sample. -/
def samplePairs (cfg : Config) (i c : Nat) : List (Nat × Nat) :=
  if (cfg.manifest.getD i default).alignmentData.isNone then
    (List.range c).map fun g => (i, g)
  else []

/-- The (sample, graph) pairs needing alignment: every graph index for
every manifest sample whose alignment payload is null. -/
def neededPairs (cfg : Config) : List (Nat × Nat) :=
  (List.range cfg.manifest.length).flatMap fun i => samplePairs cfg i (nGr cfg)

/-- The (sample, graph) pairs below the current cursors. -/
def pairsBelow (cfg : Config) (s : Sys) : List (Nat × Nat) :=
  (List.range cfg.manifest.length).flatMap fun i =>
    samplePairs cfg i ((s.shared.unaligned.getD i default).unprocessedGraphs)

/-- Record tokens of a stream, in order. -/
def recordsOf (ts : List Tok) : List Nat :=
  ts.filterMap fun t => match t with
    | Tok.record g => some g
    | _ => none

/-- Comma-separated record sequence for the given records, in order. -/
def streamBody : List Nat → List Tok
  | [] => []
  | g :: gs => Tok.record g :: gs.flatMap fun g2 => [Tok.comma, Tok.record g2]

/-- Cursor of the entry at index `k`. -/
def ucur (us : List UnalignedSample) (k : Nat) : Nat :=
  (us.getD k default).unprocessedGraphs

theorem claimSegAux_fst_length (nG : Nat) (term : Bool) (l : List UnalignedSample) :
    (claimSegAux nG term l).1.length = l.length := by
  induction l with
  | nil => simp [claimSegAux]
  | cons u rest ih =>
    simp only [claimSegAux]
    split
    · split
      · simpa using ih
      · simp
    · simpa using ih

theorem claimSegAux_fst_sample (nG : Nat) (term : Bool) (l : List UnalignedSample) :
    (claimSegAux nG term l).1.map (fun u => u.sample) = l.map (fun u => u.sample) := by
  induction l with
  | nil => simp [claimSegAux]
  | cons u rest ih =>
    simp only [claimSegAux]
    split
    · split
      · simpa [bumpCursor] using ih
      · simp [bumpCursor]
    · simpa using ih

theorem claimSegAux_true (nG : Nat) (l : List UnalignedSample) :
    claimSegAux nG true l =
      (l.map fun u => if u.unprocessedGraphs < nG then bumpCursor u else u, none) := by
  induction l with
  | nil => simp [claimSegAux]
  | cons u rest ih =>
    simp only [claimSegAux, List.map_cons]
    split
    · simp_all
    · simp_all

theorem claimSegAux_false_none (nG : Nat) (l : List UnalignedSample)
    (h : (claimSegAux nG false l).2 = none) :
    (claimSegAux nG false l).1 = l ∧ ∀ u ∈ l, nG ≤ u.unprocessedGraphs := by
  induction l with
  | nil => simp [claimSegAux]
  | cons u rest ih =>
    by_cases hcur : u.unprocessedGraphs < nG
    · simp [claimSegAux, hcur] at h
    · simp only [claimSegAux, if_neg hcur, Option.map_eq_none'] at h ⊢
      obtain ⟨h1, h2⟩ := ih h
      refine ⟨by simp [h1, h], ?_⟩
      intro v hv
      rw [List.mem_cons] at hv
      rcases hv with rfl | hv
      · exact Nat.le_of_not_lt hcur
      · exact h2 v hv

theorem claimSegAux_false_some (nG : Nat) (l : List UnalignedSample) (j g : Nat)
    (h : (claimSegAux nG false l).2 = some (j, g)) :
    j < l.length ∧ (l.getD j default).unprocessedGraphs = g ∧ g < nG ∧
    (∀ k, k ≠ j → (claimSegAux nG false l).1.getD k default = l.getD k default) ∧
    (claimSegAux nG false l).1.getD j default = bumpCursor (l.getD j default) ∧
    (∀ k, k < j → nG ≤ (l.getD k default).unprocessedGraphs) := by
  induction l generalizing j g with
  | nil => simp [claimSegAux] at h
  | cons u rest ih =>
    by_cases hcur : u.unprocessedGraphs < nG
    · simp only [claimSegAux, if_pos hcur, Bool.false_eq_true, if_false, Option.some.injEq, Prod.mk.injEq] at h ⊢
      obtain ⟨hj, hg⟩ := h
      subst hj
      subst hg
      refine ⟨by simp, by simp, hcur, ?_, by simp, by omega⟩
      intro k hk
      match k with
      | 0 => exact absurd rfl hk
      | k + 1 => simp [claimSegAux, if_pos hcur]
    · simp only [claimSegAux, if_neg hcur, Option.map_eq_some'] at h ⊢
      obtain ⟨p, hp, hpe⟩ := h
      have hj : p.1 + 1 = j := by
        have := congrArg Prod.fst hpe
        simpa using this
      have hg : p.2 = g := by
        have := congrArg Prod.snd hpe
        simpa using this
      subst hj
      subst hg
      obtain ⟨h1, h2, h3, h4, h5, h6⟩ := ih p.1 p.2 hp
      refine ⟨by simpa using h1, by simpa using h2, h3, ?_, by simpa using h5, ?_⟩
      · intro k hk
        match k with
        | 0 => simp
        | k + 1 =>
          simp only [List.getD_cons_succ]
          exact h4 k (by omega)
      · intro k hk
        match k with
        | 0 => exact Nat.le_of_not_lt hcur
        | k + 1 =>
          simp only [List.getD_cons_succ]
          exact h6 k (by omega)

theorem getD_drop_eq (l : List UnalignedSample) (i k : Nat) :
    (l.drop i).getD k default = l.getD (i + k) default := by
  rw [List.getD_eq_getElem?_getD, List.getD_eq_getElem?_getD, List.getElem?_drop]

theorem claimSeg_fst_length (nG : Nat) (term : Bool) (us : List UnalignedSample) (i : Nat)
    (hi : i ≤ us.length) : (claimSeg nG term us i).1.length = us.length := by
  simp only [claimSeg, List.length_append, List.length_take, claimSegAux_fst_length,
    List.length_drop]
  omega

theorem claimSeg_fst_sample (nG : Nat) (term : Bool) (us : List UnalignedSample) (i : Nat) :
    (claimSeg nG term us i).1.map (fun u => u.sample) = us.map (fun u => u.sample) := by
  have h1 := claimSegAux_fst_sample nG term (us.drop i)
  simp only [claimSeg, List.map_append, h1, List.map_take, List.map_drop,
    List.take_append_drop]

theorem claimSeg_fst_getD (nG : Nat) (term : Bool) (us : List UnalignedSample) (i : Nat)
    (hi : i ≤ us.length) (k : Nat) :
    (claimSeg nG term us i).1.getD k default =
      if k < i then us.getD k default
      else (claimSegAux nG term (us.drop i)).1.getD (k - i) default := by
  simp only [claimSeg]
  by_cases hk : k < i
  · rw [if_pos hk, List.getD_append _ _ _ _ (by rw [List.length_take]; omega)]
    rw [List.getD_eq_getElem?_getD, List.getD_eq_getElem?_getD, List.getElem?_take]
    simp [hk]
  · rw [if_neg hk, List.getD_append_right _ _ _ _ (by rw [List.length_take]; omega)]
    congr 2
    rw [List.length_take]
    omega

theorem claimSeg_snd_none (nG : Nat) (us : List UnalignedSample) (i : Nat)
    (h : (claimSegAux nG false (us.drop i)).2 = none) :
    (claimSeg nG false us i).2 = none := by
  simp [claimSeg, h]

theorem claimSeg_false_none (nG : Nat) (us : List UnalignedSample) (i : Nat)
    (hi : i ≤ us.length) (h : (claimSeg nG false us i).2 = none) :
    (claimSeg nG false us i).1 = us ∧
    ∀ k, i ≤ k → k < us.length → nG ≤ ucur us k := by
  have hsnd : (claimSegAux nG false (us.drop i)).2 = none := by
    simpa [claimSeg, Option.map_eq_none'] using h
  obtain ⟨h1, h2⟩ := claimSegAux_false_none nG (us.drop i) hsnd
  constructor
  · simp [claimSeg, h1, List.take_append_drop]
  · intro k hik hk
    have hlen : k - i < (us.drop i).length := by
      rw [List.length_drop]
      omega
    have hmem : (us.drop i).getD (k - i) default ∈ us.drop i := by
      rw [List.getD_eq_getElem?_getD, List.getElem?_eq_getElem hlen]
      exact List.getElem_mem hlen
    have heq : (us.drop i).getD (k - i) default = us.getD k default := by
      rw [getD_drop_eq]
      congr 1
      omega
    have := h2 _ hmem
    rw [heq] at this
    exact this

theorem claimSeg_false_some (nG : Nat) (us : List UnalignedSample) (i j g : Nat)
    (hi : i ≤ us.length) (h : (claimSeg nG false us i).2 = some (j, g)) :
    i ≤ j ∧ j < us.length ∧ ucur us j = g ∧ g < nG ∧
    (∀ k, k ≠ j → (claimSeg nG false us i).1.getD k default = us.getD k default) ∧
    (claimSeg nG false us i).1.getD j default = bumpCursor (us.getD j default) ∧
    (∀ k, i ≤ k → k < j → nG ≤ ucur us k) := by
  have h2 : (claimSegAux nG false (us.drop i)).2.map
      (fun p => (i + p.1, p.2)) = some (j, g) := by
    simpa [claimSeg] using h
  rw [Option.map_eq_some'] at h2
  obtain ⟨p, hp, hpe⟩ := h2
  obtain ⟨j2, g2⟩ := p
  have hj : i + j2 = j := by
    have := congrArg Prod.fst hpe
    simpa using this
  have hg : g2 = g := by
    have := congrArg Prod.snd hpe
    simpa using this
  subst hj
  subst hg
  obtain ⟨a1, a2, a3, a4, a5, a6⟩ := claimSegAux_false_some nG (us.drop i) j2 g2 hp
  rw [List.length_drop] at a1
  have hcurj : ucur us (i + j2) = g2 := by
    rw [ucur, ← getD_drop_eq, a2]
  refine ⟨by omega, by omega, hcurj, a3, ?_, ?_, ?_⟩
  · intro k hk
    rw [claimSeg_fst_getD nG false us i hi k]
    by_cases hki : k < i
    · rw [if_pos hki]
    · rw [if_neg hki, a4 (k - i) (by omega), getD_drop_eq]
      congr 1
      omega
  · rw [claimSeg_fst_getD nG false us i hi (i + j2), if_neg (by omega)]
    have hjj : i + j2 - i = j2 := by omega
    rw [hjj, a5, getD_drop_eq]
  · intro k hik hk
    have := a6 (k - i) (by omega)
    rw [getD_drop_eq] at this
    have hkk : i + (k - i) = k := by omega
    rw [hkk] at this
    exact this

theorem claimSeg_true_snd (nG : Nat) (us : List UnalignedSample) (i : Nat) :
    (claimSeg nG true us i).2 = none := by
  simp [claimSeg, claimSegAux_true]

theorem claimSeg_true_fst_getD (nG : Nat) (us : List UnalignedSample) (i k : Nat)
    (hi : i ≤ us.length) (hk : k < us.length) :
    (claimSeg nG true us i).1.getD k default =
      if k < i then us.getD k default
      else if ucur us k < nG then bumpCursor (us.getD k default)
      else us.getD k default := by
  rw [claimSeg_fst_getD nG true us i hi k]
  by_cases hki : k < i
  · simp [hki]
  · rw [if_neg hki, if_neg hki, claimSegAux_true]
    have hsome : us[k]? = some (us.getD k default) := by
      rw [List.getElem?_eq_getElem hk, List.getD_eq_getElem?_getD,
        List.getElem?_eq_getElem hk]
      rfl
    rw [List.getD_eq_getElem?_getD, List.getElem?_map, List.getElem?_drop]
    have hik : i + (k - i) = k := by omega
    rw [hik, hsome]
    simp only [Option.map_some', Option.getD_some]
    rfl

theorem claimSeg_entry_cases (nG : Nat) (term : Bool) (us : List UnalignedSample) (i k : Nat)
    (hi : i ≤ us.length) :
    (claimSeg nG term us i).1.getD k default = us.getD k default ∨
    (ucur us k < nG ∧
      (claimSeg nG term us i).1.getD k default = bumpCursor (us.getD k default)) := by
  by_cases hk : k < us.length
  · cases term
    · cases h : (claimSeg nG false us i).2 with
      | none =>
        left
        rw [(claimSeg_false_none nG us i hi h).1]
      | some p =>
        obtain ⟨j, g⟩ := p
        obtain ⟨b1, b2, b3, b4, b5, b6, b7⟩ := claimSeg_false_some nG us i j g hi h
        by_cases hkj : k = j
        · subst hkj
          right
          exact ⟨by rw [b3]; exact b4, b6⟩
        · left
          exact b5 k hkj
    · rw [claimSeg_true_fst_getD nG us i k hi hk]
      by_cases hki : k < i
      · left
        rw [if_pos hki]
      · rw [if_neg hki]
        by_cases hcur : ucur us k < nG
        · right
          exact ⟨hcur, by rw [if_pos hcur]⟩
        · left
          rw [if_neg hcur]
  · left
    rw [List.getD_eq_getElem?_getD, List.getD_eq_getElem?_getD,
      List.getElem?_eq_none
        (show (claimSeg nG term us i).1.length ≤ k by
          rw [claimSeg_fst_length nG term us i hi]; omega),
      List.getElem?_eq_none (show us.length ≤ k by omega)]

theorem modifyNth_length {α : Type} (f : α → α) (n : Nat) (l : List α) :
    (modifyNth f n l).length = l.length := by
  induction l generalizing n with
  | nil => cases n <;> rfl
  | cons a as ih =>
    cases n with
    | zero => rfl
    | succ n => simp [modifyNth, ih]

theorem modifyNth_getD {α : Type} [Inhabited α] (f : α → α) (n : Nat) (l : List α)
    (k : Nat) (d : α) :
    (modifyNth f n l).getD k d =
      if k = n ∧ k < l.length then f (l.getD k d) else l.getD k d := by
  induction l generalizing n k with
  | nil => simp [modifyNth]
  | cons a as ih =>
    cases n with
    | zero =>
      cases k with
      | zero => simp [modifyNth]
      | succ k => simp [modifyNth]
    | succ n =>
      cases k with
      | zero => simp [modifyNth]
      | succ k =>
        simp only [modifyNth, List.getD_cons_succ, ih n k, List.length_cons]
        by_cases h1 : k = n ∧ k < as.length
        · rw [if_pos h1, if_pos (by omega)]
        · rw [if_neg h1, if_neg (by omega)]

theorem modifyNth_map_eq {α β : Type} (f : α → α) (m : α → β)
    (hf : ∀ a, m (f a) = m a) (n : Nat) (l : List α) :
    (modifyNth f n l).map m = l.map m := by
  induction l generalizing n with
  | nil => cases n <;> rfl
  | cons a as ih =>
    cases n with
    | zero => simp [modifyNth, hf]
    | succ n => simp [modifyNth, ih]

theorem filterMap_set_count {α β : Type} [BEq β] (f : α → Option β) (l : List α)
    (w : Nat) (v old : α) (hw : l[w]? = some old) (t : β) :
    ((l.set w v).filterMap f).count t + ((f old).toList).count t =
    (l.filterMap f).count t + ((f v).toList).count t := by
  induction l generalizing w with
  | nil => simp at hw
  | cons a rest ih =>
    cases w with
    | zero =>
      simp only [List.getElem?_cons_zero, Option.some.injEq] at hw
      subst hw
      simp only [List.set_cons_zero, List.filterMap_cons]
      cases h1 : f a <;> cases h2 : f v
      all_goals simp only [h1, h2, Option.toList, List.count_cons, List.count_nil]
      all_goals first
      | (split_ifs <;> omega)
      | omega
    | succ w =>
      simp only [List.getElem?_cons_succ] at hw
      simp only [List.set_cons_succ, List.filterMap_cons]
      cases h : f a
      · exact ih w hw
      · simp only [List.count_cons]
        have := ih w hw
        omega

theorem getElem?_set_inv {α : Type} {l : List α} {w w2 : Nat} {v st : α}
    (h : (l.set w v)[w2]? = some st) :
    (w2 = w ∧ w < l.length ∧ st = v) ∨ (w2 ≠ w ∧ l[w2]? = some st) := by
  by_cases hww : w2 = w
  · subst hww
    left
    have hlt : w2 < l.length := by
      by_contra hge
      rw [List.getElem?_eq_none (by rw [List.length_set]; omega)] at h
      simp at h
    rw [List.getElem?_set_eq_of_lt v hlt] at h
    simp only [Option.some.injEq] at h
    exact ⟨rfl, hlt, h.symm⟩
  · right
    rw [List.getElem?_set_ne (by omega)] at h
    exact ⟨hww, h⟩

theorem getElem?_of_mem_all {α : Type} {l : List α} {p : α → Bool} {w : Nat} {st : α}
    (hall : l.all p = true) (h : l[w]? = some st) : p st = true := by
  rw [List.all_eq_true] at hall
  exact hall st (List.getElem?_mem h)

theorem filterMap_nil_of_all_done {l : List AW} (hall : l.all AW.isDone = true) :
    l.filterMap awPair = [] := by
  rw [List.filterMap_eq_nil_iff]
  intro st hst
  rw [List.all_eq_true] at hall
  have := hall st hst
  cases st <;> simp_all [AW.isDone, awPair]

theorem gfilterMap_nil_of_all_done {l : List GW} (hall : l.all GW.isDone = true) :
    l.filterMap gwG = [] := by
  rw [List.filterMap_eq_nil_iff]
  intro st hst
  rw [List.all_eq_true] at hall
  have := hall st hst
  cases st <;> simp_all [GW.isDone, gwG]

theorem streamBody_append (wr : List Nat) (g : Nat) :
    streamBody (wr ++ [g]) =
      streamBody wr ++ (if wr = [] then [] else [Tok.comma]) ++ [Tok.record g] := by
  cases wr with
  | nil => simp [streamBody]
  | cons a as => simp [streamBody]

theorem recordsOf_append (t1 t2 : List Tok) :
    recordsOf (t1 ++ t2) = recordsOf t1 ++ recordsOf t2 := by
  simp [recordsOf]

theorem recordsOf_streamBody (wr : List Nat) : recordsOf (streamBody wr) = wr := by
  cases wr with
  | nil => simp [streamBody, recordsOf]
  | cons a as =>
    simp only [streamBody, recordsOf, List.filterMap_cons]
    induction as with
    | nil => simp
    | cons b bs ih => simpa using ih

theorem recordsOf_openTok (cfg : Config) : recordsOf (openTok cfg) = [] := by
  rw [openTok]
  split <;> simp [recordsOf]

theorem recordsOf_closeTok (cfg : Config) : recordsOf (closeTok cfg) = [] := by
  rw [closeTok]
  split <;> simp [recordsOf]

theorem aSegStep_inv {cfg : Config} {w : Nat} {s s2 : Sys} {evs2 : List Ev}
    (hc : aSegStep cfg w s = some (s2, evs2)) :
    s.phase = Phase.aligning ∧ ∃ i,
      s.aworkers[w]? = some (AW.atS i) ∧
      ((∃ j g,
          (claimSeg (nGr cfg) s.shared.terminate s.shared.unaligned i).2 = some (j, g) ∧
          s2 = { s with
                   shared := { s.shared with
                     unaligned := (claimSeg (nGr cfg) s.shared.terminate s.shared.unaligned i).1 }
                   aworkers := s.aworkers.set w (AW.runA j g) } ∧
          evs2 = [Ev.aInvoke w j g]) ∨
        ((claimSeg (nGr cfg) s.shared.terminate s.shared.unaligned i).2 = none ∧
         s2 = { s with
                  shared := { s.shared with
                    unaligned := (claimSeg (nGr cfg) s.shared.terminate s.shared.unaligned i).1 }
                  aworkers := s.aworkers.set w AW.doneA } ∧
         evs2 = [])) := by
  unfold aSegStep at hc
  split at hc
  · next i heq1 heq2 =>
    refine ⟨heq1, i, heq2, ?_⟩
    dsimp only at hc
    split at hc
    · next x p heq3 =>
      obtain ⟨j, g⟩ := p
      simp only [Option.some.injEq, Prod.mk.injEq] at hc
      exact Or.inl ⟨j, g, heq3, hc.1.symm, hc.2.symm⟩
    · next heq3 =>
      simp only [Option.some.injEq, Prod.mk.injEq] at hc
      exact Or.inr ⟨heq3, hc.1.symm, hc.2.symm⟩
  · simp at hc

theorem aFinStep_inv {cfg : Config} {w : Nat} {ok : Bool} {s s2 : Sys} {evs2 : List Ev}
    (hc : aFinStep cfg w ok s = some (s2, evs2)) :
    s.phase = Phase.aligning ∧ ∃ i g,
      s.aworkers[w]? = some (AW.runA i g) ∧
      ((ok = true ∧
        ((∃ j g2,
            (claimSeg (nGr cfg) s.shared.terminate s.shared.unaligned i).2 = some (j, g2) ∧
            s2 = { s with
                     shared := { s.shared with
                       unaligned := (claimSeg (nGr cfg) s.shared.terminate s.shared.unaligned i).1
                       aligned := modifyNth (modifyNth alignSingleSample i) g s.shared.aligned }
                     aworkers := s.aworkers.set w (AW.runA j g2) } ∧
            evs2 = [Ev.aFinish w i g true, Ev.aInvoke w j g2]) ∨
          ((claimSeg (nGr cfg) s.shared.terminate s.shared.unaligned i).2 = none ∧
           s2 = { s with
                    shared := { s.shared with
                      unaligned := (claimSeg (nGr cfg) s.shared.terminate s.shared.unaligned i).1
                      aligned := modifyNth (modifyNth alignSingleSample i) g s.shared.aligned }
                    aworkers := s.aworkers.set w AW.doneA } ∧
           evs2 = [Ev.aFinish w i g true]))) ∨
       (ok = false ∧
        s2 = { s with
                 shared := { s.shared with terminate := true }
                 aworkers := s.aworkers.set w AW.doneA } ∧
        evs2 = [Ev.aFinish w i g false])) := by
  unfold aFinStep at hc
  split at hc
  · next i g heq1 heq2 =>
    refine ⟨heq1, i, g, heq2, ?_⟩
    split at hc
    · next hok =>
      refine Or.inl ⟨hok, ?_⟩
      dsimp only at hc
      split at hc
      · next x p heq3 =>
        obtain ⟨j, g2⟩ := p
        simp only [Option.some.injEq, Prod.mk.injEq] at hc
        exact Or.inl ⟨j, g2, heq3, hc.1.symm, hc.2.symm⟩
      · next heq3 =>
        simp only [Option.some.injEq, Prod.mk.injEq] at hc
        exact Or.inr ⟨heq3, hc.1.symm, hc.2.symm⟩
    · next hok =>
      simp only [Option.some.injEq, Prod.mk.injEq] at hc
      exact Or.inr ⟨by simpa using hok, hc.1.symm, hc.2.symm⟩
  · simp at hc

theorem barrierStep_inv {N : Nat} {s s2 : Sys} {evs2 : List Ev}
    (hc : barrierStep N s = some (s2, evs2)) :
    s.phase = Phase.aligning ∧ s.aworkers.all AW.isDone = true ∧
    s2 = { s with
             phase := Phase.genotyping
             gcursor := 0
             gworkers := List.replicate N GW.entry } ∧ evs2 = [] := by
  unfold barrierStep at hc
  split at hc
  · next heq1 =>
    split at hc
    · next hall =>
      simp only [Option.some.injEq, Prod.mk.injEq] at hc
      exact ⟨heq1, hall, hc.1.symm, hc.2.symm⟩
    · simp at hc
  · simp at hc

theorem gClaimStep_inv {cfg : Config} {w : Nat} {s s2 : Sys} {evs2 : List Ev}
    (hc : gClaimStep cfg w s = some (s2, evs2)) :
    s.phase = Phase.genotyping ∧
      s.gworkers[w]? = some GW.entry ∧
      ((∃ g,
          (genoClaim s.shared.aligned.length s.shared.terminate s.gcursor).2 = some g ∧
          s2 = { s with
                   gcursor := (genoClaim s.shared.aligned.length s.shared.terminate s.gcursor).1
                   gworkers := s.gworkers.set w (GW.runG g) } ∧
          evs2 = [Ev.gInvoke w g (specPathFor cfg g) (s.shared.aligned.getD g [])]) ∨
        ((genoClaim s.shared.aligned.length s.shared.terminate s.gcursor).2 = none ∧
         s2 = { s with
                  gcursor := (genoClaim s.shared.aligned.length s.shared.terminate s.gcursor).1
                  gworkers := s.gworkers.set w GW.doneG } ∧
         evs2 = [])) := by
  unfold gClaimStep at hc
  split at hc
  · next heq1 heq2 =>
    refine ⟨heq1, heq2, ?_⟩
    dsimp only at hc
    split at hc
    · next g heq3 =>
      simp only [Option.some.injEq, Prod.mk.injEq] at hc
      exact Or.inl ⟨g, heq3, hc.1.symm, hc.2.symm⟩
    · next heq3 =>
      simp only [Option.some.injEq, Prod.mk.injEq] at hc
      exact Or.inr ⟨heq3, hc.1.symm, hc.2.symm⟩
  · simp at hc

theorem gFinStep_inv {cfg : Config} {w : Nat} {ok : Bool} {s s2 : Sys} {evs2 : List Ev}
    (hc : gFinStep cfg w ok s = some (s2, evs2)) :
    s.phase = Phase.genotyping ∧ ∃ g,
      s.gworkers[w]? = some (GW.runG g) ∧
      ((ok = true ∧
        ((∃ g2,
            (genoClaim (writeRecord cfg s.shared g).aligned.length
              (writeRecord cfg s.shared g).terminate s.gcursor).2 = some g2 ∧
            s2 = { s with
                     shared := writeRecord cfg s.shared g
                     gcursor := (genoClaim (writeRecord cfg s.shared g).aligned.length
                       (writeRecord cfg s.shared g).terminate s.gcursor).1
                     gworkers := s.gworkers.set w (GW.runG g2) } ∧
            evs2 = [Ev.gFinish w g true,
                    Ev.gInvoke w g2 (specPathFor cfg g2)
                      ((writeRecord cfg s.shared g).aligned.getD g2 [])]) ∨
          ((genoClaim (writeRecord cfg s.shared g).aligned.length
              (writeRecord cfg s.shared g).terminate s.gcursor).2 = none ∧
           s2 = { s with
                    shared := writeRecord cfg s.shared g
                    gcursor := (genoClaim (writeRecord cfg s.shared g).aligned.length
                      (writeRecord cfg s.shared g).terminate s.gcursor).1
                    gworkers := s.gworkers.set w GW.doneG } ∧
           evs2 = [Ev.gFinish w g true]))) ∨
       (ok = false ∧
        s2 = { s with
                 shared := { s.shared with terminate := true }
                 gworkers := s.gworkers.set w GW.doneG } ∧
        evs2 = [Ev.gFinish w g false])) := by
  unfold gFinStep at hc
  split at hc
  · next g heq1 heq2 =>
    refine ⟨heq1, g, heq2, ?_⟩
    split at hc
    · next hok =>
      refine Or.inl ⟨hok, ?_⟩
      dsimp only at hc
      split at hc
      · next g2 heq3 =>
        simp only [Option.some.injEq, Prod.mk.injEq] at hc
        exact Or.inl ⟨g2, heq3, hc.1.symm, hc.2.symm⟩
      · next heq3 =>
        simp only [Option.some.injEq, Prod.mk.injEq] at hc
        exact Or.inr ⟨heq3, hc.1.symm, hc.2.symm⟩
    · next hok =>
      simp only [Option.some.injEq, Prod.mk.injEq] at hc
      exact Or.inr ⟨by simpa using hok, hc.1.symm, hc.2.symm⟩
  · simp at hc

theorem finalizeStep_inv {cfg : Config} {s s2 : Sys} {evs2 : List Ev}
    (hc : finalizeStep cfg s = some (s2, evs2)) :
    s.phase = Phase.genotyping ∧ s.gworkers.all GW.isDone = true ∧
    s2 = { s with
             phase := Phase.finished
             shared := { s.shared with stream := s.shared.stream ++ closeTok cfg } } ∧
    evs2 = [] := by
  unfold finalizeStep at hc
  split at hc
  · next heq1 =>
    split at hc
    · next hall =>
      simp only [Option.some.injEq, Prod.mk.injEq] at hc
      exact ⟨heq1, hall, hc.1.symm, hc.2.symm⟩
    · simp at hc
  · simp at hc

theorem split_ev_append_a {evs evs2 : List Ev}
    (hsplit : evs = aEvents evs ++ gEvents evs) (hg : gEvents evs = [])
    (ha2 : ∀ e ∈ evs2, isAEv e = true) :
    evs ++ evs2 = aEvents (evs ++ evs2) ++ gEvents (evs ++ evs2) ∧
    gEvents (evs ++ evs2) = [] := by
  have h2 : gEvents evs2 = [] := by
    rw [gEvents, List.filter_eq_nil_iff]
    intro e he
    simp [ha2 e he]
  have h1 : aEvents evs2 = evs2 := by
    rw [aEvents, List.filter_eq_self]
    exact ha2
  have hga : gEvents (evs ++ evs2) = [] := by
    rw [gEvents, List.filter_append, ← gEvents, ← gEvents, hg, h2]
    rfl
  refine ⟨?_, hga⟩
  rw [hga, aEvents, List.filter_append, ← aEvents, ← aEvents, h1]
  conv_lhs => rw [hsplit, hg]
  simp

theorem split_ev_append_g {evs evs2 : List Ev}
    (hsplit : evs = aEvents evs ++ gEvents evs)
    (hg2 : ∀ e ∈ evs2, isAEv e = false) :
    evs ++ evs2 = aEvents (evs ++ evs2) ++ gEvents (evs ++ evs2) := by
  have h1 : aEvents evs2 = [] := by
    rw [aEvents, List.filter_eq_nil_iff]
    intro e he
    simp [hg2 e he]
  have h2 : gEvents evs2 = evs2 := by
    rw [gEvents, List.filter_eq_self]
    intro e he
    simp [hg2 e he]
  rw [aEvents, List.filter_append, ← aEvents, ← aEvents, h1,
    gEvents, List.filter_append, ← gEvents, ← gEvents, h2, List.append_nil]
  conv_lhs => rw [hsplit]
  simp

theorem writeRecord_aligned (cfg : Config) (sh : Shared) (g : Nat) :
    (writeRecord cfg sh g).aligned = sh.aligned := by
  rw [writeRecord]
  split <;> rfl

theorem writeRecord_unaligned (cfg : Config) (sh : Shared) (g : Nat) :
    (writeRecord cfg sh g).unaligned = sh.unaligned := by
  rw [writeRecord]
  split <;> rfl

theorem writeRecord_terminate (cfg : Config) (sh : Shared) (g : Nat) :
    (writeRecord cfg sh g).terminate = sh.terminate := by
  rw [writeRecord]
  split <;> rfl

theorem genoClaim_some {rows gcursor g : Nat} {term : Bool}
    (h : (genoClaim rows term gcursor).2 = some g) :
    g = gcursor ∧ gcursor < rows ∧ term = false ∧
    (genoClaim rows term gcursor).1 = gcursor + 1 := by
  by_cases h1 : gcursor < rows
  · cases term
    · simp only [genoClaim, if_pos h1, Bool.false_eq_true, if_false,
        Option.some.injEq] at h
      exact ⟨h.symm, h1, rfl, by simp [genoClaim, h1]⟩
    · simp [genoClaim, h1] at h
  · simp [genoClaim, h1] at h

theorem genoClaim_none {rows gcursor : Nat} {term : Bool}
    (h : (genoClaim rows term gcursor).2 = none) :
    (term = true ∧ gcursor < rows ∧ (genoClaim rows term gcursor).1 = gcursor + 1) ∨
    (rows ≤ gcursor ∧ (genoClaim rows term gcursor).1 = gcursor) := by
  by_cases h1 : gcursor < rows
  · cases term
    · simp [genoClaim, h1] at h
    · left
      exact ⟨rfl, h1, by simp [genoClaim, h1]⟩
  · right
    exact ⟨by omega, by simp [genoClaim, h1]⟩

/-- Unconditional invariant of every reachable state of the workflow,
paired with the events emitted so far. -/
structure InvU (cfg : Config) (N : Nat) (s : Sys) (evs : List Ev) : Prop where
  ulen : s.shared.unaligned.length = cfg.manifest.length
  usamples : s.shared.unaligned.map (fun u => u.sample) = cfg.manifest
  cursor_le : ∀ j, j < cfg.manifest.length → ucur s.shared.unaligned j ≤ nGr cfg
  cursor_pre : ∀ j, j < cfg.manifest.length →
      (cfg.manifest.getD j default).alignmentData.isNone = false →
      ucur s.shared.unaligned j = nGr cfg
  alen : s.shared.aligned.length = numRows cfg
  anames : ∀ g, g < numRows cfg →
      (s.shared.aligned.getD g []).map (fun e => e.sampleName) =
        cfg.manifest.map (fun e => e.sampleName)
  aw_len : s.aworkers.length = N
  gw_nil : s.phase = Phase.aligning → s.gworkers = []
  gw_len : s.phase ≠ Phase.aligning → s.gworkers.length = N
  term_iff : s.shared.terminate = true ↔ ∃ e ∈ evs, isFailEv e = true
  a_phase : s.phase = Phase.aligning → gEvents evs = []
  split_ev : evs = aEvents evs ++ gEvents evs
  atS_bound : ∀ (w i : Nat), s.aworkers[w]? = some (AW.atS i) → i = 0
  runA_bound : ∀ (w i g : Nat), s.aworkers[w]? = some (AW.runA i g) →
      i < cfg.manifest.length ∧ g < nGr cfg
  runG_bound : ∀ (w g : Nat), s.gworkers[w]? = some (GW.runG g) → g < numRows cfg
  apairing : ∀ t : Nat × Nat,
      (aInvPairs evs).count t = (aFinPairs evs).count t + (inflightPairsA s).count t
  aw_done_after : s.phase ≠ Phase.aligning → s.aworkers.all AW.isDone = true
  no_ainv_pre : ∀ (w i g : Nat), Ev.aInvoke w i g ∈ evs →
      i < cfg.manifest.length ∧
      (cfg.manifest.getD i default).alignmentData.isNone = true
  ginv_content : ∀ (w g : Nat) (p : String) (row : List SampleInfo), Ev.gInvoke w g p row ∈ evs →
      p = specPathFor cfg g ∧ row = s.shared.aligned.getD g [] ∧ g < numRows cfg
  aligned_zero : nGr cfg = 0 → s.shared.aligned = initAligned cfg
  no_brackets : ¬(cfg.outputFilePath ≠ ("") ∧ 1 < nGr cfg) →
      Tok.lbrack ∉ s.shared.stream ∧ Tok.rbrack ∉ s.shared.stream
  gpairing : ∀ g : Nat,
      (gInvGs evs).count g = (gFinGs evs).count g + (inflightGs s).count g
  gcursor_le : s.gcursor ≤ numRows cfg

theorem ucur_init (cfg : Config) (j : Nat) (hj : j < cfg.manifest.length) :
    ucur (initUnaligned cfg) j =
      if (cfg.manifest.getD j default).alignmentData.isNone then 0 else nGr cfg := by
  rw [ucur, initUnaligned, List.getD_eq_getElem?_getD, List.getElem?_map,
    List.getElem?_eq_getElem hj]
  simp only [Option.map_some', Option.getD_some]
  rw [List.getD_eq_getElem?_getD, List.getElem?_eq_getElem hj]
  rfl

theorem invU_init (cfg : Config) (N : Nat) : InvU cfg N (initSys cfg N) [] := by
  constructor
  case ulen => simp [initSys, initUnaligned]
  case usamples =>
    show (initUnaligned cfg).map (fun u => u.sample) = cfg.manifest
    rw [initUnaligned, List.map_map]
    induction cfg.manifest with
    | nil => rfl
    | cons a as ih => simpa using ih
  case cursor_le =>
    intro j hj
    rw [show (initSys cfg N).shared.unaligned = initUnaligned cfg from rfl,
      ucur_init cfg j hj]
    split <;> omega
  case cursor_pre =>
    intro j hj hpre
    rw [show (initSys cfg N).shared.unaligned = initUnaligned cfg from rfl,
      ucur_init cfg j hj, hpre]
    rfl
  case alen => simp [initSys, initAligned]
  case anames =>
    intro g hg
    show ((initAligned cfg).getD g []).map _ = _
    rw [initAligned, List.getD_eq_getElem?_getD, List.getElem?_replicate]
    rw [if_pos (by simpa [numRows] using hg)]
    rfl
  case aw_len => simp [initSys]
  case gw_nil => intro _; rfl
  case gw_len => intro h; exact absurd rfl h
  case term_iff => simp [initSys]
  case a_phase => intro _; rfl
  case split_ev => rfl
  case atS_bound =>
    intro w i h
    have h2 : (List.replicate N (AW.atS 0))[w]? = some (AW.atS i) := h
    rw [List.getElem?_replicate] at h2
    split at h2
    · simpa using h2.symm
    · simp at h2
  case runA_bound =>
    intro w i g h
    have h2 : (List.replicate N (AW.atS 0))[w]? = some (AW.runA i g) := h
    rw [List.getElem?_replicate] at h2
    split at h2 <;> simp at h2
  case runG_bound =>
    intro w g h
    simp [initSys] at h
  case apairing =>
    intro t
    have h1 : inflightPairsA (initSys cfg N) = [] := by
      rw [inflightPairsA, List.filterMap_eq_nil_iff]
      intro st hst
      have := List.eq_of_mem_replicate hst
      subst this
      rfl
    simp [aInvPairs, aFinPairs, h1]
  case aw_done_after => intro h; exact absurd rfl h
  case no_ainv_pre => intro w i g h; simp at h
  case ginv_content => intro w g p row h; simp at h
  case aligned_zero => intro _; rfl
  case no_brackets =>
    intro h
    show Tok.lbrack ∉ openTok cfg ∧ Tok.rbrack ∉ openTok cfg
    rw [openTok, if_neg h]
    simp
  case gpairing =>
    intro g
    simp [gInvGs, gFinGs, inflightGs, initSys]
  case gcursor_le => simp [initSys, numRows]

theorem cursor_le_preserved {cfg : Config} {us : List UnalignedSample} {i : Nat} {term : Bool}
    (hi : i ≤ us.length)
    (hle : ∀ j, j < cfg.manifest.length → ucur us j ≤ nGr cfg) :
    ∀ j, j < cfg.manifest.length → ucur (claimSeg (nGr cfg) term us i).1 j ≤ nGr cfg := by
  intro j hj
  rcases claimSeg_entry_cases (nGr cfg) term us i j hi with h | ⟨hlt, h⟩
  · rw [ucur, h]
    exact hle j hj
  · rw [ucur, h]
    show (us.getD j default).unprocessedGraphs + 1 ≤ nGr cfg
    rw [ucur] at hlt
    omega

theorem cursor_pre_preserved {cfg : Config} {us : List UnalignedSample} {i : Nat} {term : Bool}
    (hi : i ≤ us.length)
    (hpre : ∀ j, j < cfg.manifest.length →
      (cfg.manifest.getD j default).alignmentData.isNone = false → ucur us j = nGr cfg) :
    ∀ j, j < cfg.manifest.length →
      (cfg.manifest.getD j default).alignmentData.isNone = false →
      ucur (claimSeg (nGr cfg) term us i).1 j = nGr cfg := by
  intro j hj hp
  rcases claimSeg_entry_cases (nGr cfg) term us i j hi with h | ⟨hlt, h⟩
  · rw [ucur, h]
    exact hpre j hj hp
  · exfalso
    have := hpre j hj hp
    rw [ucur] at hlt this
    omega

theorem fail_exists_append_nofail {evs evs2 : List Ev}
    (h2 : ∀ e ∈ evs2, isFailEv e = false) :
    (∃ e ∈ evs ++ evs2, isFailEv e = true) ↔ (∃ e ∈ evs, isFailEv e = true) := by
  constructor
  · rintro ⟨e, he, hf⟩
    rw [List.mem_append] at he
    rcases he with he | he
    · exact ⟨e, he, hf⟩
    · rw [h2 e he] at hf
      exact absurd hf (by simp)
  · rintro ⟨e, he, hf⟩
    exact ⟨e, List.mem_append_left _ he, hf⟩

theorem aInvPairs_append (e1 e2 : List Ev) :
    aInvPairs (e1 ++ e2) = aInvPairs e1 ++ aInvPairs e2 := by
  simp [aInvPairs]

theorem aFinPairs_append (e1 e2 : List Ev) :
    aFinPairs (e1 ++ e2) = aFinPairs e1 ++ aFinPairs e2 := by
  simp [aFinPairs]

theorem gInvGs_append (e1 e2 : List Ev) :
    gInvGs (e1 ++ e2) = gInvGs e1 ++ gInvGs e2 := by
  simp [gInvGs]

theorem gFinGs_append (e1 e2 : List Ev) :
    gFinGs (e1 ++ e2) = gFinGs e1 ++ gFinGs e2 := by
  simp [gFinGs]

theorem gInvFull_append (e1 e2 : List Ev) :
    gInvFull (e1 ++ e2) = gInvFull e1 ++ gInvFull e2 := by
  simp [gInvFull]

theorem invU_aSeg {cfg : Config} {N w : Nat} {s s2 : Sys} {evs evs2 : List Ev}
    (inv : InvU cfg N s evs) (hc : aSegStep cfg w s = some (s2, evs2)) :
    InvU cfg N s2 (evs ++ evs2) := by
  obtain ⟨hph, i, hstw, hcase⟩ := aSegStep_inv hc
  have hi0 : i = 0 := inv.atS_bound w i hstw
  subst hi0
  have hlen0 : (0:Nat) ≤ s.shared.unaligned.length := Nat.zero_le _
  have hgev : gEvents evs = [] := inv.a_phase hph
  rcases hcase with ⟨j, g, hsnd, hs2, hevs⟩ | ⟨hsnd, hs2, hevs⟩
  · have hterm : s.shared.terminate = false := by
      cases hbool : s.shared.terminate
      · rfl
      · rw [hbool, claimSeg_true_snd] at hsnd
        exact absurd hsnd (by simp)
    rw [hterm] at hsnd hs2
    obtain ⟨hij, hjlen, hcj, hglt, hother, hbump, hpref⟩ :=
      claimSeg_false_some (nGr cfg) s.shared.unaligned 0 j g hlen0 hsnd
    subst hs2
    subst hevs
    constructor
    case ulen =>
      show (claimSeg (nGr cfg) false s.shared.unaligned 0).1.length = _
      rw [claimSeg_fst_length _ _ _ _ hlen0, inv.ulen]
    case usamples =>
      show (claimSeg (nGr cfg) false s.shared.unaligned 0).1.map _ = _
      rw [claimSeg_fst_sample, inv.usamples]
    case cursor_le =>
      rw [hterm] at *
      exact cursor_le_preserved hlen0 inv.cursor_le
    case cursor_pre =>
      rw [hterm] at *
      exact cursor_pre_preserved hlen0 inv.cursor_pre
    case alen => exact inv.alen
    case anames => exact inv.anames
    case aw_len =>
      show (s.aworkers.set w (AW.runA j g)).length = N
      rw [List.length_set, inv.aw_len]
    case gw_nil =>
      intro _
      exact inv.gw_nil hph
    case gw_len =>
      intro h
      exact absurd hph h
    case term_iff =>
      rw [fail_exists_append_nofail (by
        intro e he
        rw [List.mem_singleton] at he
        subst he
        rfl)]
      exact inv.term_iff
    case a_phase =>
      intro _
      exact (split_ev_append_a inv.split_ev hgev (by
        intro e he
        rw [List.mem_singleton] at he
        subst he
        rfl)).2
    case split_ev =>
      exact (split_ev_append_a inv.split_ev hgev (by
        intro e he
        rw [List.mem_singleton] at he
        subst he
        rfl)).1
    case atS_bound =>
      intro w2 i2 h
      rcases getElem?_set_inv h with ⟨_, _, hst⟩ | ⟨_, h2⟩
      · exact absurd hst (by simp)
      · exact inv.atS_bound w2 i2 h2
    case runA_bound =>
      intro w2 i2 g2 h
      rcases getElem?_set_inv h with ⟨_, _, hst⟩ | ⟨_, h2⟩
      · have hi2 : i2 = j ∧ g2 = g := by
          constructor <;> [exact congrArg (fun st => match st with
            | AW.runA i _ => i
            | _ => 0) hst;
            exact congrArg (fun st => match st with
            | AW.runA _ g0 => g0
            | _ => 0) hst]
        obtain ⟨rfl, rfl⟩ := hi2
        exact ⟨by rw [← inv.ulen]; exact hjlen, hglt⟩
      · exact inv.runA_bound w2 i2 g2 h2
    case runG_bound => exact inv.runG_bound
    case apairing =>
      intro t
      have hup := filterMap_set_count awPair s.aworkers w (AW.runA j g) (AW.atS 0) hstw t
      have hbase := inv.apairing t
      show (aInvPairs (evs ++ [Ev.aInvoke w j g])).count t =
        (aFinPairs (evs ++ [Ev.aInvoke w j g])).count t +
        ((s.aworkers.set w (AW.runA j g)).filterMap awPair).count t
      rw [aInvPairs_append, aFinPairs_append, List.count_append, List.count_append,
        show aInvPairs [Ev.aInvoke w j g] = [(j, g)] from rfl,
        show aFinPairs [Ev.aInvoke w j g] = ([] : List (Nat × Nat)) from rfl]
      rw [inflightPairsA] at hbase
      simp only [awPair, Option.toList, List.count_nil] at hup
      simp only [List.count_nil]
      omega
    case aw_done_after =>
      intro h
      exact absurd hph h
    case no_ainv_pre =>
      intro w2 i2 g2 hmem
      rw [List.mem_append, List.mem_singleton] at hmem
      rcases hmem with hmem | hmem
      · exact inv.no_ainv_pre w2 i2 g2 hmem
      · have hi2 : i2 = j := by
          have := congrArg (fun e => match e with
            | Ev.aInvoke _ i _ => i
            | _ => 0) hmem
          first
          | exact by simpa using this
          | exact by simpa using this.symm
        subst hi2
        refine ⟨by rw [← inv.ulen]; exact hjlen, ?_⟩
        cases hpre : (cfg.manifest.getD i2 default).alignmentData.isNone
        · exfalso
          have := inv.cursor_pre i2 (by rw [← inv.ulen]; exact hjlen) hpre
          rw [ucur] at this
          rw [ucur] at hcj
          omega
        · rfl
    case ginv_content =>
      intro w2 g2 p row hmem
      rw [List.mem_append, List.mem_singleton] at hmem
      rcases hmem with hmem | hmem
      · exact inv.ginv_content w2 g2 p row hmem
      · exact absurd hmem (by simp)
    case aligned_zero => exact inv.aligned_zero
    case no_brackets => exact inv.no_brackets
    case gpairing =>
      intro g0
      have hbase := inv.gpairing g0
      show (gInvGs (evs ++ [Ev.aInvoke w j g])).count g0 =
        (gFinGs (evs ++ [Ev.aInvoke w j g])).count g0 + (inflightGs s).count g0
      rw [gInvGs_append, gFinGs_append, List.count_append, List.count_append,
        show gInvGs [Ev.aInvoke w j g] = ([] : List Nat) from rfl,
        show gFinGs [Ev.aInvoke w j g] = ([] : List Nat) from rfl]
      simp only [List.count_nil]
      omega
    case gcursor_le => exact inv.gcursor_le
  · subst hs2
    subst hevs
    rw [List.append_nil]
    constructor
    case ulen =>
      show (claimSeg (nGr cfg) s.shared.terminate s.shared.unaligned 0).1.length = _
      rw [claimSeg_fst_length _ _ _ _ hlen0, inv.ulen]
    case usamples =>
      show (claimSeg (nGr cfg) s.shared.terminate s.shared.unaligned 0).1.map _ = _
      rw [claimSeg_fst_sample, inv.usamples]
    case cursor_le => exact cursor_le_preserved hlen0 inv.cursor_le
    case cursor_pre => exact cursor_pre_preserved hlen0 inv.cursor_pre
    case alen => exact inv.alen
    case anames => exact inv.anames
    case aw_len =>
      show (s.aworkers.set w AW.doneA).length = N
      rw [List.length_set, inv.aw_len]
    case gw_nil =>
      intro _
      exact inv.gw_nil hph
    case gw_len =>
      intro h
      exact absurd hph h
    case term_iff => exact inv.term_iff
    case a_phase =>
      intro _
      exact hgev
    case split_ev => exact inv.split_ev
    case atS_bound =>
      intro w2 i2 h
      rcases getElem?_set_inv h with ⟨_, _, hst⟩ | ⟨_, h2⟩
      · exact absurd hst (by simp)
      · exact inv.atS_bound w2 i2 h2
    case runA_bound =>
      intro w2 i2 g2 h
      rcases getElem?_set_inv h with ⟨_, _, hst⟩ | ⟨_, h2⟩
      · exact absurd hst (by simp)
      · exact inv.runA_bound w2 i2 g2 h2
    case runG_bound => exact inv.runG_bound
    case apairing =>
      intro t
      have hup := filterMap_set_count awPair s.aworkers w AW.doneA (AW.atS 0) hstw t
      have hbase := inv.apairing t
      show (aInvPairs evs).count t = (aFinPairs evs).count t +
        ((s.aworkers.set w AW.doneA).filterMap awPair).count t
      rw [inflightPairsA] at hbase
      simp only [awPair, Option.toList, List.count_nil] at hup
      omega
    case aw_done_after =>
      intro h
      exact absurd hph h
    case no_ainv_pre => exact inv.no_ainv_pre
    case ginv_content => exact inv.ginv_content
    case aligned_zero => exact inv.aligned_zero
    case no_brackets => exact inv.no_brackets
    case gpairing => exact inv.gpairing
    case gcursor_le => exact inv.gcursor_le

theorem invU_aFin {cfg : Config} {N w : Nat} {ok : Bool} {s s2 : Sys} {evs evs2 : List Ev}
    (inv : InvU cfg N s evs) (hc : aFinStep cfg w ok s = some (s2, evs2)) :
    InvU cfg N s2 (evs ++ evs2) := by
  obtain ⟨hph, i, g, hstw, hcase⟩ := aFinStep_inv hc
  obtain ⟨hib, hgb⟩ := inv.runA_bound w i g hstw
  have hile : i ≤ s.shared.unaligned.length := by
    rw [inv.ulen]
    omega
  have hgev : gEvents evs = [] := inv.a_phase hph
  have hanames2 : ∀ g3, g3 < numRows cfg →
      ((modifyNth (modifyNth alignSingleSample i) g s.shared.aligned).getD g3 []).map
        (fun e => e.sampleName) = cfg.manifest.map (fun e => e.sampleName) := by
    intro g3 hg3
    rw [modifyNth_getD]
    by_cases hcond : g3 = g ∧ g3 < s.shared.aligned.length
    · rw [if_pos hcond,
        modifyNth_map_eq alignSingleSample (fun e => e.sampleName) (fun a => rfl)]
      exact inv.anames g3 hg3
    · rw [if_neg hcond]
      exact inv.anames g3 hg3
  rcases hcase with ⟨hok, hcase2⟩ | ⟨hok, hs2, hevs⟩
  · subst hok
    rcases hcase2 with ⟨j, g2, hsnd, hs2, hevs⟩ | ⟨hsnd, hs2, hevs⟩
    · have hterm : s.shared.terminate = false := by
        cases hbool : s.shared.terminate
        · rfl
        · rw [hbool, claimSeg_true_snd] at hsnd
          exact absurd hsnd (by simp)
      rw [hterm] at hsnd hs2
      obtain ⟨hij, hjlen, hcj, hglt, hother, hbump, hpref⟩ :=
        claimSeg_false_some (nGr cfg) s.shared.unaligned i j g2 hile hsnd
      subst hs2
      subst hevs
      constructor
      case ulen =>
        show (claimSeg (nGr cfg) false s.shared.unaligned i).1.length = _
        rw [claimSeg_fst_length _ _ _ _ hile, inv.ulen]
      case usamples =>
        show (claimSeg (nGr cfg) false s.shared.unaligned i).1.map _ = _
        rw [claimSeg_fst_sample, inv.usamples]
      case cursor_le =>
        rw [hterm] at *
        exact cursor_le_preserved hile inv.cursor_le
      case cursor_pre =>
        rw [hterm] at *
        exact cursor_pre_preserved hile inv.cursor_pre
      case alen =>
        show (modifyNth (modifyNth alignSingleSample i) g s.shared.aligned).length = _
        rw [modifyNth_length, inv.alen]
      case anames => exact hanames2
      case aw_len =>
        show (s.aworkers.set w (AW.runA j g2)).length = N
        rw [List.length_set, inv.aw_len]
      case gw_nil =>
        intro _
        exact inv.gw_nil hph
      case gw_len =>
        intro h
        exact absurd hph h
      case term_iff =>
        rw [fail_exists_append_nofail (by
          intro e he
          rcases List.mem_cons.mp he with rfl | he2
          · rfl
          · rw [List.mem_singleton] at he2
            subst he2
            rfl)]
        exact inv.term_iff
      case a_phase =>
        intro _
        exact (split_ev_append_a inv.split_ev hgev (by
          intro e he
          rcases List.mem_cons.mp he with rfl | he2
          · rfl
          · rw [List.mem_singleton] at he2
            subst he2
            rfl)).2
      case split_ev =>
        exact (split_ev_append_a inv.split_ev hgev (by
          intro e he
          rcases List.mem_cons.mp he with rfl | he2
          · rfl
          · rw [List.mem_singleton] at he2
            subst he2
            rfl)).1
      case atS_bound =>
        intro w2 i2 h
        rcases getElem?_set_inv h with ⟨_, _, hst⟩ | ⟨_, h2⟩
        · exact absurd hst (by simp)
        · exact inv.atS_bound w2 i2 h2
      case runA_bound =>
        intro w2 i2 g3 h
        rcases getElem?_set_inv h with ⟨_, _, hst⟩ | ⟨_, h2⟩
        · have hi2 : i2 = j ∧ g3 = g2 := by
            constructor <;> [exact congrArg (fun st => match st with
              | AW.runA i _ => i
              | _ => 0) hst;
              exact congrArg (fun st => match st with
              | AW.runA _ g0 => g0
              | _ => 0) hst]
          obtain ⟨rfl, rfl⟩ := hi2
          exact ⟨by rw [← inv.ulen]; exact hjlen, hglt⟩
        · exact inv.runA_bound w2 i2 g3 h2
      case runG_bound => exact inv.runG_bound
      case apairing =>
        intro t
        have hup := filterMap_set_count awPair s.aworkers w (AW.runA j g2) (AW.runA i g)
          hstw t
        have hbase := inv.apairing t
        show (aInvPairs (evs ++ [Ev.aFinish w i g true, Ev.aInvoke w j g2])).count t =
          (aFinPairs (evs ++ [Ev.aFinish w i g true, Ev.aInvoke w j g2])).count t +
          ((s.aworkers.set w (AW.runA j g2)).filterMap awPair).count t
        rw [aInvPairs_append, aFinPairs_append, List.count_append, List.count_append,
          show aInvPairs [Ev.aFinish w i g true, Ev.aInvoke w j g2] = [(j, g2)] from rfl,
          show aFinPairs [Ev.aFinish w i g true, Ev.aInvoke w j g2] = [(i, g)] from rfl]
        rw [inflightPairsA] at hbase
        simp only [awPair, Option.toList] at hup
        omega
      case aw_done_after =>
        intro h
        exact absurd hph h
      case no_ainv_pre =>
        intro w2 i2 g3 hmem
        rw [List.mem_append] at hmem
        rcases hmem with hmem | hmem
        · exact inv.no_ainv_pre w2 i2 g3 hmem
        · rcases List.mem_cons.mp hmem with heq | hmem2
          · exact absurd heq (by simp)
          · rw [List.mem_singleton] at hmem2
            have hi2 : i2 = j := by
              have := congrArg (fun e => match e with
                | Ev.aInvoke _ i0 _ => i0
                | _ => 0) hmem2
              first
              | exact by simpa using this
              | exact by simpa using this.symm
            subst hi2
            refine ⟨by rw [← inv.ulen]; exact hjlen, ?_⟩
            cases hpre : (cfg.manifest.getD i2 default).alignmentData.isNone
            · exfalso
              have := inv.cursor_pre i2 (by rw [← inv.ulen]; exact hjlen) hpre
              rw [ucur] at this
              rw [ucur] at hcj
              omega
            · rfl
      case ginv_content =>
        intro w2 g3 p row hmem
        rw [List.mem_append] at hmem
        rcases hmem with hmem | hmem
        · obtain ⟨hp, hrow, hg3⟩ := inv.ginv_content w2 g3 p row hmem
          exact absurd hmem (by
            have := hgev
            rw [gEvents, List.filter_eq_nil_iff] at this
            intro hmem2
            have h2 := this _ hmem2
            simp [isAEv] at h2)
        · rcases List.mem_cons.mp hmem with heq | hmem2
          · exact absurd heq (by simp)
          · rw [List.mem_singleton] at hmem2
            exact absurd hmem2 (by simp)
      case aligned_zero =>
        intro h0
        exact absurd hgb (by omega)
      case no_brackets => exact inv.no_brackets
      case gpairing =>
        intro g0
        have hbase := inv.gpairing g0
        show (gInvGs (evs ++ [Ev.aFinish w i g true, Ev.aInvoke w j g2])).count g0 =
          (gFinGs (evs ++ [Ev.aFinish w i g true, Ev.aInvoke w j g2])).count g0 +
          (inflightGs s).count g0
        rw [gInvGs_append, gFinGs_append, List.count_append, List.count_append,
          show gInvGs [Ev.aFinish w i g true, Ev.aInvoke w j g2] = ([] : List Nat) from rfl,
          show gFinGs [Ev.aFinish w i g true, Ev.aInvoke w j g2] = ([] : List Nat) from rfl]
        simp only [List.count_nil]
        omega
      case gcursor_le => exact inv.gcursor_le
    · subst hs2
      subst hevs
      constructor
      case ulen =>
        show (claimSeg (nGr cfg) s.shared.terminate s.shared.unaligned i).1.length = _
        rw [claimSeg_fst_length _ _ _ _ hile, inv.ulen]
      case usamples =>
        show (claimSeg (nGr cfg) s.shared.terminate s.shared.unaligned i).1.map _ = _
        rw [claimSeg_fst_sample, inv.usamples]
      case cursor_le => exact cursor_le_preserved hile inv.cursor_le
      case cursor_pre => exact cursor_pre_preserved hile inv.cursor_pre
      case alen =>
        show (modifyNth (modifyNth alignSingleSample i) g s.shared.aligned).length = _
        rw [modifyNth_length, inv.alen]
      case anames => exact hanames2
      case aw_len =>
        show (s.aworkers.set w AW.doneA).length = N
        rw [List.length_set, inv.aw_len]
      case gw_nil =>
        intro _
        exact inv.gw_nil hph
      case gw_len =>
        intro h
        exact absurd hph h
      case term_iff =>
        rw [fail_exists_append_nofail (by
          intro e he
          rw [List.mem_singleton] at he
          subst he
          rfl)]
        exact inv.term_iff
      case a_phase =>
        intro _
        exact (split_ev_append_a inv.split_ev hgev (by
          intro e he
          rw [List.mem_singleton] at he
          subst he
          rfl)).2
      case split_ev =>
        exact (split_ev_append_a inv.split_ev hgev (by
          intro e he
          rw [List.mem_singleton] at he
          subst he
          rfl)).1
      case atS_bound =>
        intro w2 i2 h
        rcases getElem?_set_inv h with ⟨_, _, hst⟩ | ⟨_, h2⟩
        · exact absurd hst (by simp)
        · exact inv.atS_bound w2 i2 h2
      case runA_bound =>
        intro w2 i2 g3 h
        rcases getElem?_set_inv h with ⟨_, _, hst⟩ | ⟨_, h2⟩
        · exact absurd hst (by simp)
        · exact inv.runA_bound w2 i2 g3 h2
      case runG_bound => exact inv.runG_bound
      case apairing =>
        intro t
        have hup := filterMap_set_count awPair s.aworkers w AW.doneA (AW.runA i g) hstw t
        have hbase := inv.apairing t
        show (aInvPairs (evs ++ [Ev.aFinish w i g true])).count t =
          (aFinPairs (evs ++ [Ev.aFinish w i g true])).count t +
          ((s.aworkers.set w AW.doneA).filterMap awPair).count t
        rw [aInvPairs_append, aFinPairs_append, List.count_append, List.count_append,
          show aInvPairs [Ev.aFinish w i g true] = ([] : List (Nat × Nat)) from rfl,
          show aFinPairs [Ev.aFinish w i g true] = [(i, g)] from rfl]
        rw [inflightPairsA] at hbase
        simp only [awPair, Option.toList, List.count_nil] at hup
        simp only [List.count_nil]
        omega
      case aw_done_after =>
        intro h
        exact absurd hph h
      case no_ainv_pre =>
        intro w2 i2 g3 hmem
        rw [List.mem_append, List.mem_singleton] at hmem
        rcases hmem with hmem | hmem
        · exact inv.no_ainv_pre w2 i2 g3 hmem
        · exact absurd hmem (by simp)
      case ginv_content =>
        intro w2 g3 p row hmem
        rw [List.mem_append, List.mem_singleton] at hmem
        rcases hmem with hmem | hmem
        · exact absurd hmem (by
            have := hgev
            rw [gEvents, List.filter_eq_nil_iff] at this
            intro hmem2
            have h2 := this _ hmem2
            simp [isAEv] at h2)
        · exact absurd hmem (by simp)
      case aligned_zero =>
        intro h0
        exact absurd hgb (by omega)
      case no_brackets => exact inv.no_brackets
      case gpairing =>
        intro g0
        have hbase := inv.gpairing g0
        show (gInvGs (evs ++ [Ev.aFinish w i g true])).count g0 =
          (gFinGs (evs ++ [Ev.aFinish w i g true])).count g0 + (inflightGs s).count g0
        rw [gInvGs_append, gFinGs_append, List.count_append, List.count_append,
          show gInvGs [Ev.aFinish w i g true] = ([] : List Nat) from rfl,
          show gFinGs [Ev.aFinish w i g true] = ([] : List Nat) from rfl]
        simp only [List.count_nil]
        omega
      case gcursor_le => exact inv.gcursor_le
  · subst hs2
    subst hevs
    constructor
    case ulen => exact inv.ulen
    case usamples => exact inv.usamples
    case cursor_le => exact inv.cursor_le
    case cursor_pre => exact inv.cursor_pre
    case alen => exact inv.alen
    case anames => exact inv.anames
    case aw_len =>
      show (s.aworkers.set w AW.doneA).length = N
      rw [List.length_set, inv.aw_len]
    case gw_nil =>
      intro _
      exact inv.gw_nil hph
    case gw_len =>
      intro h
      exact absurd hph h
    case term_iff =>
      constructor
      · intro _
        exact ⟨Ev.aFinish w i g false,
          List.mem_append_right _ (List.mem_singleton.mpr rfl), rfl⟩
      · intro _
        rfl
    case a_phase =>
      intro _
      exact (split_ev_append_a inv.split_ev hgev (by
        intro e he
        rw [List.mem_singleton] at he
        subst he
        rfl)).2
    case split_ev =>
      exact (split_ev_append_a inv.split_ev hgev (by
        intro e he
        rw [List.mem_singleton] at he
        subst he
        rfl)).1
    case atS_bound =>
      intro w2 i2 h
      rcases getElem?_set_inv h with ⟨_, _, hst⟩ | ⟨_, h2⟩
      · exact absurd hst (by simp)
      · exact inv.atS_bound w2 i2 h2
    case runA_bound =>
      intro w2 i2 g3 h
      rcases getElem?_set_inv h with ⟨_, _, hst⟩ | ⟨_, h2⟩
      · exact absurd hst (by simp)
      · exact inv.runA_bound w2 i2 g3 h2
    case runG_bound => exact inv.runG_bound
    case apairing =>
      intro t
      have hup := filterMap_set_count awPair s.aworkers w AW.doneA (AW.runA i g) hstw t
      have hbase := inv.apairing t
      show (aInvPairs (evs ++ [Ev.aFinish w i g false])).count t =
        (aFinPairs (evs ++ [Ev.aFinish w i g false])).count t +
        ((s.aworkers.set w AW.doneA).filterMap awPair).count t
      rw [aInvPairs_append, aFinPairs_append, List.count_append, List.count_append,
        show aInvPairs [Ev.aFinish w i g false] = ([] : List (Nat × Nat)) from rfl,
        show aFinPairs [Ev.aFinish w i g false] = [(i, g)] from rfl]
      rw [inflightPairsA] at hbase
      simp only [awPair, Option.toList, List.count_nil] at hup
      simp only [List.count_nil]
      omega
    case aw_done_after =>
      intro h
      exact absurd hph h
    case no_ainv_pre =>
      intro w2 i2 g3 hmem
      rw [List.mem_append, List.mem_singleton] at hmem
      rcases hmem with hmem | hmem
      · exact inv.no_ainv_pre w2 i2 g3 hmem
      · exact absurd hmem (by simp)
    case ginv_content =>
      intro w2 g3 p row hmem
      rw [List.mem_append, List.mem_singleton] at hmem
      rcases hmem with hmem | hmem
      · exact absurd hmem (by
          have := hgev
          rw [gEvents, List.filter_eq_nil_iff] at this
          intro hmem2
          have h2 := this _ hmem2
          simp [isAEv] at h2)
      · exact absurd hmem (by simp)
    case aligned_zero => exact inv.aligned_zero
    case no_brackets => exact inv.no_brackets
    case gpairing =>
      intro g0
      have hbase := inv.gpairing g0
      show (gInvGs (evs ++ [Ev.aFinish w i g false])).count g0 =
        (gFinGs (evs ++ [Ev.aFinish w i g false])).count g0 + (inflightGs s).count g0
      rw [gInvGs_append, gFinGs_append, List.count_append, List.count_append,
        show gInvGs [Ev.aFinish w i g false] = ([] : List Nat) from rfl,
        show gFinGs [Ev.aFinish w i g false] = ([] : List Nat) from rfl]
      simp only [List.count_nil]
      omega
    case gcursor_le => exact inv.gcursor_le

theorem writeRecord_stream_mem {cfg : Config} {sh : Shared} {g : Nat} {t : Tok}
    (hmem : t ∈ (writeRecord cfg sh g).stream) :
    t ∈ sh.stream ∨ t = Tok.comma ∨ t = Tok.record g := by
  rw [writeRecord] at hmem
  split at hmem
  · exact Or.inl hmem
  · simp only [List.mem_append] at hmem
    rcases hmem with (hmem | hmem) | hmem
    · exact Or.inl hmem
    · right
      left
      split at hmem
      · rwa [List.mem_singleton] at hmem
      · simp at hmem
    · right
      right
      rwa [List.mem_singleton] at hmem

theorem invU_barrier {cfg : Config} {N : Nat} {s s2 : Sys} {evs evs2 : List Ev}
    (inv : InvU cfg N s evs) (hc : barrierStep N s = some (s2, evs2)) :
    InvU cfg N s2 (evs ++ evs2) := by
  obtain ⟨hph, hall, hs2, hevs⟩ := barrierStep_inv hc
  subst hs2
  subst hevs
  rw [List.append_nil]
  constructor
  case ulen => exact inv.ulen
  case usamples => exact inv.usamples
  case cursor_le => exact inv.cursor_le
  case cursor_pre => exact inv.cursor_pre
  case alen => exact inv.alen
  case anames => exact inv.anames
  case aw_len => exact inv.aw_len
  case gw_nil =>
    intro h
    exact Phase.noConfusion h
  case gw_len =>
    intro _
    exact List.length_replicate _ _
  case term_iff => exact inv.term_iff
  case a_phase =>
    intro h
    exact Phase.noConfusion h
  case split_ev => exact inv.split_ev
  case atS_bound => exact inv.atS_bound
  case runA_bound => exact inv.runA_bound
  case runG_bound =>
    intro w g h
    have h2 : (List.replicate N GW.entry)[w]? = some (GW.runG g) := h
    rw [List.getElem?_replicate] at h2
    split at h2 <;> simp at h2
  case apairing => exact inv.apairing
  case aw_done_after =>
    intro _
    exact hall
  case no_ainv_pre => exact inv.no_ainv_pre
  case ginv_content => exact inv.ginv_content
  case aligned_zero => exact inv.aligned_zero
  case no_brackets => exact inv.no_brackets
  case gpairing =>
    intro g0
    have hbase := inv.gpairing g0
    have hnil : s.gworkers = [] := inv.gw_nil hph
    show (gInvGs evs).count g0 = (gFinGs evs).count g0 +
      ((List.replicate N GW.entry).filterMap gwG).count g0
    have hrep : (List.replicate N GW.entry).filterMap gwG = [] := by
      rw [List.filterMap_eq_nil_iff]
      intro st hst
      rw [List.eq_of_mem_replicate hst]
      rfl
    rw [hrep]
    rw [inflightGs, hnil] at hbase
    simpa using hbase
  case gcursor_le => exact Nat.zero_le _

theorem invU_gClaim {cfg : Config} {N w : Nat} {s s2 : Sys} {evs evs2 : List Ev}
    (inv : InvU cfg N s evs) (hc : gClaimStep cfg w s = some (s2, evs2)) :
    InvU cfg N s2 (evs ++ evs2) := by
  obtain ⟨hph, hstw, hcase⟩ := gClaimStep_inv hc
  have hnal : s.phase ≠ Phase.aligning := by
    rw [hph]
    intro h
    exact Phase.noConfusion h
  rcases hcase with ⟨g, hsnd, hs2, hevs⟩ | ⟨hsnd, hs2, hevs⟩
  · obtain ⟨hgc, hlt, hterm, hfst⟩ := genoClaim_some hsnd
    subst hs2
    subst hevs
    constructor
    case ulen => exact inv.ulen
    case usamples => exact inv.usamples
    case cursor_le => exact inv.cursor_le
    case cursor_pre => exact inv.cursor_pre
    case alen => exact inv.alen
    case anames => exact inv.anames
    case aw_len => exact inv.aw_len
    case gw_nil =>
      intro h
      exact absurd (hph ▸ h) (by intro h2; exact Phase.noConfusion h2)
    case gw_len =>
      intro _
      show (s.gworkers.set w (GW.runG g)).length = N
      rw [List.length_set]
      exact inv.gw_len hnal
    case term_iff =>
      rw [fail_exists_append_nofail (by
        intro e he
        rw [List.mem_singleton] at he
        subst he
        rfl)]
      exact inv.term_iff
    case a_phase =>
      intro h
      exact absurd (hph ▸ h) (by intro h2; exact Phase.noConfusion h2)
    case split_ev =>
      exact split_ev_append_g inv.split_ev (by
        intro e he
        rw [List.mem_singleton] at he
        subst he
        rfl)
    case atS_bound => exact inv.atS_bound
    case runA_bound => exact inv.runA_bound
    case runG_bound =>
      intro w2 g2 h
      rcases getElem?_set_inv h with ⟨_, _, hst⟩ | ⟨_, h2⟩
      · have hg2 : g2 = g := by
          injection hst with h3
        subst hg2
        subst hgc
        rw [← inv.alen]
        exact hlt
      · exact inv.runG_bound w2 g2 h2
    case apairing =>
      intro t
      have hbase := inv.apairing t
      show (aInvPairs (evs ++ [Ev.gInvoke w g (specPathFor cfg g)
          (s.shared.aligned.getD g [])])).count t =
        (aFinPairs (evs ++ [Ev.gInvoke w g (specPathFor cfg g)
          (s.shared.aligned.getD g [])])).count t + (inflightPairsA s).count t
      rw [aInvPairs_append, aFinPairs_append, List.count_append, List.count_append,
        show aInvPairs [Ev.gInvoke w g (specPathFor cfg g) (s.shared.aligned.getD g [])] =
          ([] : List (Nat × Nat)) from rfl,
        show aFinPairs [Ev.gInvoke w g (specPathFor cfg g) (s.shared.aligned.getD g [])] =
          ([] : List (Nat × Nat)) from rfl]
      simp only [List.count_nil]
      omega
    case aw_done_after =>
      intro _
      exact inv.aw_done_after hnal
    case no_ainv_pre =>
      intro w2 i2 g2 hmem
      rw [List.mem_append, List.mem_singleton] at hmem
      rcases hmem with hmem | hmem
      · exact inv.no_ainv_pre w2 i2 g2 hmem
      · exact absurd hmem (by simp)
    case ginv_content =>
      intro w2 g2 p row hmem
      rw [List.mem_append, List.mem_singleton] at hmem
      rcases hmem with hmem | hmem
      · exact inv.ginv_content w2 g2 p row hmem
      · injection hmem with h1 h2 h3 h4
        subst h2
        refine ⟨h3, h4, ?_⟩
        subst hgc
        rw [← inv.alen]
        exact hlt
    case aligned_zero => exact inv.aligned_zero
    case no_brackets => exact inv.no_brackets
    case gpairing =>
      intro g0
      have hup := filterMap_set_count gwG s.gworkers w (GW.runG g) GW.entry hstw g0
      have hbase := inv.gpairing g0
      show (gInvGs (evs ++ [Ev.gInvoke w g (specPathFor cfg g)
          (s.shared.aligned.getD g [])])).count g0 =
        (gFinGs (evs ++ [Ev.gInvoke w g (specPathFor cfg g)
          (s.shared.aligned.getD g [])])).count g0 +
        ((s.gworkers.set w (GW.runG g)).filterMap gwG).count g0
      rw [gInvGs_append, gFinGs_append, List.count_append, List.count_append,
        show gInvGs [Ev.gInvoke w g (specPathFor cfg g) (s.shared.aligned.getD g [])] =
          [g] from rfl,
        show gFinGs [Ev.gInvoke w g (specPathFor cfg g) (s.shared.aligned.getD g [])] =
          ([] : List Nat) from rfl]
      rw [inflightGs] at hbase
      simp only [gwG, Option.toList, List.count_nil] at hup
      simp only [List.count_nil]
      omega
    case gcursor_le =>
      show (genoClaim s.shared.aligned.length s.shared.terminate s.gcursor).1 ≤ numRows cfg
      rw [hfst, ← inv.alen]
      omega
  · subst hs2
    subst hevs
    rw [List.append_nil]
    constructor
    case ulen => exact inv.ulen
    case usamples => exact inv.usamples
    case cursor_le => exact inv.cursor_le
    case cursor_pre => exact inv.cursor_pre
    case alen => exact inv.alen
    case anames => exact inv.anames
    case aw_len => exact inv.aw_len
    case gw_nil =>
      intro h
      exact absurd (hph ▸ h) (by intro h2; exact Phase.noConfusion h2)
    case gw_len =>
      intro _
      show (s.gworkers.set w GW.doneG).length = N
      rw [List.length_set]
      exact inv.gw_len hnal
    case term_iff => exact inv.term_iff
    case a_phase =>
      intro h
      exact absurd (hph ▸ h) (by intro h2; exact Phase.noConfusion h2)
    case split_ev => exact inv.split_ev
    case atS_bound => exact inv.atS_bound
    case runA_bound => exact inv.runA_bound
    case runG_bound =>
      intro w2 g2 h
      rcases getElem?_set_inv h with ⟨_, _, hst⟩ | ⟨_, h2⟩
      · exact absurd hst (by simp)
      · exact inv.runG_bound w2 g2 h2
    case apairing => exact inv.apairing
    case aw_done_after =>
      intro _
      exact inv.aw_done_after hnal
    case no_ainv_pre => exact inv.no_ainv_pre
    case ginv_content => exact inv.ginv_content
    case aligned_zero => exact inv.aligned_zero
    case no_brackets => exact inv.no_brackets
    case gpairing =>
      intro g0
      have hup := filterMap_set_count gwG s.gworkers w GW.doneG GW.entry hstw g0
      have hbase := inv.gpairing g0
      show (gInvGs evs).count g0 = (gFinGs evs).count g0 +
        ((s.gworkers.set w GW.doneG).filterMap gwG).count g0
      rw [inflightGs] at hbase
      simp only [gwG, Option.toList, List.count_nil] at hup
      omega
    case gcursor_le =>
      show (genoClaim s.shared.aligned.length s.shared.terminate s.gcursor).1 ≤ numRows cfg
      rcases genoClaim_none hsnd with ⟨_, hlt, hfst⟩ | ⟨_, hfst⟩
      · rw [hfst, ← inv.alen]
        omega
      · rw [hfst]
        exact inv.gcursor_le

theorem invU_gFin {cfg : Config} {N w : Nat} {ok : Bool} {s s2 : Sys} {evs evs2 : List Ev}
    (inv : InvU cfg N s evs) (hc : gFinStep cfg w ok s = some (s2, evs2)) :
    InvU cfg N s2 (evs ++ evs2) := by
  obtain ⟨hph, g, hstw, hcase⟩ := gFinStep_inv hc
  have hnal : s.phase ≠ Phase.aligning := by
    rw [hph]
    intro h
    exact Phase.noConfusion h
  have hwra : (writeRecord cfg s.shared g).aligned = s.shared.aligned :=
    writeRecord_aligned cfg s.shared g
  have hwru : (writeRecord cfg s.shared g).unaligned = s.shared.unaligned :=
    writeRecord_unaligned cfg s.shared g
  have hwrt : (writeRecord cfg s.shared g).terminate = s.shared.terminate :=
    writeRecord_terminate cfg s.shared g
  rcases hcase with ⟨hok, hcase2⟩ | ⟨hok, hs2, hevs⟩
  · subst hok
    rcases hcase2 with ⟨g2, hsnd, hs2, hevs⟩ | ⟨hsnd, hs2, hevs⟩
    · rw [hwra, hwrt] at hsnd
      obtain ⟨hgc, hlt, hterm, hfst⟩ := genoClaim_some hsnd
      subst hs2
      subst hevs
      constructor
      case ulen =>
        show (writeRecord cfg s.shared g).unaligned.length = _
        rw [hwru]
        exact inv.ulen
      case usamples =>
        show (writeRecord cfg s.shared g).unaligned.map _ = _
        rw [hwru]
        exact inv.usamples
      case cursor_le =>
        intro j hj
        rw [ucur]
        show ((writeRecord cfg s.shared g).unaligned.getD j default).unprocessedGraphs ≤ _
        rw [hwru]
        exact inv.cursor_le j hj
      case cursor_pre =>
        intro j hj hp
        rw [ucur]
        show ((writeRecord cfg s.shared g).unaligned.getD j default).unprocessedGraphs = _
        rw [hwru]
        exact inv.cursor_pre j hj hp
      case alen =>
        show (writeRecord cfg s.shared g).aligned.length = _
        rw [hwra]
        exact inv.alen
      case anames =>
        intro g3 hg3
        show ((writeRecord cfg s.shared g).aligned.getD g3 []).map _ = _
        rw [hwra]
        exact inv.anames g3 hg3
      case aw_len => exact inv.aw_len
      case gw_nil =>
        intro h
        exact absurd (hph ▸ h) (by intro h2; exact Phase.noConfusion h2)
      case gw_len =>
        intro _
        show (s.gworkers.set w (GW.runG g2)).length = N
        rw [List.length_set]
        exact inv.gw_len hnal
      case term_iff =>
        show (writeRecord cfg s.shared g).terminate = true ↔ _
        rw [hwrt]
        rw [fail_exists_append_nofail (by
          intro e he
          rcases List.mem_cons.mp he with rfl | he2
          · rfl
          · rw [List.mem_singleton] at he2
            subst he2
            rfl)]
        exact inv.term_iff
      case a_phase =>
        intro h
        exact absurd (hph ▸ h) (by intro h2; exact Phase.noConfusion h2)
      case split_ev =>
        exact split_ev_append_g inv.split_ev (by
          intro e he
          rcases List.mem_cons.mp he with rfl | he2
          · rfl
          · rw [List.mem_singleton] at he2
            subst he2
            rfl)
      case atS_bound => exact inv.atS_bound
      case runA_bound => exact inv.runA_bound
      case runG_bound =>
        intro w2 g3 h
        rcases getElem?_set_inv h with ⟨_, _, hst⟩ | ⟨_, h2⟩
        · have hg3 : g3 = g2 := by
            injection hst with h3
          subst hg3
          subst hgc
          rw [← inv.alen]
          exact hlt
        · exact inv.runG_bound w2 g3 h2
      case apairing =>
        intro t
        have hbase := inv.apairing t
        show (aInvPairs (evs ++ [Ev.gFinish w g true, Ev.gInvoke w g2 (specPathFor cfg g2)
            ((writeRecord cfg s.shared g).aligned.getD g2 [])])).count t =
          (aFinPairs (evs ++ [Ev.gFinish w g true, Ev.gInvoke w g2 (specPathFor cfg g2)
            ((writeRecord cfg s.shared g).aligned.getD g2 [])])).count t +
          (inflightPairsA s).count t
        rw [aInvPairs_append, aFinPairs_append, List.count_append, List.count_append]
        rw [show ∀ p r, aInvPairs [Ev.gFinish w g true, Ev.gInvoke w g2 p r] =
            ([] : List (Nat × Nat)) from fun p r => rfl,
          show ∀ p r, aFinPairs [Ev.gFinish w g true, Ev.gInvoke w g2 p r] =
            ([] : List (Nat × Nat)) from fun p r => rfl]
        simp only [List.count_nil]
        omega
      case aw_done_after =>
        intro _
        exact inv.aw_done_after hnal
      case no_ainv_pre =>
        intro w2 i2 g3 hmem
        rw [List.mem_append] at hmem
        rcases hmem with hmem | hmem
        · exact inv.no_ainv_pre w2 i2 g3 hmem
        · rcases List.mem_cons.mp hmem with heq | hmem2
          · exact absurd heq (by simp)
          · rw [List.mem_singleton] at hmem2
            exact absurd hmem2 (by simp)
      case ginv_content =>
        intro w2 g3 p row hmem
        rw [List.mem_append] at hmem
        rcases hmem with hmem | hmem
        · obtain ⟨h1, h2, h3⟩ := inv.ginv_content w2 g3 p row hmem
          exact ⟨h1, by
            show row = (writeRecord cfg s.shared g).aligned.getD g3 []
            rw [hwra]
            exact h2, h3⟩
        · rcases List.mem_cons.mp hmem with heq | hmem2
          · exact absurd heq (by simp)
          · rw [List.mem_singleton] at hmem2
            injection hmem2 with h1 h2 h3 h4
            subst h2
            refine ⟨h3, h4, ?_⟩
            subst hgc
            rw [hwra] at *
            rw [← inv.alen]
            exact hlt
      case aligned_zero =>
        intro h0
        show (writeRecord cfg s.shared g).aligned = _
        rw [hwra]
        exact inv.aligned_zero h0
      case no_brackets =>
        intro hcond
        obtain ⟨hl, hr⟩ := inv.no_brackets hcond
        constructor
        · intro hmem
          rcases writeRecord_stream_mem hmem with h | h | h
          · exact hl h
          · exact Tok.noConfusion h
          · exact Tok.noConfusion h
        · intro hmem
          rcases writeRecord_stream_mem hmem with h | h | h
          · exact hr h
          · exact Tok.noConfusion h
          · exact Tok.noConfusion h
      case gpairing =>
        intro g0
        have hup := filterMap_set_count gwG s.gworkers w (GW.runG g2) (GW.runG g) hstw g0
        have hbase := inv.gpairing g0
        show (gInvGs (evs ++ [Ev.gFinish w g true, Ev.gInvoke w g2 (specPathFor cfg g2)
            ((writeRecord cfg s.shared g).aligned.getD g2 [])])).count g0 =
          (gFinGs (evs ++ [Ev.gFinish w g true, Ev.gInvoke w g2 (specPathFor cfg g2)
            ((writeRecord cfg s.shared g).aligned.getD g2 [])])).count g0 +
          ((s.gworkers.set w (GW.runG g2)).filterMap gwG).count g0
        rw [gInvGs_append, gFinGs_append, List.count_append, List.count_append]
        rw [show ∀ p r, gInvGs [Ev.gFinish w g true, Ev.gInvoke w g2 p r] = [g2] from
            fun p r => rfl,
          show ∀ p r, gFinGs [Ev.gFinish w g true, Ev.gInvoke w g2 p r] = [g] from
            fun p r => rfl]
        rw [inflightGs] at hbase
        simp only [gwG, Option.toList] at hup
        omega
      case gcursor_le =>
        show (genoClaim (writeRecord cfg s.shared g).aligned.length
          (writeRecord cfg s.shared g).terminate s.gcursor).1 ≤ numRows cfg
        rw [hwra, hwrt, hfst, ← inv.alen]
        omega
    · rw [hwra, hwrt] at hsnd
      subst hs2
      subst hevs
      constructor
      case ulen =>
        show (writeRecord cfg s.shared g).unaligned.length = _
        rw [hwru]
        exact inv.ulen
      case usamples =>
        show (writeRecord cfg s.shared g).unaligned.map _ = _
        rw [hwru]
        exact inv.usamples
      case cursor_le =>
        intro j hj
        rw [ucur]
        show ((writeRecord cfg s.shared g).unaligned.getD j default).unprocessedGraphs ≤ _
        rw [hwru]
        exact inv.cursor_le j hj
      case cursor_pre =>
        intro j hj hp
        rw [ucur]
        show ((writeRecord cfg s.shared g).unaligned.getD j default).unprocessedGraphs = _
        rw [hwru]
        exact inv.cursor_pre j hj hp
      case alen =>
        show (writeRecord cfg s.shared g).aligned.length = _
        rw [hwra]
        exact inv.alen
      case anames =>
        intro g3 hg3
        show ((writeRecord cfg s.shared g).aligned.getD g3 []).map _ = _
        rw [hwra]
        exact inv.anames g3 hg3
      case aw_len => exact inv.aw_len
      case gw_nil =>
        intro h
        exact absurd (hph ▸ h) (by intro h2; exact Phase.noConfusion h2)
      case gw_len =>
        intro _
        show (s.gworkers.set w GW.doneG).length = N
        rw [List.length_set]
        exact inv.gw_len hnal
      case term_iff =>
        show (writeRecord cfg s.shared g).terminate = true ↔ _
        rw [hwrt]
        rw [fail_exists_append_nofail (by
          intro e he
          rw [List.mem_singleton] at he
          subst he
          rfl)]
        exact inv.term_iff
      case a_phase =>
        intro h
        exact absurd (hph ▸ h) (by intro h2; exact Phase.noConfusion h2)
      case split_ev =>
        exact split_ev_append_g inv.split_ev (by
          intro e he
          rw [List.mem_singleton] at he
          subst he
          rfl)
      case atS_bound => exact inv.atS_bound
      case runA_bound => exact inv.runA_bound
      case runG_bound =>
        intro w2 g3 h
        rcases getElem?_set_inv h with ⟨_, _, hst⟩ | ⟨_, h2⟩
        · exact absurd hst (by simp)
        · exact inv.runG_bound w2 g3 h2
      case apairing =>
        intro t
        have hbase := inv.apairing t
        show (aInvPairs (evs ++ [Ev.gFinish w g true])).count t =
          (aFinPairs (evs ++ [Ev.gFinish w g true])).count t + (inflightPairsA s).count t
        rw [aInvPairs_append, aFinPairs_append, List.count_append, List.count_append,
          show aInvPairs [Ev.gFinish w g true] = ([] : List (Nat × Nat)) from rfl,
          show aFinPairs [Ev.gFinish w g true] = ([] : List (Nat × Nat)) from rfl]
        simp only [List.count_nil]
        omega
      case aw_done_after =>
        intro _
        exact inv.aw_done_after hnal
      case no_ainv_pre =>
        intro w2 i2 g3 hmem
        rw [List.mem_append, List.mem_singleton] at hmem
        rcases hmem with hmem | hmem
        · exact inv.no_ainv_pre w2 i2 g3 hmem
        · exact absurd hmem (by simp)
      case ginv_content =>
        intro w2 g3 p row hmem
        rw [List.mem_append, List.mem_singleton] at hmem
        rcases hmem with hmem | hmem
        · obtain ⟨h1, h2, h3⟩ := inv.ginv_content w2 g3 p row hmem
          exact ⟨h1, by
            show row = (writeRecord cfg s.shared g).aligned.getD g3 []
            rw [hwra]
            exact h2, h3⟩
        · exact absurd hmem (by simp)
      case aligned_zero =>
        intro h0
        show (writeRecord cfg s.shared g).aligned = _
        rw [hwra]
        exact inv.aligned_zero h0
      case no_brackets =>
        intro hcond
        obtain ⟨hl, hr⟩ := inv.no_brackets hcond
        constructor
        · intro hmem
          rcases writeRecord_stream_mem hmem with h | h | h
          · exact hl h
          · exact Tok.noConfusion h
          · exact Tok.noConfusion h
        · intro hmem
          rcases writeRecord_stream_mem hmem with h | h | h
          · exact hr h
          · exact Tok.noConfusion h
          · exact Tok.noConfusion h
      case gpairing =>
        intro g0
        have hup := filterMap_set_count gwG s.gworkers w GW.doneG (GW.runG g) hstw g0
        have hbase := inv.gpairing g0
        show (gInvGs (evs ++ [Ev.gFinish w g true])).count g0 =
          (gFinGs (evs ++ [Ev.gFinish w g true])).count g0 +
          ((s.gworkers.set w GW.doneG).filterMap gwG).count g0
        rw [gInvGs_append, gFinGs_append, List.count_append, List.count_append,
          show gInvGs [Ev.gFinish w g true] = ([] : List Nat) from rfl,
          show gFinGs [Ev.gFinish w g true] = [g] from rfl]
        rw [inflightGs] at hbase
        simp only [gwG, Option.toList, List.count_nil] at hup
        simp only [List.count_nil]
        omega
      case gcursor_le =>
        show (genoClaim (writeRecord cfg s.shared g).aligned.length
          (writeRecord cfg s.shared g).terminate s.gcursor).1 ≤ numRows cfg
        rw [hwra, hwrt]
        rcases genoClaim_none hsnd with ⟨_, hlt, hfst⟩ | ⟨_, hfst⟩
        · rw [hfst, ← inv.alen]
          omega
        · rw [hfst]
          exact inv.gcursor_le
  · subst hs2
    subst hevs
    constructor
    case ulen => exact inv.ulen
    case usamples => exact inv.usamples
    case cursor_le => exact inv.cursor_le
    case cursor_pre => exact inv.cursor_pre
    case alen => exact inv.alen
    case anames => exact inv.anames
    case aw_len => exact inv.aw_len
    case gw_nil =>
      intro h
      exact absurd (hph ▸ h) (by intro h2; exact Phase.noConfusion h2)
    case gw_len =>
      intro _
      show (s.gworkers.set w GW.doneG).length = N
      rw [List.length_set]
      exact inv.gw_len hnal
    case term_iff =>
      constructor
      · intro _
        exact ⟨Ev.gFinish w g false,
          List.mem_append_right _ (List.mem_singleton.mpr rfl), rfl⟩
      · intro _
        rfl
    case a_phase =>
      intro h
      exact absurd (hph ▸ h) (by intro h2; exact Phase.noConfusion h2)
    case split_ev =>
      exact split_ev_append_g inv.split_ev (by
        intro e he
        rw [List.mem_singleton] at he
        subst he
        rfl)
    case atS_bound => exact inv.atS_bound
    case runA_bound => exact inv.runA_bound
    case runG_bound =>
      intro w2 g3 h
      rcases getElem?_set_inv h with ⟨_, _, hst⟩ | ⟨_, h2⟩
      · exact absurd hst (by simp)
      · exact inv.runG_bound w2 g3 h2
    case apairing =>
      intro t
      have hbase := inv.apairing t
      show (aInvPairs (evs ++ [Ev.gFinish w g false])).count t =
        (aFinPairs (evs ++ [Ev.gFinish w g false])).count t + (inflightPairsA s).count t
      rw [aInvPairs_append, aFinPairs_append, List.count_append, List.count_append,
        show aInvPairs [Ev.gFinish w g false] = ([] : List (Nat × Nat)) from rfl,
        show aFinPairs [Ev.gFinish w g false] = ([] : List (Nat × Nat)) from rfl]
      simp only [List.count_nil]
      omega
    case aw_done_after =>
      intro _
      exact inv.aw_done_after hnal
    case no_ainv_pre =>
      intro w2 i2 g3 hmem
      rw [List.mem_append, List.mem_singleton] at hmem
      rcases hmem with hmem | hmem
      · exact inv.no_ainv_pre w2 i2 g3 hmem
      · exact absurd hmem (by simp)
    case ginv_content =>
      intro w2 g3 p row hmem
      rw [List.mem_append, List.mem_singleton] at hmem
      rcases hmem with hmem | hmem
      · exact inv.ginv_content w2 g3 p row hmem
      · exact absurd hmem (by simp)
    case aligned_zero => exact inv.aligned_zero
    case no_brackets => exact inv.no_brackets
    case gpairing =>
      intro g0
      have hup := filterMap_set_count gwG s.gworkers w GW.doneG (GW.runG g) hstw g0
      have hbase := inv.gpairing g0
      show (gInvGs (evs ++ [Ev.gFinish w g false])).count g0 =
        (gFinGs (evs ++ [Ev.gFinish w g false])).count g0 +
        ((s.gworkers.set w GW.doneG).filterMap gwG).count g0
      rw [gInvGs_append, gFinGs_append, List.count_append, List.count_append,
        show gInvGs [Ev.gFinish w g false] = ([] : List Nat) from rfl,
        show gFinGs [Ev.gFinish w g false] = [g] from rfl]
      rw [inflightGs] at hbase
      simp only [gwG, Option.toList, List.count_nil] at hup
      simp only [List.count_nil]
      omega
    case gcursor_le => exact inv.gcursor_le

theorem invU_finalize {cfg : Config} {N : Nat} {s s2 : Sys} {evs evs2 : List Ev}
    (inv : InvU cfg N s evs) (hc : finalizeStep cfg s = some (s2, evs2)) :
    InvU cfg N s2 (evs ++ evs2) := by
  obtain ⟨hph, hall, hs2, hevs⟩ := finalizeStep_inv hc
  have hnal : s.phase ≠ Phase.aligning := by
    rw [hph]
    intro h
    exact Phase.noConfusion h
  subst hs2
  subst hevs
  rw [List.append_nil]
  constructor
  case ulen => exact inv.ulen
  case usamples => exact inv.usamples
  case cursor_le => exact inv.cursor_le
  case cursor_pre => exact inv.cursor_pre
  case alen => exact inv.alen
  case anames => exact inv.anames
  case aw_len => exact inv.aw_len
  case gw_nil =>
    intro h
    exact Phase.noConfusion h
  case gw_len =>
    intro _
    exact inv.gw_len hnal
  case term_iff => exact inv.term_iff
  case a_phase =>
    intro h
    exact Phase.noConfusion h
  case split_ev => exact inv.split_ev
  case atS_bound => exact inv.atS_bound
  case runA_bound => exact inv.runA_bound
  case runG_bound => exact inv.runG_bound
  case apairing => exact inv.apairing
  case aw_done_after =>
    intro _
    exact inv.aw_done_after hnal
  case no_ainv_pre => exact inv.no_ainv_pre
  case ginv_content => exact inv.ginv_content
  case aligned_zero => exact inv.aligned_zero
  case no_brackets =>
    intro hcond
    obtain ⟨hl, hr⟩ := inv.no_brackets hcond
    rw [show (closeTok cfg) = [] from by rw [closeTok, if_neg hcond], List.append_nil]
    exact ⟨hl, hr⟩
  case gpairing => exact inv.gpairing
  case gcursor_le => exact inv.gcursor_le

/-- Every reachable state satisfies the unconditional invariant. -/
theorem invU_run {cfg : Config} {N : Nat} {evs : List Ev} {s : Sys}
    (hrun : Run cfg N (initSys cfg N) evs s) : InvU cfg N s evs := by
  induction hrun with
  | refl => exact invU_init cfg N
  | tail hr hstep ih =>
    obtain ⟨c, hc⟩ := hstep
    cases c with
    | aSeg w => exact invU_aSeg ih hc
    | aFin w ok => exact invU_aFin ih hc
    | barrier => exact invU_barrier ih hc
    | gClaim w => exact invU_gClaim ih hc
    | gFin w ok => exact invU_gFin ih hc
    | finalize => exact invU_finalize ih hc

theorem step_term_no_invoke {cfg : Config} {N : Nat} {c : Choice} {s s2 : Sys}
    {evs2 : List Ev} (hterm : s.shared.terminate = true)
    (hc : schedStep cfg N c s = some (s2, evs2)) :
    s2.shared.terminate = true ∧ ∀ e ∈ evs2, isInvokeEv e = false := by
  cases c with
  | aSeg w =>
    obtain ⟨hph, i, hstw, hcase⟩ := aSegStep_inv hc
    rcases hcase with ⟨j, g, hsnd, hs2, hevs⟩ | ⟨hsnd, hs2, hevs⟩
    · rw [hterm, claimSeg_true_snd] at hsnd
      exact absurd hsnd (by simp)
    · subst hs2
      subst hevs
      exact ⟨hterm, by simp⟩
  | aFin w ok =>
    obtain ⟨hph, i, g, hstw, hcase⟩ := aFinStep_inv hc
    rcases hcase with ⟨hok, hcase2⟩ | ⟨hok, hs2, hevs⟩
    · rcases hcase2 with ⟨j, g2, hsnd, hs2, hevs⟩ | ⟨hsnd, hs2, hevs⟩
      · rw [hterm, claimSeg_true_snd] at hsnd
        exact absurd hsnd (by simp)
      · subst hs2
        subst hevs
        refine ⟨hterm, ?_⟩
        intro e he
        rw [List.mem_singleton] at he
        subst he
        rfl
    · subst hs2
      subst hevs
      refine ⟨rfl, ?_⟩
      intro e he
      rw [List.mem_singleton] at he
      subst he
      rfl
  | barrier =>
    obtain ⟨hph, hall, hs2, hevs⟩ := barrierStep_inv hc
    subst hs2
    subst hevs
    exact ⟨hterm, by simp⟩
  | gClaim w =>
    obtain ⟨hph, hstw, hcase⟩ := gClaimStep_inv hc
    rcases hcase with ⟨g, hsnd, hs2, hevs⟩ | ⟨hsnd, hs2, hevs⟩
    · obtain ⟨_, _, hterm2, _⟩ := genoClaim_some hsnd
      rw [hterm] at hterm2
      exact absurd hterm2 (by simp)
    · subst hs2
      subst hevs
      exact ⟨hterm, by simp⟩
  | gFin w ok =>
    obtain ⟨hph, g, hstw, hcase⟩ := gFinStep_inv hc
    have hwrt := writeRecord_terminate cfg s.shared g
    rcases hcase with ⟨hok, hcase2⟩ | ⟨hok, hs2, hevs⟩
    · rcases hcase2 with ⟨g2, hsnd, hs2, hevs⟩ | ⟨hsnd, hs2, hevs⟩
      · rw [hwrt] at hsnd
        obtain ⟨_, _, hterm2, _⟩ := genoClaim_some hsnd
        rw [hterm] at hterm2
        exact absurd hterm2 (by simp)
      · subst hs2
        subst hevs
        refine ⟨?_, ?_⟩
        · show (writeRecord cfg s.shared g).terminate = true
          rw [hwrt]
          exact hterm
        · intro e he
          rw [List.mem_singleton] at he
          subst he
          rfl
    · subst hs2
      subst hevs
      refine ⟨rfl, ?_⟩
      intro e he
      rw [List.mem_singleton] at he
      subst he
      rfl
  | finalize =>
    obtain ⟨hph, hall, hs2, hevs⟩ := finalizeStep_inv hc
    subst hs2
    subst hevs
    exact ⟨hterm, by simp⟩

/-- Once the termination flag is set, it stays set and no further external
calls are invoked along any continuation of the run. -/
theorem terminate_no_more_invokes {cfg : Config} {N : Nat} {s : Sys} {evs : List Ev}
    {s2 : Sys} (hterm : s.shared.terminate = true) (hrun : Run cfg N s evs s2) :
    s2.shared.terminate = true ∧ ∀ e ∈ evs, isInvokeEv e = false := by
  induction hrun with
  | refl => exact ⟨hterm, by simp⟩
  | tail hr hstep ih =>
    obtain ⟨hterm2, hno⟩ := ih
    obtain ⟨c, hc⟩ := hstep
    obtain ⟨hterm3, hno2⟩ := step_term_no_invoke hterm2 hc
    refine ⟨hterm3, ?_⟩
    intro e he
    rw [List.mem_append] at he
    rcases he with he | he
    · exact hno e he
    · exact hno2 e he

/-- Concrete configuration for exercising the genotyping phase: three
graphs, no samples, no combined output file. -/
def cfgC3 : Config :=
  { graphSpecPaths := [("a"), ("b"), ("c")]
    manifest := []
    outputFilePath := ("")
    outputFolderPath := ("") }

/-- Total number of cursor claims performed so far: the sum of all
per-sample graph cursors plus the genotyping-phase row cursor. -/
def totalClaims (s : Sys) : Nat :=
  (s.shared.unaligned.map (fun u => u.unprocessedGraphs)).sum + s.gcursor

/-- Reachable state of `cfgC3` with two workers in which worker 0's
genotyper call has failed (termination flag set) while worker 1's call on
row 1 is still in flight and row 2 is unclaimed. -/
def sC3 : Sys :=
  { shared :=
      { unaligned := []
        aligned := [[], [], []]
        terminate := true
        firstPrinted := false
        stream := [] }
    phase := Phase.genotyping
    aworkers := [AW.doneA, AW.doneA]
    gcursor := 2
    gworkers := [GW.doneG, GW.runG 1] }

theorem runC3 : Run cfgC3 2 (initSys cfgC3 2)
    [Ev.gInvoke 0 0 ("a") [], Ev.gInvoke 1 1 ("b") [], Ev.gFinish 0 0 false] sC3 := by
  have h0 : Run cfgC3 2 (initSys cfgC3 2) [] (initSys cfgC3 2) :=
    Run.refl (initSys cfgC3 2)
  exact Run.tail (Run.tail (Run.tail (Run.tail (Run.tail (Run.tail h0
    ⟨Choice.aSeg 0, rfl⟩) ⟨Choice.aSeg 1, rfl⟩) ⟨Choice.barrier, rfl⟩)
    ⟨Choice.gClaim 0, rfl⟩) ⟨Choice.gClaim 1, rfl⟩) ⟨Choice.gFin 0 false, rfl⟩

/-- C2: the join of the alignment pool is a full barrier: in every run,
all alignment events precede all genotyping events, and as soon as any
genotyping event exists, every aligner invocation has its matching return
(no alignment call is in flight when the genotyping phase runs). -/
theorem C2_phase_barrier {cfg : Config} {N : Nat} {evs : List Ev} {s : Sys}
    (hrun : Run cfg N (initSys cfg N) evs s) :
    evs = aEvents evs ++ gEvents evs ∧
    (gEvents evs ≠ [] →
      ∀ t : Nat × Nat, (aInvPairs evs).count t = (aFinPairs evs).count t) := by
  have inv := invU_run hrun
  refine ⟨inv.split_ev, ?_⟩
  intro hne t
  have hph : s.phase ≠ Phase.aligning := by
    intro h
    exact hne (inv.a_phase h)
  have hnil : inflightPairsA s = [] := by
    rw [inflightPairsA]
    exact filterMap_nil_of_all_done (inv.aw_done_after hph)
  have hpair := inv.apairing t
  rw [hnil] at hpair
  simpa using hpair

/-- Witness for C2 on a concrete two-worker run of `cfgC3` that reaches
the genotyping phase. -/
theorem C2_phase_barrier_witness :
    ([Ev.gInvoke 0 0 ("a") [], Ev.gInvoke 1 1 ("b") [], Ev.gFinish 0 0 false] : List Ev) =
      aEvents [Ev.gInvoke 0 0 ("a") [], Ev.gInvoke 1 1 ("b") [], Ev.gFinish 0 0 false] ++
      gEvents [Ev.gInvoke 0 0 ("a") [], Ev.gInvoke 1 1 ("b") [], Ev.gFinish 0 0 false] ∧
    (gEvents [Ev.gInvoke 0 0 ("a") [], Ev.gInvoke 1 1 ("b") [], Ev.gFinish 0 0 false] ≠ [] →
      ∀ t : Nat × Nat,
        (aInvPairs [Ev.gInvoke 0 0 ("a") [], Ev.gInvoke 1 1 ("b") [],
          Ev.gFinish 0 0 false]).count t =
        (aFinPairs [Ev.gInvoke 0 0 ("a") [], Ev.gInvoke 1 1 ("b") [],
          Ev.gFinish 0 0 false]).count t) :=
  C2_phase_barrier runC3

/-- C3 as stated is false: the claim cursor advances before the
termination flag is checked (Workflow.cpp:123 and 154 precede 126 and
160), so a claim can still occur after the flag is set.  Here, worker 1
finishing its genotyper call after worker 0's failure set the flag claims
row 2 (the shared cursor advances from 2 to 3) and only then observes the
flag and stops, leaving row 2 claimed but unprocessed. -/
theorem C3_counterexample :
    ¬ (∀ (s s2 : Sys) (evs evs2 : List Ev),
        Run cfgC3 2 (initSys cfgC3 2) evs s → s.shared.terminate = true →
        StepTo cfgC3 2 s s2 evs2 → totalClaims s2 = totalClaims s) := by
  intro hclaim
  have hstep : StepTo cfgC3 2 sC3
      { sC3 with gcursor := 3, gworkers := [GW.doneG, GW.doneG] }
      [Ev.gFinish 1 1 true] := ⟨Choice.gFin 1 true, rfl⟩
  have h := hclaim sC3 { sC3 with gcursor := 3, gworkers := [GW.doneG, GW.doneG] }
    [Ev.gInvoke 0 0 ("a") [], Ev.gInvoke 1 1 ("b") [], Ev.gFinish 0 0 false]
    [Ev.gFinish 1 1 true] runC3 rfl hstep
  exact absurd h (by decide)

/-- C3 amended: the flag is checked after the claim, under the mutex, and
a worker observing it stops without processing; hence once the flag is
set, no further aligner or genotyper invocation ever occurs (cursors may
still advance past items that are then never processed), and the flag is
never cleared. -/
theorem C3_amended_no_invocation_after_flag {cfg : Config} {N : Nat} {s : Sys}
    {evs : List Ev} {s2 : Sys}
    (hterm : s.shared.terminate = true) (hrun : Run cfg N s evs s2) :
    s2.shared.terminate = true ∧ ∀ e ∈ evs, isInvokeEv e = false :=
  terminate_no_more_invokes hterm hrun

/-- Witness for the amended C3: from the reachable terminated state
`sC3`, the remaining step claims row 2 but invokes nothing. -/
theorem C3_amended_witness :
    ({ sC3 with gcursor := 3, gworkers := [GW.doneG, GW.doneG] } : Sys).shared.terminate
      = true ∧
    ∀ e ∈ [Ev.gFinish 1 1 true], isInvokeEv e = false :=
  C3_amended_no_invocation_after_flag rfl
    (Run.tail (Run.refl sC3) ⟨Choice.gFin 1 true, rfl⟩ :
      Run cfgC3 2 sC3 ([] ++ [Ev.gFinish 1 1 true])
        { sC3 with gcursor := 3, gworkers := [GW.doneG, GW.doneG] })

/-- Modelled from the spec: common::run and the thread pool (not under
src/) surface worker failures after the joins, so the process completion
status is "zero on full success; non-zero if TerminationFlag was set by
any worker in either phase". -/
def completionStatus (s : Sys) : Nat :=
  if s.shared.terminate = true then 1 else 0

/-- C4: the completion status of a run is non-zero exactly when some
aligner or genotyper call failed (which is exactly when the termination
flag was set). -/
theorem C4_exit_status {cfg : Config} {N : Nat} {evs : List Ev} {s : Sys}
    (hrun : Run cfg N (initSys cfg N) evs s) :
    (completionStatus s ≠ 0 ↔ ∃ e ∈ evs, isFailEv e = true) ∧
    (completionStatus s ≠ 0 ↔ s.shared.terminate = true) := by
  have inv := invU_run hrun
  have hiff : completionStatus s ≠ 0 ↔ s.shared.terminate = true := by
    rw [completionStatus]
    cases hb : s.shared.terminate
    · simp
    · simp
  exact ⟨hiff.trans inv.term_iff, hiff⟩

/-- Witness for C4 on a run with a genotyper failure. -/
theorem C4_exit_status_witness :
    (completionStatus sC3 ≠ 0 ↔
      ∃ e ∈ [Ev.gInvoke 0 0 ("a") [], Ev.gInvoke 1 1 ("b") [], Ev.gFinish 0 0 false],
        isFailEv e = true) ∧
    (completionStatus sC3 ≠ 0 ↔ sC3.shared.terminate = true) :=
  C4_exit_status runC3

/-- Concrete configuration with one graph and one pre-aligned sample. -/
def cfgC7 : Config :=
  { graphSpecPaths := [("g1.json")]
    manifest := [{ sampleName := ("s1"), filename := ("f1"), indexFilename := ("fi1"),
                   alignmentData := some ("payload") }]
    outputFilePath := ("-")
    outputFolderPath := ("") }

/-- C7 as stated is false: a pre-aligned sample IS pushed onto the
`unalignedSamples_` work sequence by the constructor (Workflow.cpp:67-68)
— only its cursor starts exhausted.  At `cfgC7` the work sequence does
contain an entry for the pre-aligned sample s1. -/
theorem C7_counterexample :
    ¬ (∀ u ∈ initUnaligned cfgC7, u.sample.sampleName ≠ ("s1")) := by
  decide

/-- C7 amended: a sample with a non-null pre-existing alignment payload
is enqueued into `unalignedSamples_` with its graph cursor already
exhausted, so the alignment phase never claims it (its cursor stays at
the end and no aligner call is ever invoked for it), and it appears in
every row of the aligned-samples table at every reachable state. -/
theorem C7_amended_prealigned_never_claimed {cfg : Config} {i : Nat}
    (hi : i < cfg.manifest.length)
    (hpre : (cfg.manifest.getD i default).alignmentData.isNone = false) :
    ((initUnaligned cfg).getD i default).unprocessedGraphs = nGr cfg ∧
    ∀ (N : Nat) (evs : List Ev) (s : Sys), Run cfg N (initSys cfg N) evs s →
      ucur s.shared.unaligned i = nGr cfg ∧
      (∀ (w g : Nat), Ev.aInvoke w i g ∉ evs) ∧
      ∀ g, g < numRows cfg →
        ∃ e ∈ s.shared.aligned.getD g [],
          e.sampleName = (cfg.manifest.getD i default).sampleName := by
  constructor
  · have := ucur_init cfg i hi
    rw [ucur] at this
    rw [this, hpre]
    rfl
  · intro N evs s hrun
    have inv := invU_run hrun
    refine ⟨inv.cursor_pre i hi hpre, ?_, ?_⟩
    · intro w g hmem
      have := (inv.no_ainv_pre w i g hmem).2
      rw [hpre] at this
      exact Bool.noConfusion this
    · intro g hg
      have hmem0 : cfg.manifest.getD i default ∈ cfg.manifest := by
        have h2 := List.getElem_mem hi
        rw [List.getD_eq_getElem?_getD, List.getElem?_eq_getElem hi]
        simpa using h2
      have hmm : (cfg.manifest.getD i default).sampleName ∈
          cfg.manifest.map (fun e => e.sampleName) := by
        rw [List.mem_map]
        exact ⟨cfg.manifest.getD i default, hmem0, rfl⟩
      rw [← inv.anames g hg, List.mem_map] at hmm
      obtain ⟨e, he, hname⟩ := hmm
      exact ⟨e, he, hname⟩

/-- Witness for the amended C7 at `cfgC7` and the initial state. -/
theorem C7_amended_witness :
    ((initUnaligned cfgC7).getD 0 default).unprocessedGraphs = nGr cfgC7 ∧
    ucur (initSys cfgC7 1).shared.unaligned 0 = nGr cfgC7 ∧
    ∃ e ∈ (initSys cfgC7 1).shared.aligned.getD 0 [], e.sampleName =
      (cfgC7.manifest.getD 0 default).sampleName := by
  obtain ⟨h1, h2⟩ := @C7_amended_prealigned_never_claimed cfgC7 0 (by decide) (by decide)
  obtain ⟨h3, _, h4⟩ := h2 1 [] (initSys cfgC7 1) (Run.refl (initSys cfgC7 1))
  exact ⟨h1, h3, h4 0 (by decide)⟩

/-- C10: at every reachable state the aligned-samples table has exactly
`max 1 (number of graph specs)` rows, and every row holds exactly one
entry per manifest sample, in manifest order by name — the phases only
overwrite slots in place. -/
theorem C10_table_shape {cfg : Config} {N : Nat} {evs : List Ev} {s : Sys}
    (hrun : Run cfg N (initSys cfg N) evs s) :
    s.shared.aligned.length = max 1 cfg.graphSpecPaths.length ∧
    (∀ row ∈ s.shared.aligned, row.length = cfg.manifest.length) ∧
    ∀ g, g < max 1 cfg.graphSpecPaths.length →
      (s.shared.aligned.getD g []).map (fun e => e.sampleName) =
        cfg.manifest.map (fun e => e.sampleName) := by
  have inv := invU_run hrun
  refine ⟨inv.alen, ?_, inv.anames⟩
  intro row hrow
  obtain ⟨g, hg, hrow2⟩ := List.getElem_of_mem hrow
  have hnames := inv.anames g (by rw [← inv.alen]; exact hg)
  have hgetd : s.shared.aligned.getD g [] = row := by
    rw [List.getD_eq_getElem?_getD, List.getElem?_eq_getElem hg]
    simpa using hrow2
  rw [hgetd] at hnames
  have := congrArg List.length hnames
  simpa using this

/-- Witness for C10 at a reachable state of `cfgC7`. -/
theorem C10_table_shape_witness :
    (initSys cfgC7 2).shared.aligned.length = max 1 cfgC7.graphSpecPaths.length ∧
    (∀ row ∈ (initSys cfgC7 2).shared.aligned, row.length = cfgC7.manifest.length) ∧
    ∀ g, g < max 1 cfgC7.graphSpecPaths.length →
      ((initSys cfgC7 2).shared.aligned.getD g []).map (fun e => e.sampleName) =
        cfgC7.manifest.map (fun e => e.sampleName) :=
  C10_table_shape (Run.refl (initSys cfgC7 2))

theorem count_flatMap {α β : Type} [BEq β] (l : List α) (f : α → List β) (b : β) :
    (l.flatMap f).count b = (l.map (fun a => (f a).count b)).sum := by
  induction l with
  | nil => rfl
  | cons a as ih => simp [List.flatMap_cons, List.count_append, ih]

theorem flatMap_congr {α β : Type} {l : List α} {f f2 : α → List β}
    (h : ∀ a ∈ l, f a = f2 a) : l.flatMap f = l.flatMap f2 := by
  induction l with
  | nil => rfl
  | cons a as ih =>
    rw [List.flatMap_cons, List.flatMap_cons, h a (List.mem_cons_self a as),
      ih (fun b hb => h b (List.mem_cons_of_mem a hb))]

theorem sum_map_range_update {n j d : Nat} {f f2 : Nat → Nat}
    (hj : j < n) (hothers : ∀ i, i ≠ j → f2 i = f i) (hupd : f2 j = f j + d) :
    ((List.range n).map f2).sum = ((List.range n).map f).sum + d := by
  induction n with
  | zero => omega
  | succ n ih =>
    rw [List.range_succ, List.map_append, List.map_append, List.sum_append,
      List.sum_append]
    by_cases hjn : j = n
    · subst hjn
      have hall : (List.range j).map f2 = (List.range j).map f := by
        apply List.map_congr_left
        intro i hi
        rw [List.mem_range] at hi
        exact hothers i (by omega)
      rw [hall]
      simp only [List.map_cons, List.map_nil, List.sum_cons, List.sum_nil]
      omega
    · have hn : f2 n = f n := hothers n (Ne.symm hjn)
      rw [ih (by omega)]
      simp only [List.map_cons, List.map_nil, List.sum_cons, List.sum_nil]
      omega

theorem samplePairs_succ (cfg : Config) (i c : Nat)
    (h : (cfg.manifest.getD i default).alignmentData.isNone = true) :
    samplePairs cfg i (c + 1) = samplePairs cfg i c ++ [(i, c)] := by
  rw [samplePairs, samplePairs, if_pos h, if_pos h, List.range_succ, List.map_append]
  rfl

theorem pairsBelow_claim_update {cfg : Config} {s s2 : Sys} {j : Nat}
    (hj : j < cfg.manifest.length)
    (hnotpre : (cfg.manifest.getD j default).alignmentData.isNone = true)
    (hcur : ucur s2.shared.unaligned j = ucur s.shared.unaligned j + 1)
    (hothers : ∀ k, k ≠ j →
      ucur s2.shared.unaligned k = ucur s.shared.unaligned k)
    (t : Nat × Nat) :
    (pairsBelow cfg s2).count t =
      (pairsBelow cfg s).count t + ([(j, ucur s.shared.unaligned j)].count t) := by
  rw [pairsBelow, pairsBelow, count_flatMap, count_flatMap]
  apply sum_map_range_update hj
  · intro i hi
    have := hothers i hi
    rw [ucur, ucur] at this
    rw [this]
  · have hc := hcur
    rw [ucur, ucur] at hc
    rw [hc, samplePairs_succ cfg j _ hnotpre, List.count_append]
    rfl

theorem pairsBelow_eq_needed {cfg : Config} {s : Sys}
    (h : ∀ j, j < cfg.manifest.length → ucur s.shared.unaligned j = nGr cfg) :
    pairsBelow cfg s = neededPairs cfg := by
  rw [pairsBelow, neededPairs]
  apply flatMap_congr
  intro i hi
  rw [List.mem_range] at hi
  have := h i hi
  rw [ucur] at this
  rw [this]

theorem gInvGs_nil_of_gEvents_nil {evs : List Ev} (h : gEvents evs = []) :
    gInvGs evs = [] := by
  induction evs with
  | nil => rfl
  | cons e rest ih =>
    rw [gEvents, List.filter_cons] at h
    split at h
    · exact absurd h (by simp)
    · next hcond =>
      have hrest : gEvents rest = [] := h
      cases e with
      | aInvoke w i g => simpa [gInvGs, List.filterMap_cons] using ih hrest
      | aFinish w i g ok => simpa [gInvGs, List.filterMap_cons] using ih hrest
      | gInvoke w g p row => simp [isAEv] at hcond
      | gFinish w g ok => simp [isAEv] at hcond

theorem gFinGs_nil_of_gEvents_nil {evs : List Ev} (h : gEvents evs = []) :
    gFinGs evs = [] := by
  induction evs with
  | nil => rfl
  | cons e rest ih =>
    rw [gEvents, List.filter_cons] at h
    split at h
    · exact absurd h (by simp)
    · next hcond =>
      have hrest : gEvents rest = [] := h
      cases e with
      | aInvoke w i g => simpa [gFinGs, List.filterMap_cons] using ih hrest
      | aFinish w i g ok => simpa [gFinGs, List.filterMap_cons] using ih hrest
      | gInvoke w g p row => simp [isAEv] at hcond
      | gFinish w g ok => simp [isAEv] at hcond

/-- Invariant of runs in which no external call has failed, with thread
count at least one. -/
structure InvNF (cfg : Config) (N : Nat) (s : Sys) (evs : List Ev) : Prop where
  term_false : s.shared.terminate = false
  inv_below : s.phase = Phase.aligning → ∀ t : Nat × Nat,
      (aInvPairs evs).count t = (pairsBelow cfg s).count t
  hist_run : s.phase = Phase.aligning → ∀ (w i g : Nat),
      s.aworkers[w]? = some (AW.runA i g) →
      ∀ j, j < i → ucur s.shared.unaligned j = nGr cfg
  hist_done : ∀ (w : Nat), s.aworkers[w]? = some AW.doneA →
      ∀ j, j < cfg.manifest.length → ucur s.shared.unaligned j = nGr cfg
  afin_needed : s.phase ≠ Phase.aligning → ∀ t : Nat × Nat,
      (aFinPairs evs).count t = (neededPairs cfg).count t
  ginv_below : s.phase = Phase.genotyping → ∀ g : Nat,
      (gInvGs evs).count g = (List.range s.gcursor).count g
  g_done_full : s.phase = Phase.genotyping → ∀ (w : Nat),
      s.gworkers[w]? = some GW.doneG → s.gcursor = numRows cfg
  written : cfg.outputFilePath ≠ ("") →
      (s.phase = Phase.genotyping ∨ s.phase = Phase.finished) →
      s.shared.stream = openTok cfg ++ streamBody (gFinGs evs) ++
        (if s.phase = Phase.finished then closeTok cfg else []) ∧
      (s.shared.firstPrinted = true ↔ gFinGs evs ≠ [])
  stream_nofile : cfg.outputFilePath = ("") →
      s.shared.stream = [] ∧ s.shared.firstPrinted = false
  stream_align : s.phase = Phase.aligning →
      s.shared.stream = openTok cfg ∧ s.shared.firstPrinted = false
  gfin_rows : s.phase = Phase.finished → ∀ g : Nat,
      (gFinGs evs).count g = (List.range (numRows cfg)).count g
  ginv_rows : s.phase = Phase.finished → ∀ g : Nat,
      (gInvGs evs).count g = (List.range (numRows cfg)).count g

theorem invNF_init (cfg : Config) (N : Nat) : InvNF cfg N (initSys cfg N) [] := by
  constructor
  case term_false => rfl
  case inv_below =>
    intro _ t
    have : pairsBelow cfg (initSys cfg N) = [] := by
      rw [pairsBelow]
      apply List.flatMap_eq_nil_iff.mpr
      intro i hi
      rw [List.mem_range] at hi
      have hcur := ucur_init cfg i hi
      rw [ucur] at hcur
      show samplePairs cfg i ((initUnaligned cfg).getD i default).unprocessedGraphs = []
      rw [hcur, samplePairs]
      split
      · rfl
      · rfl
    rw [this]
    rfl
  case hist_run =>
    intro _ w i g h
    have h2 : (List.replicate N (AW.atS 0))[w]? = some (AW.runA i g) := h
    rw [List.getElem?_replicate] at h2
    split at h2 <;> simp at h2
  case hist_done =>
    intro w h
    have h2 : (List.replicate N (AW.atS 0))[w]? = some AW.doneA := h
    rw [List.getElem?_replicate] at h2
    split at h2 <;> simp at h2
  case afin_needed =>
    intro h
    exact absurd rfl h
  case ginv_below =>
    intro h
    exact Phase.noConfusion h
  case g_done_full =>
    intro h
    exact Phase.noConfusion h
  case written =>
    intro _ h
    rcases h with h | h <;> exact Phase.noConfusion h
  case stream_nofile =>
    intro h
    constructor
    · show openTok cfg = []
      rw [openTok, if_neg (by simp [h])]
    · rfl
  case stream_align =>
    intro _
    exact ⟨rfl, rfl⟩
  case gfin_rows =>
    intro h
    exact Phase.noConfusion h
  case ginv_rows =>
    intro h
    exact Phase.noConfusion h

theorem isNone_of_claimable {cfg : Config} {N : Nat} {s : Sys} {evs : List Ev} {j g : Nat}
    (inv : InvU cfg N s evs) (hjlen : j < s.shared.unaligned.length)
    (hcj : ucur s.shared.unaligned j = g) (hglt : g < nGr cfg) :
    (cfg.manifest.getD j default).alignmentData.isNone = true := by
  cases hpre : (cfg.manifest.getD j default).alignmentData.isNone
  · exfalso
    have := inv.cursor_pre j (by rw [← inv.ulen]; exact hjlen) hpre
    omega
  · rfl

theorem invNF_aSeg {cfg : Config} {N w : Nat} {s s2 : Sys} {evs evs2 : List Ev}
    (inv : InvU cfg N s evs) (invf : InvNF cfg N s evs)
    (hc : aSegStep cfg w s = some (s2, evs2)) :
    InvNF cfg N s2 (evs ++ evs2) := by
  obtain ⟨hph, i, hstw, hcase⟩ := aSegStep_inv hc
  have hi0 : i = 0 := inv.atS_bound w i hstw
  subst hi0
  have hlen0 : (0:Nat) ≤ s.shared.unaligned.length := Nat.zero_le _
  have hterm : s.shared.terminate = false := invf.term_false
  rcases hcase with ⟨j, g, hsnd, hs2, hevs⟩ | ⟨hsnd, hs2, hevs⟩
  · rw [hterm] at hsnd hs2
    obtain ⟨hij, hjlen, hcj, hglt, hother, hbump, hpref⟩ :=
      claimSeg_false_some (nGr cfg) s.shared.unaligned 0 j g hlen0 hsnd
    have hnotpre := isNone_of_claimable inv hjlen hcj hglt
    subst hs2
    subst hevs
    have hcur2 : ∀ k, k ≠ j →
        ucur (claimSeg (nGr cfg) false s.shared.unaligned 0).1 k =
          ucur s.shared.unaligned k := by
      intro k hk
      rw [ucur, ucur, hother k hk]
    have hbump2 : ucur (claimSeg (nGr cfg) false s.shared.unaligned 0).1 j =
        ucur s.shared.unaligned j + 1 := by
      rw [ucur, ucur, hbump]
      rfl
    constructor
    case term_false => exact hterm
    case inv_below =>
      intro _ t
      have hupd := @pairsBelow_claim_update cfg s { s with
          shared := { s.shared with
            unaligned := (claimSeg (nGr cfg) false s.shared.unaligned 0).1 }
          aworkers := s.aworkers.set w (AW.runA j g) } j
        (by rw [← inv.ulen]; exact hjlen) hnotpre hbump2 hcur2 t
      have hbase := invf.inv_below hph t
      rw [aInvPairs_append, List.count_append,
        show aInvPairs [Ev.aInvoke w j g] = [(j, g)] from rfl]
      rw [hupd, hcj, hbase]
    case hist_run =>
      intro _ w2 i2 g2 h
      rcases getElem?_set_inv h with ⟨_, _, hst⟩ | ⟨_, h2⟩
      · have hij2 : i2 = j ∧ g2 = g := by
          constructor <;> [exact congrArg (fun st => match st with
            | AW.runA i _ => i
            | _ => 0) hst;
            exact congrArg (fun st => match st with
            | AW.runA _ g0 => g0
            | _ => 0) hst]
        obtain ⟨rfl, rfl⟩ := hij2
        intro k hkj
        rw [hcur2 k (by omega)]
        have hk2 : nGr cfg ≤ ucur s.shared.unaligned k := hpref k (by omega) hkj
        have hk3 : ucur s.shared.unaligned k ≤ nGr cfg := by
          apply inv.cursor_le
          rw [← inv.ulen]
          omega
        omega
      · intro k hki2
        have hprev := invf.hist_run hph w2 i2 g2 h2 k hki2
        by_cases hkj : k = j
        · exfalso
          subst hkj
          omega
        · rw [hcur2 k hkj]
          exact hprev
    case hist_done =>
      intro w2 h j2 hj2
      rcases getElem?_set_inv h with ⟨_, _, hst⟩ | ⟨_, h2⟩
      · exact absurd hst (by simp)
      · exfalso
        have := invf.hist_done w2 h2 j (by rw [← inv.ulen]; exact hjlen)
        omega
    case afin_needed =>
      intro h
      exact absurd hph h
    case ginv_below =>
      intro h
      rw [hph] at h
      exact Phase.noConfusion h
    case g_done_full =>
      intro h
      rw [hph] at h
      exact Phase.noConfusion h
    case written =>
      intro _ h
      rcases h with h | h <;> (rw [hph] at h; exact Phase.noConfusion h)
    case stream_nofile => exact invf.stream_nofile
    case stream_align =>
      intro _
      exact invf.stream_align hph
    case gfin_rows =>
      intro h
      rw [hph] at h
      exact Phase.noConfusion h
    case ginv_rows =>
      intro h
      rw [hph] at h
      exact Phase.noConfusion h
  · rw [hterm] at hsnd hs2
    obtain ⟨hfst, hexh⟩ := claimSeg_false_none (nGr cfg) s.shared.unaligned 0 hlen0 hsnd
    subst hs2
    subst hevs
    rw [List.append_nil]
    constructor
    case term_false => exact hterm
    case inv_below =>
      intro _ t
      have hbase := invf.inv_below hph t
      rw [show pairsBelow cfg { s with
          shared := { s.shared with
            unaligned := (claimSeg (nGr cfg) false s.shared.unaligned 0).1 }
          aworkers := s.aworkers.set w AW.doneA } = pairsBelow cfg s from by
        rw [pairsBelow, pairsBelow]
        apply flatMap_congr
        intro i _
        show samplePairs cfg i
          (((claimSeg (nGr cfg) false s.shared.unaligned 0).1.getD i default).unprocessedGraphs) = _
        rw [hfst]]
      exact hbase
    case hist_run =>
      intro _ w2 i2 g2 h
      rcases getElem?_set_inv h with ⟨_, _, hst⟩ | ⟨_, h2⟩
      · exact absurd hst (by simp)
      · intro k hki2
        have := invf.hist_run hph w2 i2 g2 h2 k hki2
        rw [ucur, hfst]
        rw [ucur] at this
        exact this
    case hist_done =>
      intro w2 h j2 hj2
      rcases getElem?_set_inv h with ⟨_, _, hst⟩ | ⟨_, h2⟩
      · show ucur (claimSeg (nGr cfg) false s.shared.unaligned 0).1 j2 = nGr cfg
        rw [ucur, hfst]
        have h1 := hexh j2 (by omega) (by rw [inv.ulen]; exact hj2)
        have h2 := inv.cursor_le j2 hj2
        rw [ucur] at h1 h2
        omega
      · have := invf.hist_done w2 h2 j2 hj2
        rw [ucur, hfst]
        rw [ucur] at this
        exact this
    case afin_needed =>
      intro h
      exact absurd hph h
    case ginv_below =>
      intro h
      rw [hph] at h
      exact Phase.noConfusion h
    case g_done_full =>
      intro h
      rw [hph] at h
      exact Phase.noConfusion h
    case written =>
      intro _ h
      rcases h with h | h <;> (rw [hph] at h; exact Phase.noConfusion h)
    case stream_nofile => exact invf.stream_nofile
    case stream_align =>
      intro _
      exact invf.stream_align hph
    case gfin_rows =>
      intro h
      rw [hph] at h
      exact Phase.noConfusion h
    case ginv_rows =>
      intro h
      rw [hph] at h
      exact Phase.noConfusion h

theorem invNF_aFin {cfg : Config} {N w : Nat} {ok : Bool} {s s2 : Sys} {evs evs2 : List Ev}
    (inv : InvU cfg N s evs) (invf : InvNF cfg N s evs)
    (hc : aFinStep cfg w ok s = some (s2, evs2))
    (hnf2 : ∀ e ∈ evs2, isFailEv e = false) :
    InvNF cfg N s2 (evs ++ evs2) := by
  obtain ⟨hph, i, g, hstw, hcase⟩ := aFinStep_inv hc
  obtain ⟨hib, hgb⟩ := inv.runA_bound w i g hstw
  have hile : i ≤ s.shared.unaligned.length := by
    rw [inv.ulen]
    omega
  have hterm : s.shared.terminate = false := invf.term_false
  have hprev := invf.hist_run hph w i g hstw
  rcases hcase with ⟨hok, hcase2⟩ | ⟨hok, hs2, hevs⟩
  · subst hok
    rcases hcase2 with ⟨j, g2, hsnd, hs2, hevs⟩ | ⟨hsnd, hs2, hevs⟩
    · rw [hterm] at hsnd hs2
      obtain ⟨hij, hjlen, hcj, hglt, hother, hbump, hpref⟩ :=
        claimSeg_false_some (nGr cfg) s.shared.unaligned i j g2 hile hsnd
      have hnotpre := isNone_of_claimable inv hjlen hcj hglt
      subst hs2
      subst hevs
      have hcur2 : ∀ k, k ≠ j →
          ucur (claimSeg (nGr cfg) false s.shared.unaligned i).1 k =
            ucur s.shared.unaligned k := by
        intro k hk
        rw [ucur, ucur, hother k hk]
      have hbump2 : ucur (claimSeg (nGr cfg) false s.shared.unaligned i).1 j =
          ucur s.shared.unaligned j + 1 := by
        rw [ucur, ucur, hbump]
        rfl
      constructor
      case term_false => exact hterm
      case inv_below =>
        intro _ t
        have hupd := @pairsBelow_claim_update cfg s { s with
            shared := { s.shared with
              unaligned := (claimSeg (nGr cfg) false s.shared.unaligned i).1
              aligned := modifyNth (modifyNth alignSingleSample i) g s.shared.aligned }
            aworkers := s.aworkers.set w (AW.runA j g2) } j
          (by rw [← inv.ulen]; exact hjlen) hnotpre hbump2 hcur2 t
        have hbase := invf.inv_below hph t
        rw [aInvPairs_append, List.count_append,
          show aInvPairs [Ev.aFinish w i g true, Ev.aInvoke w j g2] = [(j, g2)] from rfl]
        rw [hupd, hcj, hbase]
      case hist_run =>
        intro _ w2 i2 g3 h
        rcases getElem?_set_inv h with ⟨_, _, hst⟩ | ⟨_, h2⟩
        · have hij2 : i2 = j ∧ g3 = g2 := by
            constructor <;> [exact congrArg (fun st => match st with
              | AW.runA i0 _ => i0
              | _ => 0) hst;
              exact congrArg (fun st => match st with
              | AW.runA _ g0 => g0
              | _ => 0) hst]
          obtain ⟨rfl, rfl⟩ := hij2
          intro k hkj
          rw [hcur2 k (by omega)]
          by_cases hki : k < i
          · exact hprev k hki
          · have hk2 : nGr cfg ≤ ucur s.shared.unaligned k :=
              hpref k (by omega) hkj
            have hk3 : ucur s.shared.unaligned k ≤ nGr cfg := by
              apply inv.cursor_le
              rw [← inv.ulen]
              omega
            omega
        · intro k hki2
          have hprev2 := invf.hist_run hph w2 i2 g3 h2 k hki2
          by_cases hkj : k = j
          · exfalso
            subst hkj
            omega
          · rw [hcur2 k hkj]
            exact hprev2
      case hist_done =>
        intro w2 h j2 hj2
        rcases getElem?_set_inv h with ⟨_, _, hst⟩ | ⟨_, h2⟩
        · exact absurd hst (by simp)
        · exfalso
          have := invf.hist_done w2 h2 j (by rw [← inv.ulen]; exact hjlen)
          omega
      case afin_needed =>
        intro h
        exact absurd hph h
      case ginv_below =>
        intro h
        rw [hph] at h
        exact Phase.noConfusion h
      case g_done_full =>
        intro h
        rw [hph] at h
        exact Phase.noConfusion h
      case written =>
        intro _ h
        rcases h with h | h <;> (rw [hph] at h; exact Phase.noConfusion h)
      case stream_nofile => exact invf.stream_nofile
      case stream_align =>
        intro _
        exact invf.stream_align hph
      case gfin_rows =>
        intro h
        rw [hph] at h
        exact Phase.noConfusion h
      case ginv_rows =>
        intro h
        rw [hph] at h
        exact Phase.noConfusion h
    · rw [hterm] at hsnd hs2
      obtain ⟨hfst, hexh⟩ := claimSeg_false_none (nGr cfg) s.shared.unaligned i hile hsnd
      subst hs2
      subst hevs
      constructor
      case term_false => exact hterm
      case inv_below =>
        intro _ t
        have hbase := invf.inv_below hph t
        rw [aInvPairs_append, List.count_append,
          show aInvPairs [Ev.aFinish w i g true] = ([] : List (Nat × Nat)) from rfl,
          List.count_nil]
        rw [show pairsBelow cfg { s with
            shared := { s.shared with
              unaligned := (claimSeg (nGr cfg) false s.shared.unaligned i).1
              aligned := modifyNth (modifyNth alignSingleSample i) g s.shared.aligned }
            aworkers := s.aworkers.set w AW.doneA } = pairsBelow cfg s from by
          rw [pairsBelow, pairsBelow]
          apply flatMap_congr
          intro i2 _
          show samplePairs cfg i2
            (((claimSeg (nGr cfg) false s.shared.unaligned i).1.getD i2
              default).unprocessedGraphs) = _
          rw [hfst]]
        omega
      case hist_run =>
        intro _ w2 i2 g3 h
        rcases getElem?_set_inv h with ⟨_, _, hst⟩ | ⟨_, h2⟩
        · exact absurd hst (by simp)
        · intro k hki2
          have := invf.hist_run hph w2 i2 g3 h2 k hki2
          show ucur (claimSeg (nGr cfg) false s.shared.unaligned i).1 k = nGr cfg
          rw [ucur, hfst]
          rw [ucur] at this
          exact this
      case hist_done =>
        intro w2 h j2 hj2
        rcases getElem?_set_inv h with ⟨_, _, hst⟩ | ⟨_, h2⟩
        · show ucur (claimSeg (nGr cfg) false s.shared.unaligned i).1 j2 = nGr cfg
          rw [ucur, hfst]
          by_cases hki : j2 < i
          · have := hprev j2 hki
            rw [ucur] at this
            exact this
          · have h1 := hexh j2 (by omega) (by rw [inv.ulen]; exact hj2)
            have h2 := inv.cursor_le j2 hj2
            rw [ucur] at h1 h2
            omega
        · have := invf.hist_done w2 h2 j2 hj2
          show ucur (claimSeg (nGr cfg) false s.shared.unaligned i).1 j2 = nGr cfg
          rw [ucur, hfst]
          rw [ucur] at this
          exact this
      case afin_needed =>
        intro h
        exact absurd hph h
      case ginv_below =>
        intro h
        rw [hph] at h
        exact Phase.noConfusion h
      case g_done_full =>
        intro h
        rw [hph] at h
        exact Phase.noConfusion h
      case written =>
        intro _ h
        rcases h with h | h <;> (rw [hph] at h; exact Phase.noConfusion h)
      case stream_nofile => exact invf.stream_nofile
      case stream_align =>
        intro _
        exact invf.stream_align hph
      case gfin_rows =>
        intro h
        rw [hph] at h
        exact Phase.noConfusion h
      case ginv_rows =>
        intro h
        rw [hph] at h
        exact Phase.noConfusion h
  · exfalso
    subst hevs
    have := hnf2 (Ev.aFinish w i g false) (List.mem_singleton.mpr rfl)
    exact Bool.noConfusion this

theorem invNF_barrier {cfg : Config} {N : Nat} {s s2 : Sys} {evs evs2 : List Ev}
    (hN : 1 ≤ N) (inv : InvU cfg N s evs) (invf : InvNF cfg N s evs)
    (hc : barrierStep N s = some (s2, evs2)) :
    InvNF cfg N s2 (evs ++ evs2) := by
  obtain ⟨hph, hall, hs2, hevs⟩ := barrierStep_inv hc
  have hgev : gEvents evs = [] := inv.a_phase hph
  have hw0 : ∃ st, s.aworkers[0]? = some st := by
    rw [List.getElem?_eq_getElem (by rw [inv.aw_len]; omega)]
    exact ⟨_, rfl⟩
  obtain ⟨st, hst⟩ := hw0
  have hdone : st = AW.doneA := by
    have h2 := getElem?_of_mem_all hall hst
    cases st with
    | atS i => exact absurd h2 (by simp [AW.isDone])
    | runA i g => exact absurd h2 (by simp [AW.isDone])
    | doneA => rfl
  subst hdone
  have hexh : ∀ j, j < cfg.manifest.length → ucur s.shared.unaligned j = nGr cfg :=
    invf.hist_done 0 hst
  have hneed : pairsBelow cfg s = neededPairs cfg := pairsBelow_eq_needed hexh
  have hinfl : inflightPairsA s = [] := by
    rw [inflightPairsA]
    exact filterMap_nil_of_all_done hall
  subst hs2
  subst hevs
  rw [List.append_nil]
  constructor
  case term_false => exact invf.term_false
  case inv_below =>
    intro h
    exact Phase.noConfusion h
  case hist_run =>
    intro h
    exact Phase.noConfusion h
  case hist_done => exact invf.hist_done
  case afin_needed =>
    intro _ t
    have h1 := inv.apairing t
    rw [hinfl] at h1
    simp only [List.count_nil] at h1
    have h2 := invf.inv_below hph t
    rw [hneed] at h2
    omega
  case ginv_below =>
    intro _ g
    rw [gInvGs_nil_of_gEvents_nil hgev]
    rfl
  case g_done_full =>
    intro _ w2 h
    have h2 : (List.replicate N GW.entry)[w2]? = some GW.doneG := h
    rw [List.getElem?_replicate] at h2
    split at h2 <;> simp at h2
  case written =>
    intro hfile _
    constructor
    · rw [gFinGs_nil_of_gEvents_nil hgev,
        if_neg (by intro h; exact Phase.noConfusion h)]
      have := (invf.stream_align hph).1
      simp [this, streamBody]
    · rw [gFinGs_nil_of_gEvents_nil hgev]
      have := (invf.stream_align hph).2
      rw [this]
      simp
  case stream_nofile => exact invf.stream_nofile
  case stream_align =>
    intro h
    exact Phase.noConfusion h
  case gfin_rows =>
    intro h
    exact Phase.noConfusion h
  case ginv_rows =>
    intro h
    exact Phase.noConfusion h

theorem invNF_gClaim {cfg : Config} {N w : Nat} {s s2 : Sys} {evs evs2 : List Ev}
    (inv : InvU cfg N s evs) (invf : InvNF cfg N s evs)
    (hc : gClaimStep cfg w s = some (s2, evs2)) :
    InvNF cfg N s2 (evs ++ evs2) := by
  obtain ⟨hph, hstw, hcase⟩ := gClaimStep_inv hc
  have hterm := invf.term_false
  have hnal : s.phase ≠ Phase.aligning := by
    rw [hph]
    intro h
    exact Phase.noConfusion h
  rcases hcase with ⟨g, hsnd, hs2, hevs⟩ | ⟨hsnd, hs2, hevs⟩
  · obtain ⟨hgc, hlt, _, hfst⟩ := genoClaim_some hsnd
    subst hgc
    subst hs2
    subst hevs
    constructor
    case term_false => exact hterm
    case inv_below =>
      intro h
      rw [hph] at h
      exact Phase.noConfusion h
    case hist_run =>
      intro h
      rw [hph] at h
      exact Phase.noConfusion h
    case hist_done => exact invf.hist_done
    case afin_needed =>
      intro _ t
      rw [aFinPairs_append, List.count_append,
        show aFinPairs [Ev.gInvoke w s.gcursor (specPathFor cfg s.gcursor)
          (s.shared.aligned.getD s.gcursor [])] = ([] : List (Nat × Nat)) from rfl,
        List.count_nil]
      have := invf.afin_needed hnal t
      omega
    case ginv_below =>
      intro _ g0
      rw [gInvGs_append, List.count_append,
        show gInvGs [Ev.gInvoke w s.gcursor (specPathFor cfg s.gcursor)
          (s.shared.aligned.getD s.gcursor [])] = [s.gcursor] from rfl]
      have hbase := invf.ginv_below hph g0
      show _ = (List.range
        (genoClaim s.shared.aligned.length s.shared.terminate s.gcursor).1).count g0
      rw [hfst, List.range_succ, List.count_append]
      omega
    case g_done_full =>
      intro _ w2 h
      rcases getElem?_set_inv h with ⟨_, _, hst⟩ | ⟨_, h2⟩
      · exact absurd hst (by simp)
      · exfalso
        have := invf.g_done_full hph w2 h2
        rw [inv.alen] at hlt
        omega
    case written =>
      intro hfile _
      obtain ⟨hstream, hfp⟩ := invf.written hfile (Or.inl hph)
      rw [if_neg (by rw [hph]; intro h; exact Phase.noConfusion h)] at hstream
      constructor
      · rw [gFinGs_append,
          show gFinGs [Ev.gInvoke w s.gcursor (specPathFor cfg s.gcursor)
            (s.shared.aligned.getD s.gcursor [])] = ([] : List Nat) from rfl,
          List.append_nil,
          if_neg (by intro h; rw [hph] at h; exact Phase.noConfusion h)]
        exact hstream
      · rw [gFinGs_append,
          show gFinGs [Ev.gInvoke w s.gcursor (specPathFor cfg s.gcursor)
            (s.shared.aligned.getD s.gcursor [])] = ([] : List Nat) from rfl,
          List.append_nil]
        exact hfp
    case stream_nofile => exact invf.stream_nofile
    case stream_align =>
      intro h
      rw [hph] at h
      exact Phase.noConfusion h
    case gfin_rows =>
      intro h
      rw [hph] at h
      exact Phase.noConfusion h
    case ginv_rows =>
      intro h
      rw [hph] at h
      exact Phase.noConfusion h
  · rcases genoClaim_none hsnd with ⟨htt, _, _⟩ | ⟨hge, hfst⟩
    · rw [hterm] at htt
      exact Bool.noConfusion htt
    subst hs2
    subst hevs
    rw [List.append_nil]
    constructor
    case term_false => exact hterm
    case inv_below =>
      intro h
      rw [hph] at h
      exact Phase.noConfusion h
    case hist_run =>
      intro h
      rw [hph] at h
      exact Phase.noConfusion h
    case hist_done => exact invf.hist_done
    case afin_needed =>
      intro _ t
      exact invf.afin_needed hnal t
    case ginv_below =>
      intro _ g0
      show (gInvGs evs).count g0 = (List.range
        (genoClaim s.shared.aligned.length s.shared.terminate s.gcursor).1).count g0
      rw [hfst]
      exact invf.ginv_below hph g0
    case g_done_full =>
      intro _ w2 h
      show (genoClaim s.shared.aligned.length s.shared.terminate s.gcursor).1 = numRows cfg
      rw [hfst]
      rcases getElem?_set_inv h with ⟨_, _, _⟩ | ⟨_, h2⟩
      · have h3 := inv.gcursor_le
        rw [inv.alen] at hge
        omega
      · exact invf.g_done_full hph w2 h2
    case written =>
      intro hfile _
      obtain ⟨hstream, hfp⟩ := invf.written hfile (Or.inl hph)
      rw [if_neg (by rw [hph]; intro h; exact Phase.noConfusion h)] at hstream
      refine ⟨?_, hfp⟩
      rw [if_neg (by intro h; rw [hph] at h; exact Phase.noConfusion h)]
      exact hstream
    case stream_nofile => exact invf.stream_nofile
    case stream_align =>
      intro h
      rw [hph] at h
      exact Phase.noConfusion h
    case gfin_rows =>
      intro h
      rw [hph] at h
      exact Phase.noConfusion h
    case ginv_rows =>
      intro h
      rw [hph] at h
      exact Phase.noConfusion h

theorem writeRecord_stream_file (cfg : Config) (sh : Shared) (g : Nat)
    (hfile : cfg.outputFilePath ≠ ("")) :
    (writeRecord cfg sh g).stream =
      sh.stream ++ (if sh.firstPrinted then [Tok.comma] else []) ++ [Tok.record g] ∧
    (writeRecord cfg sh g).firstPrinted = true := by
  rw [writeRecord, if_neg hfile]
  exact ⟨rfl, rfl⟩

theorem invNF_gFin {cfg : Config} {N w : Nat} {ok : Bool} {s s2 : Sys} {evs evs2 : List Ev}
    (inv : InvU cfg N s evs) (invf : InvNF cfg N s evs)
    (hc : gFinStep cfg w ok s = some (s2, evs2))
    (hnf2 : ∀ e ∈ evs2, isFailEv e = false) :
    InvNF cfg N s2 (evs ++ evs2) := by
  obtain ⟨hph, g, hstw, hcase⟩ := gFinStep_inv hc
  have hterm := invf.term_false
  have hnal : s.phase ≠ Phase.aligning := by
    rw [hph]
    intro h
    exact Phase.noConfusion h
  have hwra := writeRecord_aligned cfg s.shared g
  have hwrt := writeRecord_terminate cfg s.shared g
  have hwru := writeRecord_unaligned cfg s.shared g
  rcases hcase with ⟨hok, hsub⟩ | ⟨hok, hs2, hevs⟩
  · subst hok
    rcases hsub with ⟨g2, hsnd, hs2, hevs⟩ | ⟨hsnd, hs2, hevs⟩
    · rw [hwra, hwrt] at hsnd
      obtain ⟨hg2, hlt, _, hfst⟩ := genoClaim_some hsnd
      subst hg2
      have hcur : (genoClaim (writeRecord cfg s.shared g).aligned.length
          (writeRecord cfg s.shared g).terminate s.gcursor).1 = s.gcursor + 1 := by
        rw [hwra, hwrt]
        exact hfst
      subst hs2
      subst hevs
      constructor
      case term_false =>
        show (writeRecord cfg s.shared g).terminate = false
        rw [hwrt]
        exact hterm
      case inv_below =>
        intro h
        rw [hph] at h
        exact Phase.noConfusion h
      case hist_run =>
        intro h
        rw [hph] at h
        exact Phase.noConfusion h
      case hist_done =>
        intro w2 hw2 j hj
        show ucur (writeRecord cfg s.shared g).unaligned j = nGr cfg
        rw [hwru]
        exact invf.hist_done w2 hw2 j hj
      case afin_needed =>
        intro _ t
        rw [aFinPairs_append, List.count_append,
          show aFinPairs [Ev.gFinish w g true,
            Ev.gInvoke w s.gcursor (specPathFor cfg s.gcursor)
              ((writeRecord cfg s.shared g).aligned.getD s.gcursor [])] =
            ([] : List (Nat × Nat)) from rfl,
          List.count_nil]
        have := invf.afin_needed hnal t
        omega
      case ginv_below =>
        intro _ g0
        rw [gInvGs_append, List.count_append,
          show gInvGs [Ev.gFinish w g true,
            Ev.gInvoke w s.gcursor (specPathFor cfg s.gcursor)
              ((writeRecord cfg s.shared g).aligned.getD s.gcursor [])] =
            [s.gcursor] from rfl]
        have hbase := invf.ginv_below hph g0
        show _ = (List.range (genoClaim (writeRecord cfg s.shared g).aligned.length
          (writeRecord cfg s.shared g).terminate s.gcursor).1).count g0
        rw [hcur, List.range_succ, List.count_append]
        omega
      case g_done_full =>
        intro _ w2 h
        exfalso
        rcases getElem?_set_inv h with ⟨_, _, hst⟩ | ⟨_, h2⟩
        · exact absurd hst (by simp)
        · have := invf.g_done_full hph w2 h2
          rw [inv.alen] at hlt
          omega
      case written =>
        intro hfile _
        obtain ⟨hstream, hfp⟩ := invf.written hfile (Or.inl hph)
        rw [if_neg (by rw [hph]; intro h; exact Phase.noConfusion h)] at hstream
        obtain ⟨hws, hwf⟩ := writeRecord_stream_file cfg s.shared g hfile
        have hsep : (if s.shared.firstPrinted then [Tok.comma] else []) =
            (if gFinGs evs = [] then [] else [Tok.comma]) := by
          by_cases hwr : gFinGs evs = []
          · rw [if_pos hwr]
            have hfp0 : s.shared.firstPrinted = false := by
              cases hb : s.shared.firstPrinted
              · rfl
              · exact absurd (hfp.mp hb) (by simp [hwr])
            rw [hfp0]
            simp
          · rw [if_neg hwr, hfp.mpr hwr]
            simp
        constructor
        · show (writeRecord cfg s.shared g).stream = _
          rw [if_neg (by intro h; rw [hph] at h; exact Phase.noConfusion h)]
          rw [gFinGs_append,
            show gFinGs [Ev.gFinish w g true,
              Ev.gInvoke w s.gcursor (specPathFor cfg s.gcursor)
                ((writeRecord cfg s.shared g).aligned.getD s.gcursor [])] =
              [g] from rfl]
          rw [hws, hstream, streamBody_append, hsep]
          simp [List.append_assoc]
        · show (writeRecord cfg s.shared g).firstPrinted = true ↔ _
          rw [hwf, gFinGs_append,
            show gFinGs [Ev.gFinish w g true,
              Ev.gInvoke w s.gcursor (specPathFor cfg s.gcursor)
                ((writeRecord cfg s.shared g).aligned.getD s.gcursor [])] =
              [g] from rfl]
          simp
      case stream_nofile =>
        intro hfile
        obtain ⟨h1, h2⟩ := invf.stream_nofile hfile
        constructor
        · show (writeRecord cfg s.shared g).stream = []
          rw [writeRecord, if_pos hfile]
          exact h1
        · show (writeRecord cfg s.shared g).firstPrinted = false
          rw [writeRecord, if_pos hfile]
          exact h2
      case stream_align =>
        intro h
        rw [hph] at h
        exact Phase.noConfusion h
      case gfin_rows =>
        intro h
        rw [hph] at h
        exact Phase.noConfusion h
      case ginv_rows =>
        intro h
        rw [hph] at h
        exact Phase.noConfusion h
    · rw [hwra, hwrt] at hsnd
      rcases genoClaim_none hsnd with ⟨htt, _, _⟩ | ⟨hge, hfst⟩
      · rw [hterm] at htt
        exact Bool.noConfusion htt
      have hcur : (genoClaim (writeRecord cfg s.shared g).aligned.length
          (writeRecord cfg s.shared g).terminate s.gcursor).1 = s.gcursor := by
        rw [hwra, hwrt]
        exact hfst
      subst hs2
      subst hevs
      constructor
      case term_false =>
        show (writeRecord cfg s.shared g).terminate = false
        rw [hwrt]
        exact hterm
      case inv_below =>
        intro h
        rw [hph] at h
        exact Phase.noConfusion h
      case hist_run =>
        intro h
        rw [hph] at h
        exact Phase.noConfusion h
      case hist_done =>
        intro w2 hw2 j hj
        show ucur (writeRecord cfg s.shared g).unaligned j = nGr cfg
        rw [hwru]
        exact invf.hist_done w2 hw2 j hj
      case afin_needed =>
        intro _ t
        rw [aFinPairs_append, List.count_append,
          show aFinPairs [Ev.gFinish w g true] = ([] : List (Nat × Nat)) from rfl,
          List.count_nil]
        have := invf.afin_needed hnal t
        omega
      case ginv_below =>
        intro _ g0
        rw [gInvGs_append, List.count_append,
          show gInvGs [Ev.gFinish w g true] = ([] : List Nat) from rfl,
          List.count_nil]
        have hbase := invf.ginv_below hph g0
        show _ = (List.range (genoClaim (writeRecord cfg s.shared g).aligned.length
          (writeRecord cfg s.shared g).terminate s.gcursor).1).count g0
        rw [hcur]
        omega
      case g_done_full =>
        intro _ w2 h
        show (genoClaim (writeRecord cfg s.shared g).aligned.length
          (writeRecord cfg s.shared g).terminate s.gcursor).1 = numRows cfg
        rw [hcur]
        rcases getElem?_set_inv h with ⟨_, _, _⟩ | ⟨_, h2⟩
        · have h3 := inv.gcursor_le
          rw [inv.alen] at hge
          omega
        · exact invf.g_done_full hph w2 h2
      case written =>
        intro hfile _
        obtain ⟨hstream, hfp⟩ := invf.written hfile (Or.inl hph)
        rw [if_neg (by rw [hph]; intro h; exact Phase.noConfusion h)] at hstream
        obtain ⟨hws, hwf⟩ := writeRecord_stream_file cfg s.shared g hfile
        have hsep : (if s.shared.firstPrinted then [Tok.comma] else []) =
            (if gFinGs evs = [] then [] else [Tok.comma]) := by
          by_cases hwr : gFinGs evs = []
          · rw [if_pos hwr]
            have hfp0 : s.shared.firstPrinted = false := by
              cases hb : s.shared.firstPrinted
              · rfl
              · exact absurd (hfp.mp hb) (by simp [hwr])
            rw [hfp0]
            simp
          · rw [if_neg hwr, hfp.mpr hwr]
            simp
        constructor
        · show (writeRecord cfg s.shared g).stream = _
          rw [if_neg (by intro h; rw [hph] at h; exact Phase.noConfusion h)]
          rw [gFinGs_append, show gFinGs [Ev.gFinish w g true] = [g] from rfl]
          rw [hws, hstream, streamBody_append, hsep]
          simp [List.append_assoc]
        · show (writeRecord cfg s.shared g).firstPrinted = true ↔ _
          rw [hwf, gFinGs_append, show gFinGs [Ev.gFinish w g true] = [g] from rfl]
          simp
      case stream_nofile =>
        intro hfile
        obtain ⟨h1, h2⟩ := invf.stream_nofile hfile
        constructor
        · show (writeRecord cfg s.shared g).stream = []
          rw [writeRecord, if_pos hfile]
          exact h1
        · show (writeRecord cfg s.shared g).firstPrinted = false
          rw [writeRecord, if_pos hfile]
          exact h2
      case stream_align =>
        intro h
        rw [hph] at h
        exact Phase.noConfusion h
      case gfin_rows =>
        intro h
        rw [hph] at h
        exact Phase.noConfusion h
      case ginv_rows =>
        intro h
        rw [hph] at h
        exact Phase.noConfusion h
  · exfalso
    subst hevs
    have := hnf2 (Ev.gFinish w g false) (List.mem_singleton.mpr rfl)
    exact Bool.noConfusion this

theorem invNF_finalize {cfg : Config} {N : Nat} {s s2 : Sys} {evs evs2 : List Ev}
    (hN : 1 ≤ N) (inv : InvU cfg N s evs) (invf : InvNF cfg N s evs)
    (hc : finalizeStep cfg s = some (s2, evs2)) :
    InvNF cfg N s2 (evs ++ evs2) := by
  obtain ⟨hph, hall, hs2, hevs⟩ := finalizeStep_inv hc
  have hlen : s.gworkers.length = N := inv.gw_len (by
    rw [hph]
    intro h
    exact Phase.noConfusion h)
  have hw0 : ∃ st, s.gworkers[0]? = some st := by
    rw [List.getElem?_eq_getElem (by omega)]
    exact ⟨_, rfl⟩
  obtain ⟨st, hst⟩ := hw0
  have hdoneg : st = GW.doneG := by
    have h2 := getElem?_of_mem_all hall hst
    cases st with
    | entry => exact absurd h2 (by simp [GW.isDone])
    | runG g => exact absurd h2 (by simp [GW.isDone])
    | doneG => rfl
  subst hdoneg
  have hgcur : s.gcursor = numRows cfg := invf.g_done_full hph 0 hst
  have hginfl : inflightGs s = [] := by
    rw [inflightGs]
    exact gfilterMap_nil_of_all_done hall
  subst hs2
  subst hevs
  rw [List.append_nil]
  constructor
  case term_false => exact invf.term_false
  case inv_below =>
    intro h
    exact Phase.noConfusion h
  case hist_run =>
    intro h
    exact Phase.noConfusion h
  case hist_done =>
    intro w2 hw2 j hj
    exact invf.hist_done w2 hw2 j hj
  case afin_needed =>
    intro _ t
    have hna : s.phase ≠ Phase.aligning := by
      rw [hph]
      intro h
      exact Phase.noConfusion h
    exact invf.afin_needed hna t
  case ginv_below =>
    intro h
    exact Phase.noConfusion h
  case g_done_full =>
    intro h
    exact Phase.noConfusion h
  case written =>
    intro hfile _
    obtain ⟨hstream, hfp⟩ := invf.written hfile (Or.inl hph)
    rw [if_neg (by rw [hph]; intro h; exact Phase.noConfusion h)] at hstream
    refine ⟨?_, hfp⟩
    show s.shared.stream ++ closeTok cfg = _
    rw [if_pos rfl, hstream]
    simp [List.append_assoc]
  case stream_nofile =>
    intro hfile
    obtain ⟨h1, h2⟩ := invf.stream_nofile hfile
    constructor
    · show s.shared.stream ++ closeTok cfg = []
      rw [h1, closeTok, if_neg (by simp [hfile])]
      rfl
    · exact h2
  case stream_align =>
    intro h
    exact Phase.noConfusion h
  case gfin_rows =>
    intro _ g
    have h1 := inv.gpairing g
    rw [hginfl] at h1
    simp only [List.count_nil] at h1
    have h2 := invf.ginv_below hph g
    rw [hgcur] at h2
    omega
  case ginv_rows =>
    intro _ g
    have h2 := invf.ginv_below hph g
    rw [hgcur] at h2
    exact h2

theorem invNF_run {cfg : Config} {N : Nat} {evs : List Ev} {s : Sys} (hN : 1 ≤ N)
    (hrun : Run cfg N (initSys cfg N) evs s) : NoFail evs → InvNF cfg N s evs := by
  induction hrun with
  | refl =>
    intro _
    exact invNF_init cfg N
  | tail hr hstep ih =>
    intro hnf
    obtain ⟨hnf1, hnf2⟩ := List.forall_mem_append.mp hnf
    have invu := invU_run hr
    have invf := ih hnf1
    obtain ⟨c, hc⟩ := hstep
    cases c with
    | aSeg w => exact invNF_aSeg invu invf hc
    | aFin w ok => exact invNF_aFin invu invf hc hnf2
    | barrier => exact invNF_barrier hN invu invf hc
    | gClaim w => exact invNF_gClaim invu invf hc
    | gFin w ok => exact invNF_gFin invu invf hc hnf2
    | finalize => exact invNF_finalize hN invu invf hc

def runSteps (cfg : Config) (N : Nat) : Sys → List Choice → Option (Sys × List Ev)
  | s, [] => some (s, [])
  | s, c :: cs =>
    match schedStep cfg N c s with
    | none => none
    | some (s2, e2) =>
      match runSteps cfg N s2 cs with
      | none => none
      | some (s3, e3) => some (s3, e2 ++ e3)

theorem run_cons {cfg : Config} {N : Nat} {s s1 s2 : Sys} {e1 evs : List Ev}
    (hstep : StepTo cfg N s s1 e1) (hrun : Run cfg N s1 evs s2) :
    Run cfg N s (e1 ++ evs) s2 := by
  induction hrun with
  | refl =>
    rw [List.append_nil]
    exact Run.tail (Run.refl s) hstep
  | tail hr hst ih =>
    rw [← List.append_assoc]
    exact Run.tail ih hst

theorem run_of_runSteps {cfg : Config} {N : Nat} :
    ∀ {cs : List Choice} {s s2 : Sys} {evs : List Ev},
    runSteps cfg N s cs = some (s2, evs) → Run cfg N s evs s2 := by
  intro cs
  induction cs with
  | nil =>
    intro s s2 evs h
    simp only [runSteps, Option.some.injEq, Prod.mk.injEq] at h
    obtain ⟨h1, h2⟩ := h
    subst h1
    subst h2
    exact Run.refl s
  | cons c cs ih =>
    intro s s2 evs h
    simp only [runSteps] at h
    split at h
    · exact Option.noConfusion h
    · next s1 e1 heq =>
      split at h
      · exact Option.noConfusion h
      · next s3 e3 heq2 =>
        simp only [Option.some.injEq, Prod.mk.injEq] at h
        obtain ⟨h1, h2⟩ := h
        subst h1
        subst h2
        exact run_cons ⟨c, heq⟩ (ih heq2)

/-- Alignment-phase invariant: unlike `InvNF` it only assumes that no
ALIGNER call fails, so it survives genotyper failures.  During the
alignment phase the terminate flag is clear, the invoked pairs are exactly
the pairs below the cursors, and once the phase is over the returned
pairs are exactly the needed pairs. -/
structure InvA (cfg : Config) (N : Nat) (s : Sys) (evs : List Ev) : Prop where
  aterm : s.phase = Phase.aligning → s.shared.terminate = false
  inv_below : s.phase = Phase.aligning → ∀ t : Nat × Nat,
      (aInvPairs evs).count t = (pairsBelow cfg s).count t
  hist_run : s.phase = Phase.aligning → ∀ (w i g : Nat),
      s.aworkers[w]? = some (AW.runA i g) →
      ∀ j, j < i → ucur s.shared.unaligned j = nGr cfg
  hist_done : ∀ (w : Nat), s.aworkers[w]? = some AW.doneA →
      ∀ j, j < cfg.manifest.length → ucur s.shared.unaligned j = nGr cfg
  afin_needed : s.phase ≠ Phase.aligning → ∀ t : Nat × Nat,
      (aFinPairs evs).count t = (neededPairs cfg).count t

theorem invA_init (cfg : Config) (N : Nat) : InvA cfg N (initSys cfg N) [] := by
  constructor
  case aterm =>
    intro _
    rfl
  case inv_below =>
    intro _ t
    have : pairsBelow cfg (initSys cfg N) = [] := by
      rw [pairsBelow]
      apply List.flatMap_eq_nil_iff.mpr
      intro i hi
      rw [List.mem_range] at hi
      have hcur := ucur_init cfg i hi
      rw [ucur] at hcur
      show samplePairs cfg i ((initUnaligned cfg).getD i default).unprocessedGraphs = []
      rw [hcur, samplePairs]
      split
      · rfl
      · rfl
    rw [this]
    rfl
  case hist_run =>
    intro _ w i g h
    have h2 : (List.replicate N (AW.atS 0))[w]? = some (AW.runA i g) := h
    rw [List.getElem?_replicate] at h2
    split at h2 <;> simp at h2
  case hist_done =>
    intro w h
    have h2 : (List.replicate N (AW.atS 0))[w]? = some AW.doneA := h
    rw [List.getElem?_replicate] at h2
    split at h2 <;> simp at h2
  case afin_needed =>
    intro h
    exact absurd rfl h

theorem invA_aSeg {cfg : Config} {N w : Nat} {s s2 : Sys} {evs evs2 : List Ev}
    (inv : InvU cfg N s evs) (invf : InvA cfg N s evs)
    (hc : aSegStep cfg w s = some (s2, evs2)) :
    InvA cfg N s2 (evs ++ evs2) := by
  obtain ⟨hph, i, hstw, hcase⟩ := aSegStep_inv hc
  have hi0 : i = 0 := inv.atS_bound w i hstw
  subst hi0
  have hlen0 : (0:Nat) ≤ s.shared.unaligned.length := Nat.zero_le _
  have hterm : s.shared.terminate = false := invf.aterm hph
  rcases hcase with ⟨j, g, hsnd, hs2, hevs⟩ | ⟨hsnd, hs2, hevs⟩
  · rw [hterm] at hsnd hs2
    obtain ⟨hij, hjlen, hcj, hglt, hother, hbump, hpref⟩ :=
      claimSeg_false_some (nGr cfg) s.shared.unaligned 0 j g hlen0 hsnd
    have hnotpre := isNone_of_claimable inv hjlen hcj hglt
    subst hs2
    subst hevs
    have hcur2 : ∀ k, k ≠ j →
        ucur (claimSeg (nGr cfg) false s.shared.unaligned 0).1 k =
          ucur s.shared.unaligned k := by
      intro k hk
      rw [ucur, ucur, hother k hk]
    have hbump2 : ucur (claimSeg (nGr cfg) false s.shared.unaligned 0).1 j =
        ucur s.shared.unaligned j + 1 := by
      rw [ucur, ucur, hbump]
      rfl
    constructor
    case aterm =>
      intro _
      exact hterm
    case inv_below =>
      intro _ t
      have hupd := @pairsBelow_claim_update cfg s { s with
          shared := { s.shared with
            unaligned := (claimSeg (nGr cfg) false s.shared.unaligned 0).1 }
          aworkers := s.aworkers.set w (AW.runA j g) } j
        (by rw [← inv.ulen]; exact hjlen) hnotpre hbump2 hcur2 t
      have hbase := invf.inv_below hph t
      rw [aInvPairs_append, List.count_append,
        show aInvPairs [Ev.aInvoke w j g] = [(j, g)] from rfl]
      rw [hupd, hcj, hbase]
    case hist_run =>
      intro _ w2 i2 g2 h
      rcases getElem?_set_inv h with ⟨_, _, hst⟩ | ⟨_, h2⟩
      · have hij2 : i2 = j ∧ g2 = g := by
          constructor <;> [exact congrArg (fun st => match st with
            | AW.runA i0 _ => i0
            | _ => 0) hst;
            exact congrArg (fun st => match st with
            | AW.runA _ g0 => g0
            | _ => 0) hst]
        obtain ⟨rfl, rfl⟩ := hij2
        intro k hkj
        rw [hcur2 k (by omega)]
        have hk2 : nGr cfg ≤ ucur s.shared.unaligned k := hpref k (by omega) hkj
        have hk3 : ucur s.shared.unaligned k ≤ nGr cfg := by
          apply inv.cursor_le
          rw [← inv.ulen]
          omega
        omega
      · intro k hki2
        have hprev := invf.hist_run hph w2 i2 g2 h2 k hki2
        by_cases hkj : k = j
        · exfalso
          subst hkj
          omega
        · rw [hcur2 k hkj]
          exact hprev
    case hist_done =>
      intro w2 h j2 hj2
      rcases getElem?_set_inv h with ⟨_, _, hst⟩ | ⟨_, h2⟩
      · exact absurd hst (by simp)
      · exfalso
        have := invf.hist_done w2 h2 j (by rw [← inv.ulen]; exact hjlen)
        omega
    case afin_needed =>
      intro h
      exact absurd hph h
  · rw [hterm] at hsnd hs2
    obtain ⟨hfst, hexh⟩ := claimSeg_false_none (nGr cfg) s.shared.unaligned 0 hlen0 hsnd
    subst hs2
    subst hevs
    rw [List.append_nil]
    constructor
    case aterm =>
      intro _
      exact hterm
    case inv_below =>
      intro _ t
      have hbase := invf.inv_below hph t
      rw [show pairsBelow cfg { s with
          shared := { s.shared with
            unaligned := (claimSeg (nGr cfg) false s.shared.unaligned 0).1 }
          aworkers := s.aworkers.set w AW.doneA } = pairsBelow cfg s from by
        rw [pairsBelow, pairsBelow]
        apply flatMap_congr
        intro i _
        show samplePairs cfg i
          (((claimSeg (nGr cfg) false s.shared.unaligned 0).1.getD i default).unprocessedGraphs) = _
        rw [hfst]]
      exact hbase
    case hist_run =>
      intro _ w2 i2 g2 h
      rcases getElem?_set_inv h with ⟨_, _, hst⟩ | ⟨_, h2⟩
      · exact absurd hst (by simp)
      · intro k hki2
        have := invf.hist_run hph w2 i2 g2 h2 k hki2
        rw [ucur, hfst]
        rw [ucur] at this
        exact this
    case hist_done =>
      intro w2 h j2 hj2
      rcases getElem?_set_inv h with ⟨_, _, hst⟩ | ⟨_, h2⟩
      · show ucur (claimSeg (nGr cfg) false s.shared.unaligned 0).1 j2 = nGr cfg
        rw [ucur, hfst]
        have h1 := hexh j2 (by omega) (by rw [inv.ulen]; exact hj2)
        have h2 := inv.cursor_le j2 hj2
        rw [ucur] at h1 h2
        omega
      · have := invf.hist_done w2 h2 j2 hj2
        rw [ucur, hfst]
        rw [ucur] at this
        exact this
    case afin_needed =>
      intro h
      exact absurd hph h

theorem invA_aFin {cfg : Config} {N w : Nat} {ok : Bool} {s s2 : Sys} {evs evs2 : List Ev}
    (inv : InvU cfg N s evs) (invf : InvA cfg N s evs)
    (hc : aFinStep cfg w ok s = some (s2, evs2))
    (hnf2 : ∀ e ∈ evs2, isAEv e = true → isFailEv e = false) :
    InvA cfg N s2 (evs ++ evs2) := by
  obtain ⟨hph, i, g, hstw, hcase⟩ := aFinStep_inv hc
  obtain ⟨hib, hgb⟩ := inv.runA_bound w i g hstw
  have hile : i ≤ s.shared.unaligned.length := by
    rw [inv.ulen]
    omega
  have hterm : s.shared.terminate = false := invf.aterm hph
  have hprev := invf.hist_run hph w i g hstw
  rcases hcase with ⟨hok, hcase2⟩ | ⟨hok, hs2, hevs⟩
  · subst hok
    rcases hcase2 with ⟨j, g2, hsnd, hs2, hevs⟩ | ⟨hsnd, hs2, hevs⟩
    · rw [hterm] at hsnd hs2
      obtain ⟨hij, hjlen, hcj, hglt, hother, hbump, hpref⟩ :=
        claimSeg_false_some (nGr cfg) s.shared.unaligned i j g2 hile hsnd
      have hnotpre := isNone_of_claimable inv hjlen hcj hglt
      subst hs2
      subst hevs
      have hcur2 : ∀ k, k ≠ j →
          ucur (claimSeg (nGr cfg) false s.shared.unaligned i).1 k =
            ucur s.shared.unaligned k := by
        intro k hk
        rw [ucur, ucur, hother k hk]
      have hbump2 : ucur (claimSeg (nGr cfg) false s.shared.unaligned i).1 j =
          ucur s.shared.unaligned j + 1 := by
        rw [ucur, ucur, hbump]
        rfl
      constructor
      case aterm =>
        intro _
        exact hterm
      case inv_below =>
        intro _ t
        have hupd := @pairsBelow_claim_update cfg s { s with
            shared := { s.shared with
              unaligned := (claimSeg (nGr cfg) false s.shared.unaligned i).1
              aligned := modifyNth (modifyNth alignSingleSample i) g s.shared.aligned }
            aworkers := s.aworkers.set w (AW.runA j g2) } j
          (by rw [← inv.ulen]; exact hjlen) hnotpre hbump2 hcur2 t
        have hbase := invf.inv_below hph t
        rw [aInvPairs_append, List.count_append,
          show aInvPairs [Ev.aFinish w i g true, Ev.aInvoke w j g2] = [(j, g2)] from rfl]
        rw [hupd, hcj, hbase]
      case hist_run =>
        intro _ w2 i2 g3 h
        rcases getElem?_set_inv h with ⟨_, _, hst⟩ | ⟨_, h2⟩
        · have hij2 : i2 = j ∧ g3 = g2 := by
            constructor <;> [exact congrArg (fun st => match st with
              | AW.runA i0 _ => i0
              | _ => 0) hst;
              exact congrArg (fun st => match st with
              | AW.runA _ g0 => g0
              | _ => 0) hst]
          obtain ⟨rfl, rfl⟩ := hij2
          intro k hkj
          rw [hcur2 k (by omega)]
          by_cases hki : k < i
          · exact hprev k hki
          · have hk2 : nGr cfg ≤ ucur s.shared.unaligned k :=
              hpref k (by omega) hkj
            have hk3 : ucur s.shared.unaligned k ≤ nGr cfg := by
              apply inv.cursor_le
              rw [← inv.ulen]
              omega
            omega
        · intro k hki2
          have hprev2 := invf.hist_run hph w2 i2 g3 h2 k hki2
          by_cases hkj : k = j
          · exfalso
            subst hkj
            omega
          · rw [hcur2 k hkj]
            exact hprev2
      case hist_done =>
        intro w2 h j2 hj2
        rcases getElem?_set_inv h with ⟨_, _, hst⟩ | ⟨_, h2⟩
        · exact absurd hst (by simp)
        · exfalso
          have := invf.hist_done w2 h2 j (by rw [← inv.ulen]; exact hjlen)
          omega
      case afin_needed =>
        intro h
        exact absurd hph h
    · rw [hterm] at hsnd hs2
      obtain ⟨hfst, hexh⟩ := claimSeg_false_none (nGr cfg) s.shared.unaligned i hile hsnd
      subst hs2
      subst hevs
      constructor
      case aterm =>
        intro _
        exact hterm
      case inv_below =>
        intro _ t
        have hbase := invf.inv_below hph t
        rw [aInvPairs_append, List.count_append,
          show aInvPairs [Ev.aFinish w i g true] = ([] : List (Nat × Nat)) from rfl,
          List.count_nil]
        rw [show pairsBelow cfg { s with
            shared := { s.shared with
              unaligned := (claimSeg (nGr cfg) false s.shared.unaligned i).1
              aligned := modifyNth (modifyNth alignSingleSample i) g s.shared.aligned }
            aworkers := s.aworkers.set w AW.doneA } = pairsBelow cfg s from by
          rw [pairsBelow, pairsBelow]
          apply flatMap_congr
          intro i2 _
          show samplePairs cfg i2
            (((claimSeg (nGr cfg) false s.shared.unaligned i).1.getD i2
              default).unprocessedGraphs) = _
          rw [hfst]]
        omega
      case hist_run =>
        intro _ w2 i2 g3 h
        rcases getElem?_set_inv h with ⟨_, _, hst⟩ | ⟨_, h2⟩
        · exact absurd hst (by simp)
        · intro k hki2
          have := invf.hist_run hph w2 i2 g3 h2 k hki2
          show ucur (claimSeg (nGr cfg) false s.shared.unaligned i).1 k = nGr cfg
          rw [ucur, hfst]
          rw [ucur] at this
          exact this
      case hist_done =>
        intro w2 h j2 hj2
        rcases getElem?_set_inv h with ⟨_, _, hst⟩ | ⟨_, h2⟩
        · show ucur (claimSeg (nGr cfg) false s.shared.unaligned i).1 j2 = nGr cfg
          rw [ucur, hfst]
          by_cases hki : j2 < i
          · have := hprev j2 hki
            rw [ucur] at this
            exact this
          · have h1 := hexh j2 (by omega) (by rw [inv.ulen]; exact hj2)
            have h2 := inv.cursor_le j2 hj2
            rw [ucur] at h1 h2
            omega
        · have := invf.hist_done w2 h2 j2 hj2
          show ucur (claimSeg (nGr cfg) false s.shared.unaligned i).1 j2 = nGr cfg
          rw [ucur, hfst]
          rw [ucur] at this
          exact this
      case afin_needed =>
        intro h
        exact absurd hph h
  · exfalso
    subst hevs
    have := hnf2 (Ev.aFinish w i g false) (List.mem_singleton.mpr rfl) rfl
    exact Bool.noConfusion this

theorem invA_barrier {cfg : Config} {N : Nat} {s s2 : Sys} {evs evs2 : List Ev}
    (hN : 1 ≤ N) (inv : InvU cfg N s evs) (invf : InvA cfg N s evs)
    (hc : barrierStep N s = some (s2, evs2)) :
    InvA cfg N s2 (evs ++ evs2) := by
  obtain ⟨hph, hall, hs2, hevs⟩ := barrierStep_inv hc
  have hw0 : ∃ st, s.aworkers[0]? = some st := by
    rw [List.getElem?_eq_getElem (by rw [inv.aw_len]; omega)]
    exact ⟨_, rfl⟩
  obtain ⟨st, hst⟩ := hw0
  have hdone : st = AW.doneA := by
    have h2 := getElem?_of_mem_all hall hst
    cases st with
    | atS i => exact absurd h2 (by simp [AW.isDone])
    | runA i g => exact absurd h2 (by simp [AW.isDone])
    | doneA => rfl
  subst hdone
  have hexh : ∀ j, j < cfg.manifest.length → ucur s.shared.unaligned j = nGr cfg :=
    invf.hist_done 0 hst
  have hneed : pairsBelow cfg s = neededPairs cfg := pairsBelow_eq_needed hexh
  have hinfl : inflightPairsA s = [] := by
    rw [inflightPairsA]
    exact filterMap_nil_of_all_done hall
  subst hs2
  subst hevs
  rw [List.append_nil]
  constructor
  case aterm =>
    intro h
    exact Phase.noConfusion h
  case inv_below =>
    intro h
    exact Phase.noConfusion h
  case hist_run =>
    intro h
    exact Phase.noConfusion h
  case hist_done => exact invf.hist_done
  case afin_needed =>
    intro _ t
    have h1 := inv.apairing t
    rw [hinfl] at h1
    simp only [List.count_nil] at h1
    have h2 := invf.inv_below hph t
    rw [hneed] at h2
    omega

theorem invA_gClaim {cfg : Config} {N w : Nat} {s s2 : Sys} {evs evs2 : List Ev}
    (invf : InvA cfg N s evs)
    (hc : gClaimStep cfg w s = some (s2, evs2)) :
    InvA cfg N s2 (evs ++ evs2) := by
  obtain ⟨hph, hstw, hcase⟩ := gClaimStep_inv hc
  have hnal : s.phase ≠ Phase.aligning := by
    rw [hph]
    intro h
    exact Phase.noConfusion h
  rcases hcase with ⟨g, hsnd, hs2, hevs⟩ | ⟨hsnd, hs2, hevs⟩ <;>
    (subst hs2; subst hevs; constructor)
  case aterm =>
    intro h
    rw [hph] at h
    exact Phase.noConfusion h
  case inv_below =>
    intro h
    rw [hph] at h
    exact Phase.noConfusion h
  case hist_run =>
    intro h
    rw [hph] at h
    exact Phase.noConfusion h
  case hist_done => exact invf.hist_done
  case afin_needed =>
    intro _ t
    rw [aFinPairs_append, List.count_append,
      show aFinPairs [Ev.gInvoke w g (specPathFor cfg g)
        (s.shared.aligned.getD g [])] = ([] : List (Nat × Nat)) from rfl,
      List.count_nil]
    have := invf.afin_needed hnal t
    omega
  case aterm =>
    intro h
    rw [hph] at h
    exact Phase.noConfusion h
  case inv_below =>
    intro h
    rw [hph] at h
    exact Phase.noConfusion h
  case hist_run =>
    intro h
    rw [hph] at h
    exact Phase.noConfusion h
  case hist_done => exact invf.hist_done
  case afin_needed =>
    intro _ t
    rw [List.append_nil]
    exact invf.afin_needed hnal t

theorem invA_gFin {cfg : Config} {N w : Nat} {ok : Bool} {s s2 : Sys} {evs evs2 : List Ev}
    (invf : InvA cfg N s evs)
    (hc : gFinStep cfg w ok s = some (s2, evs2)) :
    InvA cfg N s2 (evs ++ evs2) := by
  obtain ⟨hph, g, hstw, hcase⟩ := gFinStep_inv hc
  have hnal : s.phase ≠ Phase.aligning := by
    rw [hph]
    intro h
    exact Phase.noConfusion h
  have hwru := writeRecord_unaligned cfg s.shared g
  rcases hcase with ⟨hok, hsub⟩ | ⟨hok, hs2, hevs⟩
  · subst hok
    rcases hsub with ⟨g2, hsnd, hs2, hevs⟩ | ⟨hsnd, hs2, hevs⟩ <;>
      (subst hs2; subst hevs; constructor)
    case aterm =>
      intro h
      rw [hph] at h
      exact Phase.noConfusion h
    case inv_below =>
      intro h
      rw [hph] at h
      exact Phase.noConfusion h
    case hist_run =>
      intro h
      rw [hph] at h
      exact Phase.noConfusion h
    case hist_done =>
      intro w2 hw2 j hj
      show ucur (writeRecord cfg s.shared g).unaligned j = nGr cfg
      rw [hwru]
      exact invf.hist_done w2 hw2 j hj
    case afin_needed =>
      intro _ t
      rw [aFinPairs_append, List.count_append,
        show aFinPairs [Ev.gFinish w g true,
          Ev.gInvoke w g2 (specPathFor cfg g2)
            ((writeRecord cfg s.shared g).aligned.getD g2 [])] =
          ([] : List (Nat × Nat)) from rfl,
        List.count_nil]
      have := invf.afin_needed hnal t
      omega
    case aterm =>
      intro h
      rw [hph] at h
      exact Phase.noConfusion h
    case inv_below =>
      intro h
      rw [hph] at h
      exact Phase.noConfusion h
    case hist_run =>
      intro h
      rw [hph] at h
      exact Phase.noConfusion h
    case hist_done =>
      intro w2 hw2 j hj
      show ucur (writeRecord cfg s.shared g).unaligned j = nGr cfg
      rw [hwru]
      exact invf.hist_done w2 hw2 j hj
    case afin_needed =>
      intro _ t
      rw [aFinPairs_append, List.count_append,
        show aFinPairs [Ev.gFinish w g true] = ([] : List (Nat × Nat)) from rfl,
        List.count_nil]
      have := invf.afin_needed hnal t
      omega
  · subst hs2
    subst hevs
    constructor
    case aterm =>
      intro h
      rw [hph] at h
      exact Phase.noConfusion h
    case inv_below =>
      intro h
      rw [hph] at h
      exact Phase.noConfusion h
    case hist_run =>
      intro h
      rw [hph] at h
      exact Phase.noConfusion h
    case hist_done => exact invf.hist_done
    case afin_needed =>
      intro _ t
      rw [aFinPairs_append, List.count_append,
        show aFinPairs [Ev.gFinish w g false] = ([] : List (Nat × Nat)) from rfl,
        List.count_nil]
      have := invf.afin_needed hnal t
      omega

theorem invA_finalize {cfg : Config} {N : Nat} {s s2 : Sys} {evs evs2 : List Ev}
    (invf : InvA cfg N s evs)
    (hc : finalizeStep cfg s = some (s2, evs2)) :
    InvA cfg N s2 (evs ++ evs2) := by
  obtain ⟨hph, hall, hs2, hevs⟩ := finalizeStep_inv hc
  have hnal : s.phase ≠ Phase.aligning := by
    rw [hph]
    intro h
    exact Phase.noConfusion h
  subst hs2
  subst hevs
  rw [List.append_nil]
  constructor
  case aterm =>
    intro h
    exact Phase.noConfusion h
  case inv_below =>
    intro h
    exact Phase.noConfusion h
  case hist_run =>
    intro h
    exact Phase.noConfusion h
  case hist_done => exact invf.hist_done
  case afin_needed =>
    intro _ t
    exact invf.afin_needed hnal t

theorem invA_run {cfg : Config} {N : Nat} {evs : List Ev} {s : Sys} (hN : 1 ≤ N)
    (hrun : Run cfg N (initSys cfg N) evs s) :
    (∀ e ∈ evs, isAEv e = true → isFailEv e = false) → InvA cfg N s evs := by
  induction hrun with
  | refl =>
    intro _
    exact invA_init cfg N
  | tail hr hstep ih =>
    intro hnf
    obtain ⟨hnf1, hnf2⟩ := List.forall_mem_append.mp hnf
    have invu := invU_run hr
    have invf := ih hnf1
    obtain ⟨c, hc⟩ := hstep
    cases c with
    | aSeg w => exact invA_aSeg invu invf hc
    | aFin w ok => exact invA_aFin invu invf hc hnf2
    | barrier => exact invA_barrier hN invu invf hc
    | gClaim w => exact invA_gClaim invf hc
    | gFin w ok => exact invA_gFin invf hc
    | finalize => exact invA_finalize invf hc

/-- A two-graph, one-sample configuration with the combined stream on
stdout, used to exercise complete successful runs. -/
def cfgD : Config :=
  { graphSpecPaths := [("ga.json"), ("gb.json")]
    manifest := [{ sampleName := ("s1"), filename := ("f1"), indexFilename := ("fi1"),
                   alignmentData := none }]
    outputFilePath := ("-")
    outputFolderPath := ("") }

/-- Scheduler choices of a complete single-threaded run of `cfgD`. -/
def csD : List Choice :=
  [Choice.aSeg 0, Choice.aFin 0 true, Choice.aFin 0 true, Choice.barrier,
   Choice.gClaim 0, Choice.gFin 0 true, Choice.gFin 0 true, Choice.finalize]

/-- The events of that run. -/
def evsD : List Ev :=
  [Ev.aInvoke 0 0 0,
   Ev.aFinish 0 0 0 true,
   Ev.aInvoke 0 0 1,
   Ev.aFinish 0 0 1 true,
   Ev.gInvoke 0 0 ("ga.json")
     [{ sampleName := ("s1"), filename := ("f1"), indexFilename := ("fi1"),
        alignmentData := some ("aligned") }],
   Ev.gFinish 0 0 true,
   Ev.gInvoke 0 1 ("gb.json")
     [{ sampleName := ("s1"), filename := ("f1"), indexFilename := ("fi1"),
        alignmentData := some ("aligned") }],
   Ev.gFinish 0 1 true]

/-- The final state of that run. -/
def sD : Sys :=
  { shared :=
      { unaligned := [{ sample := { sampleName := ("s1"), filename := ("f1"),
                                    indexFilename := ("fi1"), alignmentData := none }
                        unprocessedGraphs := 2 }]
        aligned := [[{ sampleName := ("s1"), filename := ("f1"), indexFilename := ("fi1"),
                       alignmentData := some ("aligned") }],
                    [{ sampleName := ("s1"), filename := ("f1"), indexFilename := ("fi1"),
                       alignmentData := some ("aligned") }]]
        terminate := false
        firstPrinted := true
        stream := [Tok.lbrack, Tok.record 0, Tok.comma, Tok.record 1, Tok.rbrack] }
    phase := Phase.finished
    aworkers := [AW.doneA]
    gcursor := 2
    gworkers := [GW.doneG] }

theorem runStepsD : runSteps cfgD 1 (initSys cfgD 1) csD = some (sD, evsD) := rfl

theorem runD : Run cfgD 1 (initSys cfgD 1) evsD sD :=
  run_of_runSteps runStepsD

/-- C1: for every run with N ≥ 1 workers in which no aligner call fails,
once the alignment phase is over, the multiset of (sample, graph) pairs
whose aligner calls have returned is exactly the multiset of pairs that
needed alignment — the claim-count histogram is 1 on every needed pair
and 0 elsewhere: no duplicate, no omission. -/
theorem C1_exactly_once_alignment {cfg : Config} {N : Nat} {evs : List Ev} {s : Sys}
    (hN : 1 ≤ N) (hrun : Run cfg N (initSys cfg N) evs s)
    (hnofail : ∀ e ∈ evs, isAEv e = true → isFailEv e = false)
    (hdone : s.phase ≠ Phase.aligning) :
    ∀ t : Nat × Nat, (aFinPairs evs).count t = (neededPairs cfg).count t :=
  fun t => (invA_run hN hrun hnofail).afin_needed hdone t

theorem C1_exactly_once_alignment_witness :
    (aFinPairs evsD).count ((0 : Nat), (1 : Nat)) =
      (neededPairs cfgD).count ((0 : Nat), (1 : Nat)) :=
  C1_exactly_once_alignment (by decide) runD (by decide) (by decide) (0, 1)

/-- C5: at the end of a complete no-failure run, the combined stream is
exactly an opening bracket, the records written in order separated by
single commas, and a closing bracket — if and only if a combined-stream
sink is configured and more than one graph spec is present; otherwise the
stream never contains a bracket. -/
theorem C5_stream_framing {cfg : Config} {N : Nat} {evs : List Ev} {s : Sys}
    (hN : 1 ≤ N) (hrun : Run cfg N (initSys cfg N) evs s) (hnf : NoFail evs)
    (hfin : s.phase = Phase.finished) :
    (cfg.outputFilePath ≠ ("") ∧ 1 < nGr cfg →
      s.shared.stream = [Tok.lbrack] ++ streamBody (gFinGs evs) ++ [Tok.rbrack]) ∧
    (¬(cfg.outputFilePath ≠ ("") ∧ 1 < nGr cfg) →
      Tok.lbrack ∉ s.shared.stream ∧ Tok.rbrack ∉ s.shared.stream) := by
  constructor
  · intro hcond
    have invf := invNF_run hN hrun hnf
    obtain ⟨hstream, _⟩ := invf.written hcond.1 (Or.inr hfin)
    rw [if_pos hfin] at hstream
    rw [hstream, openTok, closeTok, if_pos hcond, if_pos hcond]
  · intro hncond
    exact (invU_run hrun).no_brackets hncond

theorem C5_stream_framing_witness :
    (cfgD.outputFilePath ≠ ("") ∧ 1 < nGr cfgD →
      sD.shared.stream = [Tok.lbrack] ++ streamBody (gFinGs evsD) ++ [Tok.rbrack]) ∧
    (¬(cfgD.outputFilePath ≠ ("") ∧ 1 < nGr cfgD) →
      Tok.lbrack ∉ sD.shared.stream ∧ Tok.rbrack ∉ sD.shared.stream) :=
  C5_stream_framing (by decide) runD (show ∀ e ∈ evsD, isFailEv e = false by decide) rfl

theorem gworkers_singleton {s : Sys} {st : GW} (hlen : s.gworkers.length = 1)
    (hst : s.gworkers[0]? = some st) : s.gworkers = [st] := by
  cases hl : s.gworkers with
  | nil =>
    rw [hl] at hlen
    exact absurd hlen (by simp)
  | cons a t =>
    rw [hl] at hlen hst
    simp only [List.length_cons] at hlen
    have ht : t = [] := List.eq_nil_of_length_eq_zero (by omega)
    subst ht
    simp only [List.getElem?_cons_zero, Option.some.injEq] at hst
    rw [hst]

theorem gworker_index_zero {s : Sys} {w : Nat} {st : GW} (hlen : s.gworkers.length = 1)
    (hst : s.gworkers[w]? = some st) : w = 0 := by
  by_contra hw
  rw [List.getElem?_eq_none (by omega)] at hst
  exact Option.noConfusion hst

/-- Single-thread determinism invariant: with one worker the genotyping
loop is strictly sequential, so the rows finished so far are always
exactly `0, 1, …` in ascending order. -/
structure Inv1 (cfg : Config) (s : Sys) (evs : List Ev) : Prop where
  entry1 : s.phase = Phase.genotyping → s.gworkers = [GW.entry] →
      s.gcursor = 0 ∧ gFinGs evs = []
  run1 : s.phase = Phase.genotyping → ∀ g : Nat, s.gworkers = [GW.runG g] →
      s.gcursor = g + 1 ∧ gFinGs evs = List.range g
  done1 : s.phase = Phase.genotyping → s.gworkers = [GW.doneG] →
      gFinGs evs = List.range s.gcursor
  fin1 : s.phase = Phase.finished →
      s.gcursor = numRows cfg ∧ gFinGs evs = List.range (numRows cfg)

theorem inv1_step {cfg : Config} {c : Choice} {s s2 : Sys} {evs evs2 : List Ev}
    (inv : InvU cfg 1 s evs) (invf : InvNF cfg 1 s evs) (inv1 : Inv1 cfg s evs)
    (hc : schedStep cfg 1 c s = some (s2, evs2))
    (hnf2 : ∀ e ∈ evs2, isFailEv e = false) :
    Inv1 cfg s2 (evs ++ evs2) := by
  have hrows1 : 1 ≤ numRows cfg := Nat.le_max_left 1 (nGr cfg)
  cases c with
  | aSeg w =>
    obtain ⟨hph, i, hstw, hcase⟩ := aSegStep_inv hc
    rcases hcase with ⟨j, g, _, hs2, _⟩ | ⟨_, hs2, _⟩ <;> subst hs2 <;>
      (refine ⟨?_, ?_, ?_, ?_⟩ <;> intro h <;> rw [hph] at h <;> exact Phase.noConfusion h)
  | aFin w ok =>
    obtain ⟨hph, i, g, hstw, hcase⟩ := aFinStep_inv hc
    rcases hcase with ⟨_, ⟨j, g2, _, hs2, _⟩ | ⟨_, hs2, _⟩⟩ | ⟨_, hs2, _⟩ <;> subst hs2 <;>
      (refine ⟨?_, ?_, ?_, ?_⟩ <;> intro h <;> rw [hph] at h <;> exact Phase.noConfusion h)
  | barrier =>
    obtain ⟨hph, hall, hs2, hevs⟩ := barrierStep_inv hc
    have hgev : gEvents evs = [] := inv.a_phase hph
    subst hs2
    subst hevs
    rw [List.append_nil]
    constructor
    case entry1 =>
      intro _ _
      exact ⟨rfl, gFinGs_nil_of_gEvents_nil hgev⟩
    case run1 =>
      intro _ g hw
      simp at hw
    case done1 =>
      intro _ hw
      simp at hw
    case fin1 =>
      intro h
      exact Phase.noConfusion h
  | gClaim w =>
    obtain ⟨hph, hstw, hcase⟩ := gClaimStep_inv hc
    have hlen : s.gworkers.length = 1 := inv.gw_len (by
      rw [hph]
      intro h
      exact Phase.noConfusion h)
    have hw0 : w = 0 := gworker_index_zero hlen hstw
    subst hw0
    have hgw : s.gworkers = [GW.entry] := gworkers_singleton hlen hstw
    obtain ⟨hcur0, hfins⟩ := inv1.entry1 hph hgw
    rcases hcase with ⟨g, hsnd, hs2, hevs⟩ | ⟨hsnd, hs2, hevs⟩
    · obtain ⟨hg, hlt, _, hfst⟩ := genoClaim_some hsnd
      subst hg
      subst hs2
      subst hevs
      have hset : s.gworkers.set 0 (GW.runG s.gcursor) = [GW.runG s.gcursor] := by
        rw [hgw]
        rfl
      constructor
      case entry1 =>
        intro _ hw
        rw [hset] at hw
        simp at hw
      case run1 =>
        intro _ g3 hw
        rw [hset] at hw
        have hg3 : s.gcursor = g3 := by
          injection hw with h1 h2
          injection h1 with h3
        subst hg3
        constructor
        · exact hfst
        · rw [gFinGs_append,
            show gFinGs [Ev.gInvoke 0 s.gcursor (specPathFor cfg s.gcursor)
              (s.shared.aligned.getD s.gcursor [])] = ([] : List Nat) from rfl,
            List.append_nil, hfins, hcur0]
          rfl
      case done1 =>
        intro _ hw
        rw [hset] at hw
        simp at hw
      case fin1 =>
        intro h
        rw [hph] at h
        exact Phase.noConfusion h
    · exfalso
      rcases genoClaim_none hsnd with ⟨htt, _, _⟩ | ⟨hge, _⟩
      · rw [invf.term_false] at htt
        exact Bool.noConfusion htt
      · rw [inv.alen, hcur0] at hge
        omega
  | gFin w ok =>
    obtain ⟨hph, g, hstw, hcase⟩ := gFinStep_inv hc
    have hlen : s.gworkers.length = 1 := inv.gw_len (by
      rw [hph]
      intro h
      exact Phase.noConfusion h)
    have hw0 : w = 0 := gworker_index_zero hlen hstw
    subst hw0
    have hgw : s.gworkers = [GW.runG g] := gworkers_singleton hlen hstw
    obtain ⟨hcur, hfins⟩ := inv1.run1 hph g hgw
    have hwra := writeRecord_aligned cfg s.shared g
    have hwrt := writeRecord_terminate cfg s.shared g
    rcases hcase with ⟨hok, hsub⟩ | ⟨hok, hs2, hevs⟩
    · subst hok
      rcases hsub with ⟨g2, hsnd, hs2, hevs⟩ | ⟨hsnd, hs2, hevs⟩
      · rw [hwra, hwrt] at hsnd
        obtain ⟨hg2, hlt2, _, hfst⟩ := genoClaim_some hsnd
        subst hg2
        have hcur2 : (genoClaim (writeRecord cfg s.shared g).aligned.length
            (writeRecord cfg s.shared g).terminate s.gcursor).1 = s.gcursor + 1 := by
          rw [hwra, hwrt]
          exact hfst
        subst hs2
        subst hevs
        have hset : s.gworkers.set 0 (GW.runG s.gcursor) = [GW.runG s.gcursor] := by
          rw [hgw]
          rfl
        constructor
        case entry1 =>
          intro _ hw
          rw [hset] at hw
          simp at hw
        case run1 =>
          intro _ g3 hw
          rw [hset] at hw
          have hg3 : s.gcursor = g3 := by
            injection hw with h1 h2
            injection h1 with h3
          subst hg3
          constructor
          · exact hcur2
          · rw [gFinGs_append,
              show gFinGs [Ev.gFinish 0 g true,
                Ev.gInvoke 0 s.gcursor (specPathFor cfg s.gcursor)
                  ((writeRecord cfg s.shared g).aligned.getD s.gcursor [])] =
                [g] from rfl,
              hfins, hcur, List.range_succ]
        case done1 =>
          intro _ hw
          rw [hset] at hw
          simp at hw
        case fin1 =>
          intro h
          rw [hph] at h
          exact Phase.noConfusion h
      · rw [hwra, hwrt] at hsnd
        have hcur2 : (genoClaim (writeRecord cfg s.shared g).aligned.length
            (writeRecord cfg s.shared g).terminate s.gcursor).1 = s.gcursor := by
          rcases genoClaim_none hsnd with ⟨htt, _, _⟩ | ⟨_, hfst⟩
          · rw [invf.term_false] at htt
            exact Bool.noConfusion htt
          · rw [hwra, hwrt]
            exact hfst
        subst hs2
        subst hevs
        have hset : s.gworkers.set 0 GW.doneG = [GW.doneG] := by
          rw [hgw]
          rfl
        constructor
        case entry1 =>
          intro _ hw
          rw [hset] at hw
          simp at hw
        case run1 =>
          intro _ g3 hw
          rw [hset] at hw
          simp at hw
        case done1 =>
          intro _ _
          show gFinGs (evs ++ [Ev.gFinish 0 g true]) =
            List.range (genoClaim (writeRecord cfg s.shared g).aligned.length
              (writeRecord cfg s.shared g).terminate s.gcursor).1
          rw [hcur2, gFinGs_append,
            show gFinGs [Ev.gFinish 0 g true] = [g] from rfl,
            hfins, hcur, List.range_succ]
        case fin1 =>
          intro h
          rw [hph] at h
          exact Phase.noConfusion h
    · exfalso
      subst hevs
      have := hnf2 (Ev.gFinish 0 g false) (List.mem_singleton.mpr rfl)
      exact Bool.noConfusion this
  | finalize =>
    obtain ⟨hph, hall, hs2, hevs⟩ := finalizeStep_inv hc
    have hlen : s.gworkers.length = 1 := inv.gw_len (by
      rw [hph]
      intro h
      exact Phase.noConfusion h)
    have hw0 : ∃ st, s.gworkers[0]? = some st := by
      rw [List.getElem?_eq_getElem (by omega)]
      exact ⟨_, rfl⟩
    obtain ⟨st, hst⟩ := hw0
    have hdoneg : st = GW.doneG := by
      have h2 := getElem?_of_mem_all hall hst
      cases st with
      | entry => exact absurd h2 (by simp [GW.isDone])
      | runG g => exact absurd h2 (by simp [GW.isDone])
      | doneG => rfl
    subst hdoneg
    have hgw : s.gworkers = [GW.doneG] := gworkers_singleton hlen hst
    have hfins := inv1.done1 hph hgw
    have hgcur : s.gcursor = numRows cfg := invf.g_done_full hph 0 hst
    subst hs2
    subst hevs
    rw [List.append_nil]
    constructor
    case entry1 =>
      intro h
      exact Phase.noConfusion h
    case run1 =>
      intro h
      exact Phase.noConfusion h
    case done1 =>
      intro h
      exact Phase.noConfusion h
    case fin1 =>
      intro _
      refine ⟨hgcur, ?_⟩
      rw [hfins, hgcur]

theorem inv1_run {cfg : Config} {evs : List Ev} {s : Sys}
    (hrun : Run cfg 1 (initSys cfg 1) evs s) : NoFail evs → Inv1 cfg s evs := by
  induction hrun with
  | refl =>
    intro _
    refine ⟨?_, ?_, ?_, ?_⟩ <;> intro h <;> exact Phase.noConfusion h
  | tail hr hstep ih =>
    intro hnf
    obtain ⟨hnf1, hnf2⟩ := List.forall_mem_append.mp hnf
    have invu := invU_run hr
    have invf := invNF_run (by omega) hr hnf1
    have inv1 := ih hnf1
    obtain ⟨c, hc⟩ := hstep
    exact inv1_step invu invf inv1 hc hnf2

/-- C6: with thread count 1, a complete no-failure run finishes the rows
in strictly ascending GraphIndex order — the finished-row sequence is
exactly `0, 1, …, rows-1` — and, whenever a combined sink is configured,
the records appear in the stream in exactly that ascending order. -/
theorem C6_single_thread_order {cfg : Config} {evs : List Ev} {s : Sys}
    (hrun : Run cfg 1 (initSys cfg 1) evs s) (hnf : NoFail evs)
    (hfin : s.phase = Phase.finished) :
    gFinGs evs = List.range (numRows cfg) ∧
    (cfg.outputFilePath ≠ ("") →
      s.shared.stream =
        openTok cfg ++ streamBody (List.range (numRows cfg)) ++ closeTok cfg) := by
  have h1 := (inv1_run hrun hnf).fin1 hfin
  refine ⟨h1.2, ?_⟩
  intro hfile
  have invf := invNF_run (by omega) hrun hnf
  obtain ⟨hstream, _⟩ := invf.written hfile (Or.inr hfin)
  rw [if_pos hfin, h1.2] at hstream
  exact hstream

theorem C6_single_thread_order_witness :
    gFinGs evsD = List.range (numRows cfgD) ∧
    (cfgD.outputFilePath ≠ ("") →
      sD.shared.stream =
        openTok cfgD ++ streamBody (List.range (numRows cfgD)) ++ closeTok cfgD) :=
  C6_single_thread_order runD (show ∀ e ∈ evsD, isFailEv e = false by decide) rfl

theorem eq_singleton_of_count {l : List Nat} {a : Nat}
    (h : ∀ g : Nat, l.count g = [a].count g) : l = [a] := by
  have hmem : ∀ x ∈ l, x = a := by
    intro x hx
    by_contra hc
    have h1 := h x
    simp [List.count_singleton', hc] at h1
    exact absurd hx (List.count_eq_zero.mp h1)
  have hlen : l.length = 1 := by
    have h1 := h a
    simp at h1
    rw [List.count_eq_length.mpr (fun b hb => (hmem b hb).symm)] at h1
    exact h1
  cases l with
  | nil => simp at hlen
  | cons x t =>
    simp only [List.length_cons] at hlen
    have ht : t = [] := List.eq_nil_of_length_eq_zero (by omega)
    subst ht
    rw [hmem x (by simp)]

theorem gInvGs_eq_map (evs : List Ev) :
    gInvGs evs = (gInvFull evs).map (fun x => x.2.1) := by
  induction evs with
  | nil => rfl
  | cons e t ih =>
    cases e <;> simp [gInvGs, gInvFull, List.filterMap_cons] at * <;> exact ih

theorem mem_gInvFull {evs : List Ev} {w g : Nat} {p : String} {row : List SampleInfo}
    (h : (w, g, p, row) ∈ gInvFull evs) : Ev.gInvoke w g p row ∈ evs := by
  rw [gInvFull, List.mem_filterMap] at h
  obtain ⟨e, he, hmatch⟩ := h
  cases e with
  | gInvoke w2 g2 p2 row2 =>
    simp only [Option.some.injEq, Prod.mk.injEq] at hmatch
    obtain ⟨h1, h2, h3, h4⟩ := hmatch
    subst h1
    subst h2
    subst h3
    subst h4
    exact he
  | aInvoke w2 i2 g2 => exact Option.noConfusion hmatch
  | aFinish w2 i2 g2 ok2 => exact Option.noConfusion hmatch
  | gFinish w2 g2 ok2 => exact Option.noConfusion hmatch

/-- C9: when the graph-spec list is empty, the table has exactly one row
and every complete no-failure run invokes the genotyper exactly once —
with the empty string as graph-spec path and the single row, which holds
all manifest samples, as its sample set. -/
theorem C9_empty_graphs_one_unit {cfg : Config} {N : Nat} {evs : List Ev} {s : Sys}
    (hN : 1 ≤ N) (hempty : cfg.graphSpecPaths = [])
    (hrun : Run cfg N (initSys cfg N) evs s) (hnf : NoFail evs)
    (hfin : s.phase = Phase.finished) :
    numRows cfg = 1 ∧ ∃ w : Nat, gInvFull evs = [(w, 0, (""), cfg.manifest)] := by
  have hng : nGr cfg = 0 := by
    rw [nGr, hempty]
    rfl
  have hrows : numRows cfg = 1 := by
    rw [numRows, hng]
    exact Nat.max_eq_left (Nat.zero_le 1)
  refine ⟨hrows, ?_⟩
  have inv := invU_run hrun
  have invf := invNF_run hN hrun hnf
  have hcounts := invf.ginv_rows hfin
  rw [hrows] at hcounts
  have hsing : gInvGs evs = [0] := by
    apply eq_singleton_of_count
    intro g
    have h1 := hcounts g
    rw [show (List.range 1 : List Nat) = [0] from rfl] at h1
    exact h1
  have hmap := gInvGs_eq_map evs
  rw [hsing] at hmap
  cases hfull : gInvFull evs with
  | nil =>
    rw [hfull] at hmap
    exact absurd hmap (by simp)
  | cons x rest =>
    cases rest with
    | cons y t =>
      rw [hfull] at hmap
      simp at hmap
    | nil =>
      rw [hfull] at hmap
      simp only [List.map_cons, List.map_nil] at hmap
      have hx : x.2.1 = 0 := by
        injection hmap with h1 _
        exact h1.symm
      obtain ⟨w, g, p, row⟩ := x
      simp only at hx
      subst hx
      have hmem : Ev.gInvoke w 0 p row ∈ evs :=
        mem_gInvFull (by rw [hfull]; exact List.mem_singleton.mpr rfl)
      obtain ⟨hp, hrow, _⟩ := inv.ginv_content w 0 p row hmem
      have hp2 : p = ("") := by
        rw [hp, specPathFor, if_pos (by rw [hempty]; rfl)]
      have hrow2 : row = cfg.manifest := by
        rw [hrow, inv.aligned_zero hng, initAligned, hrows]
        rfl
      exact ⟨w, by rw [hp2, hrow2]⟩

/-- A configuration with no graph specs and a single pre-aligned sample. -/
def cfgE : Config :=
  { graphSpecPaths := []
    manifest := [{ sampleName := ("s1"), filename := ("f1"), indexFilename := ("fi1"),
                   alignmentData := some ("payload") }]
    outputFilePath := ("")
    outputFolderPath := ("") }

/-- Scheduler choices of a complete single-threaded run of `cfgE`. -/
def csE : List Choice :=
  [Choice.aSeg 0, Choice.barrier, Choice.gClaim 0, Choice.gFin 0 true, Choice.finalize]

/-- The events of that run. -/
def evsE : List Ev :=
  [Ev.gInvoke 0 0 ("")
     [{ sampleName := ("s1"), filename := ("f1"), indexFilename := ("fi1"),
        alignmentData := some ("payload") }],
   Ev.gFinish 0 0 true]

/-- The final state of that run. -/
def sE : Sys :=
  { shared :=
      { unaligned := [{ sample := { sampleName := ("s1"), filename := ("f1"),
                                    indexFilename := ("fi1"),
                                    alignmentData := some ("payload") }
                        unprocessedGraphs := 0 }]
        aligned := [[{ sampleName := ("s1"), filename := ("f1"), indexFilename := ("fi1"),
                       alignmentData := some ("payload") }]]
        terminate := false
        firstPrinted := false
        stream := [] }
    phase := Phase.finished
    aworkers := [AW.doneA]
    gcursor := 1
    gworkers := [GW.doneG] }

theorem runStepsE : runSteps cfgE 1 (initSys cfgE 1) csE = some (sE, evsE) := rfl

theorem runE : Run cfgE 1 (initSys cfgE 1) evsE sE :=
  run_of_runSteps runStepsE

theorem C9_empty_graphs_one_unit_witness :
    numRows cfgE = 1 ∧ ∃ w : Nat, gInvFull evsE = [(w, 0, (""), cfgE.manifest)] :=
  C9_empty_graphs_one_unit (by decide) rfl runE
    (show ∀ e ∈ evsE, isFailEv e = false by decide) rfl

/-- Modelled from the spec: the collaborators of option post-processing
(assertFileExists and friends from common/Program.hh,
genotyping::loadManifest, boost::filesystem — none of them under src/)
are treated as oracles supplied by the environment. -/
structure Fs where
  fileExists : String → Bool
  isDirectory : String → Bool
  filenameOf : String → String
  loadManifest : String → List SampleInfo

/-- The parsed command line as seen by Options::postProcess
(grmpy.cpp:147-245): which options were present in the variables_map and
the string members bound directly by the parser. -/
structure VarMap where
  reference : Option String
  graphSpec : Option (List String)
  manifestPath : Option String
  outputFolder : Option String
  output_file_path : String
  alignment_output_path : String

/-- The option members produced by post-processing and handed to
`runGrmpy` (grmpy.cpp:247-258). -/
structure PPOpts where
  reference_path : String
  graph_spec_paths : List String
  output_file_path : String
  output_folder_path : String
  manifest : List SampleInfo
  alignment_output_path : String

/-- The manifest block of Options::postProcess (grmpy.cpp:207-244):
load the manifest and validate it against the graph-spec list — with no
graphs every sample must be pre-aligned, and with more than one graph no
sample may be pre-aligned. -/
def postProcessManifest (fs : Fs) (vm : VarMap) (reference_path : String)
    (graph_spec_paths : List String) (output_file_path alignment_output_path : String) :
    Except String PPOpts :=
  match vm.manifestPath with
  | none => Except.error ("Error: Manifest file is missing.")
  | some mp =>
    if fs.fileExists mp = false then
      Except.error ("assertFileExists: manifest")
    else
      let manifest := fs.loadManifest mp
      if graph_spec_paths = [] then
        if manifest.any (fun smp => smp.alignmentData.isNone) then
          Except.error
            ("Error: No graphs given on the command line and sample has empty paragraph column in the manifest.")
        else
          Except.ok
            { reference_path := reference_path
              graph_spec_paths := graph_spec_paths
              output_file_path := output_file_path
              output_folder_path := (vm.outputFolder.getD (""))
              manifest := manifest
              alignment_output_path := alignment_output_path }
      else if 1 < graph_spec_paths.length then
        if manifest.any (fun smp => !smp.alignmentData.isNone) then
          Except.error
            ("ERROR: Pre-aligned samples are allowed only when genotyping for a single variant.")
        else
          Except.ok
            { reference_path := reference_path
              graph_spec_paths := graph_spec_paths
              output_file_path := output_file_path
              output_folder_path := (vm.outputFolder.getD (""))
              manifest := manifest
              alignment_output_path := alignment_output_path }
      else
        Except.ok
          { reference_path := reference_path
            graph_spec_paths := graph_spec_paths
            output_file_path := output_file_path
            output_folder_path := (vm.outputFolder.getD (""))
            manifest := manifest
            alignment_output_path := alignment_output_path }

/-- Options::postProcess (grmpy.cpp:147-245), in command order: the
reference check, the graph-spec existence and uniqueness checks, the
output-file default, the alignment-output-folder handling, then the
manifest block. `error(...)` aborts the process, modelled as
`Except.error`. -/
def postProcess (fs : Fs) (vm : VarMap) : Except String PPOpts :=
  match vm.reference with
  | none => Except.error ("Error: Reference genome path is missing.")
  | some r =>
    if fs.fileExists r = false then
      Except.error ("assertFileExists: reference")
    else
      let graph_spec_paths := vm.graphSpec.getD []
      if vm.graphSpec.isSome ∧ ¬ graph_spec_paths.all fs.fileExists = true then
        Except.error ("assertFilesExist: graph specs")
      else if vm.graphSpec.isSome ∧ vm.outputFolder.isSome ∧
          ¬ (graph_spec_paths.map fs.filenameOf).Nodup then
        Except.error ("assertFileNamesUnique: graph specs")
      else
        let output_file_path :=
          if vm.output_file_path = ("") ∧ vm.outputFolder.isNone then ("-")
          else vm.output_file_path
        let aop0 := vm.alignment_output_path
        if aop0 = ("") then
          postProcessManifest fs vm r graph_spec_paths output_file_path aop0
        else if aop0.startsWith ("!") then
          postProcessManifest fs vm r graph_spec_paths output_file_path (aop0.drop 1)
        else if fs.isDirectory aop0 then
          Except.error ("Alignment output folder already exists.")
        else
          postProcessManifest fs vm r graph_spec_paths output_file_path aop0

/-- The Workflow constructor arguments taken from the post-processed
options (runGrmpy, grmpy.cpp:254-256). -/
def configOf (opts : PPOpts) : Config :=
  { graphSpecPaths := opts.graph_spec_paths
    manifest := opts.manifest
    outputFilePath := opts.output_file_path
    outputFolderPath := opts.output_folder_path }

theorem postProcessManifest_ok {fs : Fs} {vm : VarMap} {r : String}
    {gs : List String} {ofp aop : String} {opts : PPOpts}
    (h : postProcessManifest fs vm r gs ofp aop = Except.ok opts) :
    opts.graph_spec_paths = gs ∧
    (1 < gs.length → ∀ smp ∈ opts.manifest, smp.alignmentData.isNone = true) := by
  unfold postProcessManifest at h
  split at h
  · exact Except.noConfusion h
  · next mp hmp =>
    split at h
    · exact Except.noConfusion h
    · dsimp only at h
      split at h
      · next hnil =>
        split at h
        · exact Except.noConfusion h
        · simp only [Except.ok.injEq] at h
          subst h
          refine ⟨rfl, ?_⟩
          intro hlen
          rw [hnil] at hlen
          exact absurd hlen (by simp)
      · next hnil =>
        split at h
        · next hmany =>
          split at h
          · exact Except.noConfusion h
          · next hany =>
            simp only [Except.ok.injEq] at h
            subst h
            refine ⟨rfl, ?_⟩
            intro _ smp hsmp
            rw [List.any_eq_true] at hany
            push_neg at hany
            have := hany smp hsmp
            cases hiso : smp.alignmentData.isNone
            · exact absurd (by rw [hiso]; rfl) this
            · rfl
        · next hmany =>
          simp only [Except.ok.injEq] at h
          subst h
          refine ⟨rfl, ?_⟩
          intro hlen
          exact absurd hlen hmany

/-- C8: the input error of combining pre-aligned manifest samples with
more than one graph spec is detected by Options::postProcess: any
options object that survives post-processing — the only object ever
handed to the Workflow — cannot pair a graph-spec list of size greater
than one with a sample carrying a non-null alignment payload, so the
error is fatal before any phase of the workflow starts. -/
theorem C8_prealigned_multigraph_fatal (fs : Fs) (vm : VarMap) :
    ∀ opts : PPOpts, postProcess fs vm = Except.ok opts →
      1 < nGr (configOf opts) →
      ∀ smp ∈ (configOf opts).manifest, smp.alignmentData.isNone = true := by
  intro opts h hlen smp hsmp
  unfold postProcess at h
  split at h
  · exact Except.noConfusion h
  · next r hr =>
    split at h
    · exact Except.noConfusion h
    · dsimp only at h
      split at h
      · exact Except.noConfusion h
      · split at h
        · exact Except.noConfusion h
        · split at h
          · obtain ⟨hgseq, hall⟩ := postProcessManifest_ok h
            have hlen2 : 1 < (vm.graphSpec.getD []).length := by
              have : nGr (configOf opts) = opts.graph_spec_paths.length := rfl
              rw [this, hgseq] at hlen
              exact hlen
            exact hall hlen2 smp hsmp
          · split at h
            · obtain ⟨hgseq, hall⟩ := postProcessManifest_ok h
              have hlen2 : 1 < (vm.graphSpec.getD []).length := by
                have : nGr (configOf opts) = opts.graph_spec_paths.length := rfl
                rw [this, hgseq] at hlen
                exact hlen
              exact hall hlen2 smp hsmp
            · split at h
              · exact Except.noConfusion h
              · obtain ⟨hgseq, hall⟩ := postProcessManifest_ok h
                have hlen2 : 1 < (vm.graphSpec.getD []).length := by
                  have : nGr (configOf opts) = opts.graph_spec_paths.length := rfl
                  rw [this, hgseq] at hlen
                  exact hlen
                exact hall hlen2 smp hsmp

/-- An oracle environment in which every file exists, no directory
pre-exists, and the manifest loads to a single non-pre-aligned sample. -/
def fsW : Fs :=
  { fileExists := fun _ => true
    isDirectory := fun _ => false
    filenameOf := fun p => p
    loadManifest := fun _ =>
      [{ sampleName := ("s1"), filename := ("f1"), indexFilename := ("fi1"),
         alignmentData := none }] }

/-- A command line with two graph specs and a manifest. -/
def vmW : VarMap :=
  { reference := some ("ref.fa")
    graphSpec := some [("g1.json"), ("g2.json")]
    manifestPath := some ("m.txt")
    outputFolder := none
    output_file_path := ("")
    alignment_output_path := ("") }

/-- The options object post-processing produces for `fsW`/`vmW`. -/
def optsW : PPOpts :=
  { reference_path := ("ref.fa")
    graph_spec_paths := [("g1.json"), ("g2.json")]
    output_file_path := ("-")
    output_folder_path := ("")
    manifest := [{ sampleName := ("s1"), filename := ("f1"), indexFilename := ("fi1"),
                   alignmentData := none }]
    alignment_output_path := ("") }

/-- The single sample of `optsW`. -/
def smpW : SampleInfo :=
  { sampleName := ("s1"), filename := ("f1"), indexFilename := ("fi1"),
    alignmentData := none }

theorem C8_prealigned_multigraph_fatal_witness :
    smpW.alignmentData.isNone = true :=
  C8_prealigned_multigraph_fatal fsW vmW optsW rfl (by decide) smpW (by decide)

end Grmpy
